import Mathlib

/-!
# Lightweight VIO front-end: features, frames, temporal tracker, stereo gates

A shallow embedding of `src/database/Feature.{h,cpp}`, `src/database/Frame.{h,cpp}` and
`src/module/FeatureTracker.{h,cpp}`.

Conventions of the embedding.

* A `float` / `double` member, argument or oracle output is the rational number it denotes (a
  finite value). The results of the `float` and `double` operations of the stereo stage are
  rounded as IEEE 754 prescribes (nearest, ties to even), with overflow to an infinity.
* `int` is modelled by `ℤ`, `size_t` by `ℕ`; the increment of the `int` id counter wraps around
  from `INT_MAX` to `INT_MIN`, and where the source mixes `int` and `size_t` in one expression
  the conversion to a 64-bit unsigned value is written out.
* `std::shared_ptr<Frame>` arguments that may be null are `Option Frame`; a function that
  mutates a frame returns the new frame.
* The OpenCV primitives (`goodFeaturesToTrack`, `calcOpticalFlowPyrLK`, `findFundamentalMat`)
  are black boxes: they are fields of an `Oracles` record and every theorem quantifies over
  them.
-/

set_option autoImplicit false

namespace lightweight_vio

/-! ## OpenCV value types -/

/-- The type `cv::Point2f`. -/
structure Point2f where
  x : ℚ
  y : ℚ
deriving DecidableEq

/-- The type `cv::Size`. -/
structure Size where
  width : ℤ
  height : ℤ
deriving DecidableEq

/-- The type `cv::Mat` used as an image: its dimensions and its pixel data. -/
structure Mat where
  rows : ℕ
  cols : ℕ
  data : List ℕ
deriving DecidableEq

/-- The test `cv::Mat::empty()`: no element. -/
def Mat.empty (m : Mat) : Bool := m.rows * m.cols == 0

/-- The call `cv::Mat::size()`: width is the number of columns, height the number of rows. -/
def Mat.size (m : Mat) : Size := ⟨(m.cols : ℤ), (m.rows : ℤ)⟩

/-- The default-constructed `cv::Mat()`. -/
def Mat.none : Mat := ⟨0, 0, []⟩

/-- The function `cvRound`: the nearest integer, a tie going to the even neighbour (the behaviour of
the `lrint` / SSE2 conversion that OpenCV uses under the default rounding mode). -/
def cvRound (v : ℚ) : ℤ :=
  let f := ⌊v⌋
  let r := v - (f : ℚ)
  if r < 1 / 2 then f
  else if 1 / 2 < r then f + 1
  else if f % 2 = 0 then f else f + 1

/-! ## Binary floating-point arithmetic (`float`, `double`)

The IEEE 754 arithmetic of the types `float` (binary32) and `double` (binary64) under the default
rounding mode: the result of an operation is the exact result rounded to the nearest value of
the format, a tie going to the value with the even significand. -/

/-- A value of a binary floating-point type: a finite value, given by the rational number it
denotes (the sign of a zero is not kept), an infinity, or a NaN. -/
inductive FloatValue where
  | finite (value : ℚ)
  | infinity (negative : Bool)
  | nan
deriving DecidableEq

/-- The power `2 ^ e` for an integer exponent `e`. -/
def two_pow (e : ℤ) : ℚ :=
  if 0 ≤ e then ((2 ^ e.toNat : ℕ) : ℚ) else 1 / ((2 ^ (-e).toNat : ℕ) : ℚ)

/-- The number of binary digits of `n`; `fuel` bounds the recursion, `fuel = n` suffices. -/
def binary_digits : ℕ → ℕ → ℕ
  | 0, _ => 0
  | fuel + 1, n => if n = 0 then 0 else binary_digits fuel (n / 2) + 1

/-- The exponent `⌊log₂ |v|⌋` of a non-zero rational `v`. -/
def binary_exponent (v : ℚ) : ℤ :=
  let e : ℤ := (binary_digits v.num.natAbs v.num.natAbs : ℤ) - (binary_digits v.den v.den : ℤ)
  if two_pow e ≤ |v| then e else e - 1

/-- The nearest integer, a tie going to the even neighbour. -/
def round_half_even (v : ℚ) : ℤ :=
  let f := ⌊v⌋
  let r := v - (f : ℚ)
  if r < 1 / 2 then f
  else if 1 / 2 < r then f + 1
  else if f % 2 = 0 then f else f + 1

/-- The rounding of the exact result `v` of an operation to the binary format with `precision`
significand bits and the exponent range `emin` to `emax`: the nearest multiple of the spacing
`2 ^ (e - precision + 1)` at the exponent `e` of `v` (at `emin` in the subnormal range), a tie
going to the even multiple; a rounded magnitude of `2 ^ (emax + 1)` or more overflows to the
infinity of the sign of `v`. -/
def round_to_format (precision : ℕ) (emin emax : ℤ) (v : ℚ) : FloatValue :=
  if v = 0 then FloatValue.finite 0
  else
    let quantum := two_pow (max (binary_exponent v) emin - ((precision : ℤ) - 1))
    let r := (round_half_even (v / quantum) : ℚ) * quantum
    if |r| < two_pow (emax + 1) then FloatValue.finite r
    else FloatValue.infinity (decide (v < 0))

/-- Rounding to `float`: 24 significand bits, exponents -126 to 127. -/
def round_float (v : ℚ) : FloatValue := round_to_format 24 (-126) 127 v

/-- Rounding to `double`: 53 significand bits, exponents -1022 to 1023. -/
def round_double (v : ℚ) : FloatValue := round_to_format 53 (-1022) 1023 v

namespace FloatValue

/-- The function `std::abs` on a floating-point value. -/
def abs : FloatValue → FloatValue
  | finite a => finite |a|
  | infinity _ => infinity false
  | nan => nan

/-- The sum `a + b`, rounded by `rnd`; the sum of the two opposite infinities is a NaN. -/
def add (rnd : ℚ → FloatValue) : FloatValue → FloatValue → FloatValue
  | finite a, finite b => rnd (a + b)
  | finite _, infinity t => infinity t
  | infinity s, finite _ => infinity s
  | infinity s, infinity t => if s = t then infinity s else nan
  | _, _ => nan

/-- The product `a * b`, rounded by `rnd`; the product of a zero and an infinity is a NaN. -/
def mul (rnd : ℚ → FloatValue) : FloatValue → FloatValue → FloatValue
  | finite a, finite b => rnd (a * b)
  | finite a, infinity t => if a = 0 then nan else infinity (xor (decide (a < 0)) t)
  | infinity s, finite b => if b = 0 then nan else infinity (xor s (decide (b < 0)))
  | infinity s, infinity t => infinity (xor s t)
  | _, _ => nan

/-- The quotient `a / b`, rounded by `rnd`. A zero divisor gives an infinity (a NaN for `0 / 0`);
as the sign of a zero is not kept, the infinity takes the sign of the dividend (the embedded code
divides by values above 0.5 only). -/
def div (rnd : ℚ → FloatValue) : FloatValue → FloatValue → FloatValue
  | finite a, finite b =>
    if b = 0 then (if a = 0 then nan else infinity (decide (a < 0))) else rnd (a / b)
  | finite _, infinity _ => finite 0
  | infinity s, finite b => infinity (xor s (decide (b < 0)))
  | _, _ => nan

/-- The comparison `a < b`: false as soon as an operand is a NaN. -/
def lt : FloatValue → FloatValue → Bool
  | finite a, finite b => decide (a < b)
  | finite _, infinity t => !t
  | infinity s, finite _ => s
  | infinity s, infinity t => s && !t
  | _, _ => false

end FloatValue

/-- The `float` literal `0.1f`: the value of the format nearest to 0.1. -/
def float_0_1 : ℚ := 13421773 / 134217728

/-- The `float` difference `a - b` of two finite values. -/
def float_sub (a b : ℚ) : FloatValue := round_float (a - b)

/-- The `float` product `a * b` of two finite values. -/
def float_mul (a b : ℚ) : FloatValue := round_float (a * b)

/-- The `double` sum `(a0 * b0 + a1 * b1) + a2 * b2` of one entry of a `cv::Mat` product of
doubles: the three products are accumulated in index order, each product and each sum rounded
to `double`. -/
def double_dot (a0 a1 a2 b0 b1 b2 : FloatValue) : FloatValue :=
  FloatValue.add round_double
    (FloatValue.add round_double (FloatValue.mul round_double a0 b0)
      (FloatValue.mul round_double a1 b1))
    (FloatValue.mul round_double a2 b2)

/-! ## The `int` id counter -/

/-- The increment `n++` of a 32-bit `int`: from `INT_MAX = 2^31 - 1` the value wraps around to
`INT_MIN = -2^31` (two's complement). -/
def int_increment (n : ℤ) : ℤ := if n = 2 ^ 31 - 1 then -2 ^ 31 else n + 1

/-! ## Feature (`src/database/Feature.h`, `src/database/Feature.cpp`) -/

/-- The class `Feature`: the private members of `Feature.h`, in declaration order. -/
structure Feature where
  m_feature_id : ℤ
  m_pixel_coord : Point2f
  m_normalized_coord : Point2f
  m_velocity : Point2f
  m_track_count : ℤ
  m_depth : ℚ
  m_is_valid : Bool
  m_right_coord : Point2f
  m_disparity : ℚ
  m_has_stereo_match : Bool
deriving DecidableEq

namespace Feature

/-- The constructor `Feature::Feature(int feature_id, const cv::Point2f& pixel_coord)`. -/
def new (feature_id : ℤ) (pixel_coord : Point2f) : Feature :=
  { m_feature_id := feature_id
    m_pixel_coord := pixel_coord
    m_normalized_coord := ⟨0, 0⟩
    m_velocity := ⟨0, 0⟩
    m_track_count := 1
    m_depth := -1
    m_is_valid := true
    m_right_coord := ⟨-1, -1⟩
    m_disparity := -1
    m_has_stereo_match := false }

def get_feature_id (f : Feature) : ℤ := f.m_feature_id
def get_pixel_coord (f : Feature) : Point2f := f.m_pixel_coord
def get_depth (f : Feature) : ℚ := f.m_depth
def get_track_count (f : Feature) : ℤ := f.m_track_count
def is_valid (f : Feature) : Bool := f.m_is_valid
def has_stereo_match (f : Feature) : Bool := f.m_has_stereo_match
def get_right_coord (f : Feature) : Point2f := f.m_right_coord
def get_stereo_disparity (f : Feature) : ℚ := f.m_disparity

def set_pixel_coord (f : Feature) (coord : Point2f) : Feature := { f with m_pixel_coord := coord }
def set_depth (f : Feature) (depth : ℚ) : Feature := { f with m_depth := depth }
def set_track_count (f : Feature) (count : ℤ) : Feature := { f with m_track_count := count }
def set_valid (f : Feature) (valid : Bool) : Feature := { f with m_is_valid := valid }

/-- The method `Feature::set_stereo_match`. -/
def set_stereo_match (f : Feature) (right_coord : Point2f) (disparity : ℚ) : Feature :=
  { f with m_right_coord := right_coord, m_disparity := disparity, m_has_stereo_match := true }

end Feature

/-! ## Frame (`src/database/Frame.h`, `src/database/Frame.cpp`) -/

/-- The class `Frame`. The member `m_feature_id_to_index` (a `std::unordered_map<int, size_t>`) is
the partial map it denotes. The pose members and the detector parameters, which none of the
embedded methods reads or writes, are left out. -/
structure Frame where
  m_timestamp : ℤ
  m_frame_id : ℤ
  m_left_image : Mat
  m_right_image : Mat
  m_features : List Feature
  m_feature_id_to_index : ℤ → Option ℕ
  m_is_keyframe : Bool

namespace Frame

/-- The constructor `Frame::Frame(long long timestamp, int frame_id)`: no image, no feature. -/
def new (timestamp : ℤ) (frame_id : ℤ) : Frame :=
  { m_timestamp := timestamp
    m_frame_id := frame_id
    m_left_image := Mat.none
    m_right_image := Mat.none
    m_features := []
    m_feature_id_to_index := fun _ => Option.none
    m_is_keyframe := false }

def get_image (fr : Frame) : Mat := fr.m_left_image
def get_features (fr : Frame) : List Feature := fr.m_features
def get_feature_count (fr : Frame) : ℕ := fr.m_features.length
def is_stereo (fr : Frame) : Bool := !fr.m_right_image.empty

def set_left_image (fr : Frame) (image : Mat) : Frame := { fr with m_left_image := image }
def set_stereo_images (fr : Frame) (left_image right_image : Mat) : Frame :=
  { fr with m_left_image := left_image, m_right_image := right_image }

/-- The method `Frame::add_feature`: push back, then `index[id] = size - 1`. -/
def add_feature (fr : Frame) (feature : Feature) : Frame :=
  { fr with
    m_features := fr.m_features ++ [feature]
    m_feature_id_to_index :=
      Function.update fr.m_feature_id_to_index feature.get_feature_id
        (some ((fr.m_features ++ [feature]).length - 1)) }

/-- The index built by `Frame::update_feature_index`: cleared, then `index[id_i] = i` for
`i = 0, 1, ...` in order (a later position overwrites an earlier one). -/
def rebuilt_index (features : List Feature) : ℤ → Option ℕ :=
  (List.range features.length).foldl
    (fun idx i =>
      match features.get? i with
      | some f => Function.update idx f.get_feature_id (some i)
      | Option.none => idx)
    (fun _ => Option.none)

/-- The method `Frame::update_feature_index`. -/
def update_feature_index (fr : Frame) : Frame :=
  { fr with m_feature_id_to_index := rebuilt_index fr.m_features }

/-- The method `Frame::remove_feature`: look the id up in the index; when found erase the
feature at that position, erase the index entry and rebuild the index. -/
def remove_feature (fr : Frame) (feature_id : ℤ) : Frame :=
  match fr.m_feature_id_to_index feature_id with
  | some index =>
    update_feature_index
      { fr with
        m_features := fr.m_features.eraseIdx index
        m_feature_id_to_index := Function.update fr.m_feature_id_to_index feature_id Option.none }
  | Option.none => fr

/-- The method `Frame::get_feature`: the feature at the indexed position, or null. -/
def get_feature (fr : Frame) (feature_id : ℤ) : Option Feature :=
  match fr.m_feature_id_to_index feature_id with
  | some index => fr.m_features.get? index
  | Option.none => Option.none

end Frame

/-! ## The vision primitives consumed as black boxes -/

/-- The detection mask built in `extract_new_features`: all ones over the image, with a filled
disk of zeros (centre, radius) drawn by each `cv::circle` call, in call order. -/
structure Mask where
  size : Size
  disks : List (Point2f × ℚ)

/-- Parameters of one `cv::calcOpticalFlowPyrLK` call: window, pyramid levels, termination
criteria (count, epsilon), flags and minimal eigenvalue threshold. -/
structure LKParams where
  win_size : Size
  max_level : ℤ
  criteria : ℤ × ℚ
  flags : ℤ
  min_eig_threshold : ℚ

/-- Outputs of one `cv::calcOpticalFlowPyrLK` call: next points, status bytes and errors. -/
structure LKResult where
  next_pts : List Point2f
  status : List ℕ
  err : List ℚ

/-- A 3×3 matrix of doubles, row by row. -/
structure Mat33 where
  m00 : ℚ
  m01 : ℚ
  m02 : ℚ
  m10 : ℚ
  m11 : ℚ
  m12 : ℚ
  m20 : ℚ
  m21 : ℚ
  m22 : ℚ
deriving DecidableEq

/-- The vision primitives. `findFundamentalMat` returns the matrix (`Option.none` for an empty
`cv::Mat`) and the inlier mask it writes. -/
structure Oracles where
  goodFeaturesToTrack : Mat → ℤ → ℚ → ℚ → Mask → List Point2f
  calcOpticalFlowPyrLK : Mat → Mat → List Point2f → LKParams → LKResult
  findFundamentalMat : List Point2f → List Point2f → ℚ → ℚ → Option Mat33 × List ℕ

/-! ## FeatureTracker (`src/module/FeatureTracker.h`, `src/module/FeatureTracker.cpp`) -/

/-- The class `FeatureTracker`: its private members. -/
structure FeatureTracker where
  m_max_features : ℤ
  m_quality_level : ℚ
  m_min_distance : ℚ
  m_f_threshold : ℚ
  m_win_size : Size
  m_max_level : ℤ
  m_criteria : ℤ × ℚ
  m_global_feature_id : ℤ

namespace FeatureTracker

/-- The constructor `FeatureTracker::FeatureTracker()`. -/
def new : FeatureTracker :=
  { m_max_features := 150
    m_quality_level := 1 / 100
    m_min_distance := 30
    m_f_threshold := 1
    m_win_size := ⟨21, 21⟩
    m_max_level := 3
    m_criteria := (30, 1 / 100)
    m_global_feature_id := 0 }

def set_max_features (tr : FeatureTracker) (max_features : ℤ) : FeatureTracker :=
  { tr with m_max_features := max_features }

/-- The method `FeatureTracker::is_in_border` (the header gives `border_size` the default 1). -/
def is_in_border (point : Point2f) (img_size : Size) (border_size : ℤ) : Bool :=
  let img_x := cvRound point.x
  let img_y := cvRound point.y
  decide (border_size ≤ img_x) && decide (img_x < img_size.width - border_size) &&
    decide (border_size ≤ img_y) && decide (img_y < img_size.height - border_size)

/-- The method `FeatureTracker::extract_points_from_features`: the pixel coordinates of the valid
features, in store order. -/
def extract_points_from_features (features : List Feature) : List Point2f :=
  (features.filter Feature.is_valid).map Feature.get_pixel_coord

/-- The method `FeatureTracker::update_feature_track_count`. -/
def update_feature_track_count (frame : Frame) : Frame :=
  { frame with
    m_features := frame.m_features.map
      (fun feature =>
        if feature.is_valid then feature.set_track_count (feature.get_track_count + 1)
        else feature) }

/-- Body of the loop of `optical_flow_tracking` (lines 109-120) at index `i`. The feature
`previous_frame->get_features()[i]` is read at the index of the submitted point. -/
def optical_flow_step (previous_frame : Frame) (img_size : Size) (res : LKResult)
    (current_frame : Frame) (i : ℕ) : Frame :=
  if res.status.getD i 0 ≠ 0 ∧ is_in_border (res.next_pts.getD i ⟨0, 0⟩) img_size 1 = true then
    match previous_frame.get_features.get? i with
    | some prev_feature =>
      let new_feature := Feature.new prev_feature.get_feature_id (res.next_pts.getD i ⟨0, 0⟩)
      let new_feature := new_feature.set_track_count (prev_feature.get_track_count + 1)
      current_frame.add_feature new_feature
    | Option.none => current_frame
  else current_frame

/-- The method `FeatureTracker::optical_flow_tracking`. -/
def optical_flow_tracking (O : Oracles) (tr : FeatureTracker) (current_frame previous_frame : Frame) :
    Frame :=
  if previous_frame.get_feature_count = 0 then current_frame
  else
    let prev_pts := extract_points_from_features previous_frame.get_features
    let res := O.calcOpticalFlowPyrLK previous_frame.get_image current_frame.get_image prev_pts
      ⟨tr.m_win_size, tr.m_max_level, tr.m_criteria, 0, 1 / 10000⟩
    (List.range prev_pts.length).foldl
      (optical_flow_step previous_frame current_frame.get_image.size res) current_frame

/-- The correspondences collected by `reject_outliers_with_fundamental_matrix` (lines 139-146):
for each current feature whose id is found, valid, in the previous frame, the previous
coordinate, the current coordinate and the id. -/
def collect_correspondences (current_frame previous_frame : Frame) :
    List (Point2f × Point2f × ℤ) :=
  current_frame.get_features.filterMap
    (fun feature =>
      match previous_frame.get_feature feature.get_feature_id with
      | some prev_feature =>
        if prev_feature.is_valid then
          some (prev_feature.get_pixel_coord, feature.get_pixel_coord, feature.get_feature_id)
        else Option.none
      | Option.none => Option.none)

/-- The removal loop of `reject_outliers_with_fundamental_matrix` (lines 157-161). -/
def remove_outliers (status : List ℕ) (feature_ids : List ℤ) (current_frame : Frame) : Frame :=
  (List.range status.length).foldl
    (fun cur i =>
      if status.getD i 0 = 0 then
        match feature_ids.get? i with
        | some id => cur.remove_feature id
        | Option.none => cur
      else cur)
    current_frame

/-- The method `FeatureTracker::reject_outliers_with_fundamental_matrix`. -/
def reject_outliers_with_fundamental_matrix (O : Oracles) (tr : FeatureTracker)
    (current_frame previous_frame : Frame) : Frame :=
  if current_frame.get_feature_count < 8 then current_frame
  else
    let corr := collect_correspondences current_frame previous_frame
    let prev_pts := corr.map (fun c => c.1)
    let cur_pts := corr.map (fun c => c.2.1)
    let feature_ids := corr.map (fun c => c.2.2)
    if prev_pts.length < 8 then current_frame
    else
      let status := (O.findFundamentalMat prev_pts cur_pts tr.m_f_threshold (99 / 100)).2
      remove_outliers status feature_ids current_frame

/-- The method `FeatureTracker::set_mask`: a placeholder that only prints. -/
def set_mask (frame : Frame) : Frame := frame

/-- The value of the `int maxCorners` argument `m_max_features - frame->get_feature_count()`:
the subtraction is done in `size_t` (64-bit unsigned) and narrowed to a 32-bit `int`. -/
def max_corners_arg (max_features : ℤ) (count : ℕ) : ℤ :=
  (((max_features - (count : ℤ)) % 2 ^ 64 + 2 ^ 31) % 2 ^ 32) - 2 ^ 31

/-- The minting loop of `extract_new_features` (lines 76-79). -/
def mint_features (corners : List Point2f) (tr : FeatureTracker) (frame : Frame) :
    FeatureTracker × Frame :=
  corners.foldl
    (fun s corner =>
      ({ s.1 with m_global_feature_id := int_increment s.1.m_global_feature_id },
        s.2.add_feature (Feature.new s.1.m_global_feature_id corner)))
    (tr, frame)

/-- The method `FeatureTracker::extract_new_features`. -/
def extract_new_features (O : Oracles) (tr : FeatureTracker) (frame : Frame) :
    FeatureTracker × Frame :=
  if frame.get_image.empty then (tr, frame)
  else
    let mask : Mask :=
      ⟨frame.get_image.size,
        (frame.get_features.filter Feature.is_valid).map
          (fun feature => (feature.get_pixel_coord, tr.m_min_distance))⟩
    let corners := O.goodFeaturesToTrack frame.get_image
      (max_corners_arg tr.m_max_features frame.get_feature_count)
      tr.m_quality_level tr.m_min_distance mask
    mint_features corners tr frame

/-- The test `current_frame->get_feature_count() < m_max_features` of `track_features`: a
`size_t` compared with an `int`, so the `int` is first converted to 64-bit unsigned. -/
def below_max_features (count : ℕ) (max_features : ℤ) : Bool :=
  decide ((count : ℤ) < max_features % 2 ^ 64)

/-- The method `FeatureTracker::track_features`. A null current frame returns at once. -/
def track_features (O : Oracles) (tr : FeatureTracker) (current_frame previous_frame : Option Frame) :
    FeatureTracker × Option Frame :=
  match current_frame with
  | Option.none => (tr, Option.none)
  | some current =>
    let current :=
      match previous_frame with
      | some previous =>
        let c := optical_flow_tracking O tr current previous
        let c := reject_outliers_with_fundamental_matrix O tr c previous
        update_feature_track_count c
      | Option.none => current
    if below_max_features current.get_feature_count tr.m_max_features then
      let r := extract_new_features O tr (set_mask current)
      (r.1, some r.2)
    else (tr, some current)

end FeatureTracker

/-! ## Stereo correspondence and depth (`src/database/Frame.cpp`, lines 195-342) -/

namespace Frame

/-- The test `status[feature_idx] && err[feature_idx] < 50.0f` (lines 235 and 261). -/
def is_loose (res : LKResult) (feature_idx : ℕ) : Bool :=
  decide (res.status.getD feature_idx 0 ≠ 0) && decide (res.err.getD feature_idx 0 < 50)

/-- The first scan of `compute_stereo_matches` (lines 232-241): the loose candidate pairs
`(good_left_pts[k], good_right_pts[k])`, with the running `feature_idx`. -/
def collect_loose (left_pts : List Point2f) (res : LKResult) :
    ℕ → List Feature → List (Point2f × Point2f)
  | _, [] => []
  | feature_idx, feature :: rest =>
    if feature.is_valid = true ∧ feature_idx < res.status.length then
      if is_loose res feature_idx = true then
        (left_pts.getD feature_idx ⟨0, 0⟩, res.next_pts.getD feature_idx ⟨0, 0⟩) ::
          collect_loose left_pts res (feature_idx + 1) rest
      else collect_loose left_pts res (feature_idx + 1) rest
    else collect_loose left_pts res feature_idx rest

/-- The epipolar error of lines 270-283: `right_homo.t() * F_double * left_homo` is the product
of the row `right_homo.t() * F_double` with the column `left_homo`, where `left_homo = (left, 1)`
and `right_homo = (right, 1)` hold the `float` coordinates converted to `double`; `error` is the
absolute value of its single entry. -/
def epipolar_error (F : Mat33) (left_pt right_pt : Point2f) : FloatValue :=
  let rx := FloatValue.finite right_pt.x
  let ry := FloatValue.finite right_pt.y
  let one := FloatValue.finite 1
  let row0 := double_dot rx ry one
    (FloatValue.finite F.m00) (FloatValue.finite F.m10) (FloatValue.finite F.m20)
  let row1 := double_dot rx ry one
    (FloatValue.finite F.m01) (FloatValue.finite F.m11) (FloatValue.finite F.m21)
  let row2 := double_dot rx ry one
    (FloatValue.finite F.m02) (FloatValue.finite F.m12) (FloatValue.finite F.m22)
  (double_dot row0 row1 row2
    (FloatValue.finite left_pt.x) (FloatValue.finite left_pt.y) one).abs

/-- The flag `is_valid_match` computed for one loose pair (lines 265-302): it starts true and is
cleared by the epipolar check `error > 5.0` (only when a matrix is available), by the disparity
check `disparity < 0.1f || disparity > 300.0f` and by the y-difference check `y_diff > 20.0f`,
`disparity` and `y_diff` being the `float` values of lines 292-293. -/
def is_valid_match (fundamental_matrix : Option Mat33) (left_pt right_pt : Point2f) : Bool :=
  let is_valid_match := true
  let is_valid_match :=
    match fundamental_matrix with
    | some F =>
      if (FloatValue.finite 5).lt (epipolar_error F left_pt right_pt) = true then false
      else is_valid_match
    | Option.none => is_valid_match
  let disparity := float_sub left_pt.x right_pt.x
  let y_diff := (float_sub left_pt.y right_pt.y).abs
  let is_valid_match :=
    if disparity.lt (FloatValue.finite float_0_1) = true ∨
        (FloatValue.finite 300).lt disparity = true then false
    else is_valid_match
  let is_valid_match :=
    if (FloatValue.finite 20).lt y_diff = true then false else is_valid_match
  is_valid_match

/-- The call `feature->set_stereo_match(right_pt, disparity)` of line 305 with the `float`
value `disparity` of line 292. The member `m_disparity` holds a finite value in this embedding;
a disparity that is not finite fails the disparity check and never reaches the call. -/
def record_stereo_match (feature : Feature) (right_pt : Point2f) (disparity : FloatValue) :
    Feature :=
  match disparity with
  | FloatValue.finite d => feature.set_stereo_match right_pt d
  | _ => feature

/-- The second scan of `compute_stereo_matches` (lines 258-311): each valid feature consumes one
oracle result; a loose pair that keeps `is_valid_match` records its stereo match. -/
def apply_matches (fundamental_matrix : Option Mat33) (left_pts : List Point2f) (res : LKResult) :
    ℕ → List Feature → List Feature
  | _, [] => []
  | feature_idx, feature :: rest =>
    if feature.is_valid = true ∧ feature_idx < res.status.length then
      (if is_loose res feature_idx = true then
        let left_pt := left_pts.getD feature_idx ⟨0, 0⟩
        let right_pt := res.next_pts.getD feature_idx ⟨0, 0⟩
        if is_valid_match fundamental_matrix left_pt right_pt = true then
          record_stereo_match feature right_pt (float_sub left_pt.x right_pt.x)
        else feature
      else feature) :: apply_matches fundamental_matrix left_pts res (feature_idx + 1) rest
    else feature :: apply_matches fundamental_matrix left_pts res feature_idx rest

/-- The fundamental matrix of lines 243-255: estimated only from at least 8 loose pairs. -/
def estimate_fundamental_matrix (O : Oracles) (good : List (Point2f × Point2f)) : Option Mat33 :=
  if 8 ≤ good.length then
    (O.findFundamentalMat (good.map (fun p => p.1)) (good.map (fun p => p.2)) 3 (99 / 100)).1
  else Option.none

/-- The vector `left_pts` of `compute_stereo_matches` (lines 208-212): the pixel coordinates of
the valid features, in store order. -/
def stereo_left_pts (fr : Frame) : List Point2f :=
  (fr.m_features.filter Feature.is_valid).map Feature.get_pixel_coord

/-- The outputs `right_pts`, `status`, `err` of the left-to-right optical flow call of
`compute_stereo_matches` (lines 220-223). -/
def stereo_flow (O : Oracles) (fr : Frame) : LKResult :=
  O.calcOpticalFlowPyrLK fr.m_left_image fr.m_right_image (stereo_left_pts fr)
    ⟨⟨21, 21⟩, 3, (30, 1 / 100), 0, 1 / 10000⟩

/-- The variable `fundamental_matrix` of `compute_stereo_matches` after lines 243-255. -/
def stereo_matrix (O : Oracles) (fr : Frame) : Option Mat33 :=
  estimate_fundamental_matrix O (collect_loose (stereo_left_pts fr) (stereo_flow O fr) 0 fr.m_features)

/-- The method `Frame::compute_stereo_matches`. -/
def compute_stereo_matches (O : Oracles) (fr : Frame) : Frame :=
  if fr.is_stereo = false then fr
  else if stereo_left_pts fr = [] then fr
  else
    { fr with
      m_features :=
        apply_matches (stereo_matrix O fr) (stereo_left_pts fr) (stereo_flow O fr) 0 fr.m_features }

/-- The body of the loop of `estimate_depth_from_stereo` (lines 329-338) for one feature: the
`float` value `depth = (baseline * focal_length) / disparity` is the rounded quotient of the
rounded product; it is stored when `depth > 0.1f && depth < 100.0f`, which no infinity and no
NaN satisfies. -/
def estimate_depth (baseline focal_length : ℚ) (feature : Feature) : Feature :=
  if feature.is_valid = true ∧ feature.has_stereo_match = true then
    let disparity := feature.get_stereo_disparity
    if disparity > 1 / 2 then
      let depth := FloatValue.div round_float (float_mul baseline focal_length)
        (FloatValue.finite disparity)
      if (FloatValue.finite float_0_1).lt depth = true ∧
          depth.lt (FloatValue.finite 100) = true then
        match depth with
        | FloatValue.finite d => feature.set_depth d
        | _ => feature
      else feature
    else feature
  else feature

/-- The method `Frame::estimate_depth_from_stereo`. -/
def estimate_depth_from_stereo (fr : Frame) (baseline focal_length : ℚ) : Frame :=
  if fr.is_stereo = false then fr
  else { fr with m_features := fr.m_features.map (estimate_depth baseline focal_length) }

end Frame

/-- The method `Frame::extract_features`. The function-local `static int global_feature_id` is
the explicit state `global_feature_id` (0 before the first call of the process); the new value
is returned with the frame. The detector is called without a mask (every pixel allowed), with
the member defaults `m_quality_level = 0.01` and `m_min_distance = 30.0`. -/
def Frame.extract_features (O : Oracles) (global_feature_id : ℤ) (fr : Frame) (max_features : ℤ) :
    ℤ × Frame :=
  if fr.m_left_image.empty then (global_feature_id, fr)
  else
    let corners := O.goodFeaturesToTrack fr.m_left_image max_features (1 / 100) 30
      ⟨fr.m_left_image.size, []⟩
    corners.foldl
      (fun s corner => (int_increment s.1, s.2.add_feature (Feature.new s.1 corner)))
      (global_feature_id, fr)

/-! ## Derived notions used in the statements -/

/-- The number of valid features stored before position `p`: the index, in `left_pts` and in the
oracle outputs, of the feature stored at position `p` when that feature is valid. -/
def valid_before (features : List Feature) (p : ℕ) : ℕ :=
  ((features.take p).filter Feature.is_valid).length

/-- The feature left by one iteration of the second scan of `compute_stereo_matches` when the
running index is `k`. -/
def Frame.matched_feature (fundamental_matrix : Option Mat33) (left_pts : List Point2f)
    (res : LKResult) (k : ℕ) (feature : Feature) : Feature :=
  if feature.is_valid = true ∧ k < res.status.length then
    if Frame.is_loose res k = true then
      if Frame.is_valid_match fundamental_matrix (left_pts.getD k ⟨0, 0⟩)
          (res.next_pts.getD k ⟨0, 0⟩) = true then
        Frame.record_stereo_match feature (res.next_pts.getD k ⟨0, 0⟩)
          (float_sub (left_pts.getD k ⟨0, 0⟩).x (res.next_pts.getD k ⟨0, 0⟩).x)
      else feature
    else feature
  else feature

/-- The valid feature stored at position `p` of the stereo frame `fr` and the point `right_pt`
returned for it by the left-to-right optical flow form a loose candidate pair: the oracle result
consumed by the feature has success status and error below 50. -/
def Frame.loose_pair_at (O : Oracles) (fr : Frame) (p : ℕ) (feature : Feature)
    (right_pt : Point2f) : Prop :=
  fr.is_stereo = true ∧ fr.m_features[p]? = some feature ∧ feature.m_is_valid = true ∧
    valid_before fr.m_features p < (Frame.stereo_flow O fr).status.length ∧
    Frame.is_loose (Frame.stereo_flow O fr) (valid_before fr.m_features p) = true ∧
    (Frame.stereo_flow O fr).next_pts.getD (valid_before fr.m_features p) ⟨0, 0⟩ = right_pt

/-- The ids stored in a frame, in store order. -/
def Frame.ids (fr : Frame) : List ℤ := fr.m_features.map Feature.get_feature_id

namespace FeatureTracker

/-- The feature created by the loop body of `optical_flow_tracking` at index `i`, if any. -/
def tracked_feature (previous_frame : Frame) (img_size : Size) (res : LKResult) (i : ℕ) :
    Option Feature :=
  if res.status.getD i 0 ≠ 0 ∧ is_in_border (res.next_pts.getD i ⟨0, 0⟩) img_size 1 = true then
    (previous_frame.get_features.get? i).map
      (fun prev_feature =>
        (Feature.new prev_feature.get_feature_id (res.next_pts.getD i ⟨0, 0⟩)).set_track_count
          (prev_feature.get_track_count + 1))
  else Option.none

/-- The features minted from a list of corners when the counter stands at `n`. -/
def minted : ℤ → List Point2f → List Feature
  | _, [] => []
  | n, corner :: rest => Feature.new n corner :: minted (int_increment n) rest

/-- One call of a run: the oracle behaviour during the call, the `max_features` setting in force,
the current frame handed in, and whether the frame produced by the preceding call is handed in
as previous frame (otherwise the previous frame is null). -/
structure TrackCall where
  oracles : Oracles
  max_features : ℤ
  current_frame : Frame
  pass_previous : Bool

/-- A run of one tracker: the frames produced by successive `track_features` calls, `last` being
the frame produced by the preceding call (none before the first call). -/
def run_tracker : FeatureTracker → Option Frame → List TrackCall → List Frame
  | _, _, [] => []
  | tr, last, call :: rest =>
    let r := track_features call.oracles (tr.set_max_features call.max_features)
      (some call.current_frame) (if call.pass_previous = true then last else Option.none)
    match r.2 with
    | some produced => produced :: run_tracker r.1 (some produced) rest
    | Option.none => []

/-- The invariant of a run: the frame produced by the preceding call, if any, holds pairwise
distinct ids, all below the tracker's counter. -/
def run_invariant (tr : FeatureTracker) (last : Option Frame) : Prop :=
  ∀ p, last = some p → p.ids.Nodup ∧ ∀ id ∈ p.ids, id < tr.m_global_feature_id

end FeatureTracker

/-! ## Concrete scenarios -/

/-- A 640×480 image (its pixel data plays no part: every primitive is an oracle). -/
def image_640x480 : Mat := ⟨480, 640, []⟩

/-- A 10×10 image. -/
def image_10x10 : Mat := ⟨10, 10, []⟩

/-- Oracles of a scenario: the detector returns `corners`; the optical flow returns the points
`flow prev_pts` with the status bytes `status` and error 0 for each; the two-view estimator
returns no matrix and the inlier mask `inliers`. -/
def scenario_oracles (corners : List Point2f) (flow : List Point2f → List Point2f)
    (status : List ℕ) (inliers : List ℕ) : Oracles :=
  { goodFeaturesToTrack := fun _ _ _ _ _ => corners
    calcOpticalFlowPyrLK := fun _ _ prev_pts _ =>
      ⟨flow prev_pts, status, prev_pts.map (fun _ => 0)⟩
    findFundamentalMat := fun _ _ _ _ => (Option.none, inliers) }

/-- Oracles of a stereo scenario: the optical flow maps each point by `right_of` with status 1
and error 0; the two-view estimator returns `matrix` and an empty mask; no corner is detected. -/
def stereo_oracles (right_of : Point2f → Point2f) (matrix : Option Mat33) : Oracles :=
  { goodFeaturesToTrack := fun _ _ _ _ _ => []
    calcOpticalFlowPyrLK := fun _ _ prev_pts _ =>
      ⟨prev_pts.map right_of, prev_pts.map (fun _ => 1), prev_pts.map (fun _ => 0)⟩
    findFundamentalMat := fun _ _ _ _ => (matrix, []) }

/-- A frame as the driver hands it to the tracker: constructed, then given its left image. -/
def fresh_frame (frame_id : ℤ) (image : Mat) : Frame :=
  (Frame.new frame_id frame_id).set_left_image image

/-- A stereo frame holding one freshly constructed feature with id 0 at `left_pt`. -/
def stereo_frame_one (left_pt : Point2f) : Frame :=
  ((Frame.new 0 0).set_stereo_images image_640x480 image_640x480).add_feature
    (Feature.new 0 left_pt)

/-- A stereo frame holding 8 freshly constructed features, ids 0 to 7, at (100 + 10 i, 50). -/
def stereo_frame_eight : Frame :=
  (List.range 8).foldl
    (fun fr i => fr.add_feature (Feature.new (i : ℤ) ⟨100 + 10 * (i : ℚ), 50⟩))
    ((Frame.new 0 0).set_stereo_images image_640x480 image_640x480)

/-- A stereo frame holding one feature with a recorded stereo match of the given disparity. -/
def stereo_frame_matched (disparity : ℚ) : Frame :=
  ((Frame.new 0 0).set_stereo_images image_640x480 image_640x480).add_feature
    ((Feature.new 0 ⟨100, 50⟩).set_stereo_match ⟨100 - disparity, 50⟩ disparity)

/-- What a test reads back from a feature: id, pixel coordinate, track count. -/
def Feature.summary (f : Feature) : ℤ × Point2f × ℤ :=
  (f.m_feature_id, f.m_pixel_coord, f.m_track_count)

/-- A previous frame over a 10×10 image holding one feature with id 0 at (5, 5). -/
def small_previous_frame : Frame :=
  (fresh_frame 0 image_10x10).add_feature (Feature.new 0 ⟨5, 5⟩)

/-- A previous frame storing a feature flagged invalid (id 0 at (5, 5)) before a valid one
(id 1 at (10, 10)). -/
def frame_with_invalid_feature : Frame :=
  ((fresh_frame 0 image_640x480).add_feature ((Feature.new 0 ⟨5, 5⟩).set_valid false)).add_feature
    (Feature.new 1 ⟨10, 10⟩)

/-- A first call of a run: no previous frame, the detector returns `corners`. -/
def detect_call (frame_id : ℤ) (corners : List Point2f) : FeatureTracker.TrackCall :=
  { oracles := scenario_oracles corners (fun pts => pts) [] []
    max_features := 3
    current_frame := fresh_frame frame_id image_640x480
    pass_previous := false }

/-- A later call of a run: the preceding frame is handed in, the optical flow leaves every point
in place with the given status bytes, the detector returns `corners`. -/
def follow_call (frame_id : ℤ) (status : List ℕ) (corners : List Point2f) :
    FeatureTracker.TrackCall :=
  { oracles := scenario_oracles corners (fun pts => pts) status []
    max_features := 3
    current_frame := fresh_frame frame_id image_640x480
    pass_previous := true }

/-- A run of three calls: two corners detected; the second point lost and one corner detected;
both points tracked and one corner detected. -/
def sample_run : List FeatureTracker.TrackCall :=
  [detect_call 0 [⟨10, 10⟩, ⟨20, 20⟩], follow_call 1 [1, 0] [⟨30, 30⟩],
    follow_call 2 [1, 1] [⟨40, 40⟩]]

/-- A frame over `image` holding `n` freshly constructed features, ids 0 to n - 1, the feature
with id `i` at (100 + 10 i, 50). -/
def frame_with_features (image : Mat) (n : ℕ) : Frame :=
  (List.range n).foldl
    (fun (fr : Frame) (i : ℕ) =>
      fr.add_feature (Feature.new (i : ℤ) ⟨100 + 10 * (i : ℚ), 50⟩))
    (fresh_frame 0 image)

/-- A stereo frame storing, in order, an invalid feature (id 0) and three valid features
(ids 1, 2, 3) at (100, 50), (200, 50) and (300, 50). -/
def stereo_frame_mixed : Frame :=
  ((((Frame.new 0 0).set_stereo_images image_640x480 image_640x480).add_feature
    ((Feature.new 0 ⟨50, 50⟩).set_valid false)).add_feature
    (Feature.new 1 ⟨100, 50⟩)).add_feature (Feature.new 2 ⟨200, 50⟩) |>.add_feature
    (Feature.new 3 ⟨300, 50⟩)

/-- Oracles for `stereo_frame_mixed`: the three submitted points are tracked to (90, 50),
(190, 50) and (700, 50) with status 1, 0, 1 and error 0; no matrix is estimated. -/
def stereo_oracles_mixed : Oracles :=
  scenario_oracles [] (fun _ => [⟨90, 50⟩, ⟨190, 50⟩, ⟨700, 50⟩]) [1, 0, 1] []

/-- The id index of a frame is in sync with its ordered collection: it maps exactly the stored
ids, each to the position of the feature with that id. -/
def Frame.index_synced (fr : Frame) : Prop :=
  ∀ (id : ℤ) (i : ℕ), fr.m_feature_id_to_index id = some i ↔ fr.ids[i]? = some id

/-- One call on a frame's feature store: `add_feature` or `remove_feature`. -/
inductive StoreCall where
  | add_feature (feature : Feature)
  | remove_feature (feature_id : ℤ)

/-- The frame after one store call. -/
def Frame.call (fr : Frame) : StoreCall → Frame
  | StoreCall.add_feature feature => fr.add_feature feature
  | StoreCall.remove_feature feature_id => fr.remove_feature feature_id

/-- Every `add_feature` call of the sequence adds an id that is not stored when the call is
made. -/
def Frame.adds_new_ids : Frame → List StoreCall → Prop
  | _, [] => True
  | fr, StoreCall.add_feature feature :: rest =>
    feature.m_feature_id ∉ fr.ids ∧ Frame.adds_new_ids (fr.add_feature feature) rest
  | fr, StoreCall.remove_feature feature_id :: rest =>
    Frame.adds_new_ids (fr.remove_feature feature_id) rest

/-- A sequence of store calls: three features added (ids 5, 7, 9), the second removed, a
removal of an id that is not stored, and id 7 added again. -/
def sample_store_calls : List StoreCall :=
  [StoreCall.add_feature (Feature.new 5 ⟨10, 10⟩), StoreCall.add_feature (Feature.new 7 ⟨20, 20⟩),
    StoreCall.add_feature (Feature.new 9 ⟨30, 30⟩), StoreCall.remove_feature 7,
    StoreCall.remove_feature 4, StoreCall.add_feature (Feature.new 7 ⟨40, 40⟩)]

/-- The ids that the removal loop of `reject_outliers_with_fundamental_matrix` passes to
`remove_feature`: `feature_ids[i]` for each `i` with `status[i] == 0`, in loop order. -/
def FeatureTracker.outlier_ids (status : List ℕ) (feature_ids : List ℤ) : List ℤ :=
  (List.range status.length).filterMap
    (fun i => if status.getD i 0 = 0 then feature_ids.get? i else Option.none)

/-- The current frame of `track_features` after the tracking branch (lines 29-38): optical flow,
outlier rejection and track-count update when a previous frame is given, the frame as handed in
otherwise. Its feature count is the surviving feature count tested at line 41. -/
def FeatureTracker.tracking_branch (O : Oracles) (tr : FeatureTracker) (current : Frame)
    (previous : Option Frame) : Frame :=
  match previous with
  | some previous =>
    FeatureTracker.update_feature_track_count
      (FeatureTracker.reject_outliers_with_fundamental_matrix O tr
        (FeatureTracker.optical_flow_tracking O tr current previous) previous)
  | Option.none => current

/-- The call `cv::goodFeaturesToTrack` of `extract_new_features` (lines 62-74) on `frame` with
`maxCorners = max_corners`: the mask excludes a disk of radius `m_min_distance` around every
valid feature of the frame. -/
def FeatureTracker.detect_corners (O : Oracles) (tr : FeatureTracker) (frame : Frame)
    (max_corners : ℤ) : List Point2f :=
  O.goodFeaturesToTrack frame.get_image max_corners tr.m_quality_level tr.m_min_distance
    ⟨frame.get_image.size,
      (frame.get_features.filter Feature.is_valid).map
        (fun feature => (feature.get_pixel_coord, tr.m_min_distance))⟩

/-- The number of features minted by the successive calls of a run: for each call, the feature
count of the produced frame less the surviving feature count tested at line 41. -/
def FeatureTracker.minted_in_run :
    FeatureTracker → Option Frame → List FeatureTracker.TrackCall → ℕ
  | _, _, [] => 0
  | tr, last, call :: rest =>
    match (FeatureTracker.track_features call.oracles (tr.set_max_features call.max_features)
        (some call.current_frame) (if call.pass_previous = true then last else Option.none)).2 with
    | some produced =>
      (produced.get_feature_count -
        (FeatureTracker.tracking_branch call.oracles (tr.set_max_features call.max_features)
          call.current_frame
          (if call.pass_previous = true then last else Option.none)).get_feature_count) +
        FeatureTracker.minted_in_run
          (FeatureTracker.track_features call.oracles
            (tr.set_max_features call.max_features) (some call.current_frame)
            (if call.pass_previous = true then last else Option.none)).1
          (some produced) rest
    | Option.none => 0

/-- 150 corners on a grid of 15 columns and 10 rows with a spacing of 40 pixels, from (20, 20)
to (580, 380). -/
def corners_150 : List Point2f :=
  (List.range 150).map
    (fun (i : ℕ) => ⟨20 + 40 * ((i % 15 : ℕ) : ℚ), 20 + 40 * ((i / 15 : ℕ) : ℚ)⟩)

/-- Oracles of a call that loses every point: the optical flow returns each submitted point in
place with the status byte 0 and error 0; the detector returns the 150 corners of
`corners_150`; the two-view estimator returns no matrix and an empty mask. -/
def lost_oracles : Oracles :=
  { goodFeaturesToTrack := fun _ _ _ _ _ => corners_150
    calcOpticalFlowPyrLK := fun _ _ prev_pts _ =>
      ⟨prev_pts, prev_pts.map (fun _ => 0), prev_pts.map (fun _ => 0)⟩
    findFundamentalMat := fun _ _ _ _ => (Option.none, []) }

/-- A later call of a run with `max_features = 150`: the preceding frame is handed in, the
optical flow loses every point (every status byte is 0) and the detector returns the 150
corners of `corners_150`. -/
def redetect_call : FeatureTracker.TrackCall :=
  { oracles := lost_oracles
    max_features := 150
    current_frame := fresh_frame 1 image_640x480
    pass_previous := true }

/-- A run that takes the id counter through the whole range of `int`: one corner is detected
(id 0), then each of 28633116 calls loses every point and detects 150 new corners. The corner
number 45 of the last call is the 2^32-th corner after the first one. -/
def overflow_run : List FeatureTracker.TrackCall :=
  detect_call 0 [⟨20, 20⟩] :: List.replicate 28633116 redetect_call

/-- A previous frame whose only feature (id 0) holds a stereo match of disparity 20 and the
depth 1.5. -/
def previous_with_depth : Frame :=
  (fresh_frame 0 image_640x480).add_feature
    (((Feature.new 0 ⟨100, 50⟩).set_stereo_match ⟨80, 50⟩ 20).set_depth (3 / 2))

/-! ## Frames and features as shared objects

The embedding above treats a frame as a value. To state what a call does to the objects behind
the `std::shared_ptr` arguments, the same methods are embedded once more over an explicit
memory: a `std::shared_ptr<Feature>` is the position of a feature record, a
`std::shared_ptr<Frame>` the position of a frame record, and a frame record stores the pointers
of its features. A pointer without record (which a `shared_ptr` never is) makes a method return
the memory as it is. -/

/-- The members of a `Frame` object, `m_features` holding the `std::shared_ptr<Feature>`
themselves. -/
structure FrameRecord where
  m_timestamp : ℤ
  m_frame_id : ℤ
  m_left_image : Mat
  m_right_image : Mat
  m_features : List ℕ
  m_feature_id_to_index : ℤ → Option ℕ
  m_is_keyframe : Bool

/-- The `Feature` and `Frame` objects alive in the process. -/
structure Memory where
  features : List Feature
  frames : List FrameRecord

namespace Memory

/-- The call `std::make_shared<Feature>(...)`: a new record, and the pointer to it. -/
def make_shared_feature (m : Memory) (feature : Feature) : Memory × ℕ :=
  ({ m with features := m.features ++ [feature] }, m.features.length)

/-- A write through a `std::shared_ptr<Feature>`. -/
def write_feature (m : Memory) (feature : ℕ) (value : Feature) : Memory :=
  { m with features := m.features.set feature value }

/-- A write to the members of a `Frame` object. -/
def write_frame (m : Memory) (frame : ℕ) (value : FrameRecord) : Memory :=
  { m with frames := m.frames.set frame value }

/-- The features behind a list of pointers, in order. -/
def deref (m : Memory) (pointers : List ℕ) : List Feature :=
  pointers.filterMap (fun a => m.features[a]?)

/-- The frame object behind a pointer, read as a value of the embedding above. -/
def frame_value (m : Memory) (frame : ℕ) : Option Frame :=
  (m.frames[frame]?).map
    (fun fr =>
      { m_timestamp := fr.m_timestamp
        m_frame_id := fr.m_frame_id
        m_left_image := fr.m_left_image
        m_right_image := fr.m_right_image
        m_features := m.deref fr.m_features
        m_feature_id_to_index := fr.m_feature_id_to_index
        m_is_keyframe := fr.m_is_keyframe })

/-- The method `Frame::add_feature` on the frame object `frame`. -/
def add_feature (m : Memory) (frame : ℕ) (feature : ℕ) : Memory :=
  match m.frames[frame]?, m.features[feature]? with
  | some fr, some f =>
    m.write_frame frame
      { fr with
        m_features := fr.m_features ++ [feature]
        m_feature_id_to_index :=
          Function.update fr.m_feature_id_to_index f.get_feature_id
            (some ((fr.m_features ++ [feature]).length - 1)) }
  | _, _ => m

/-- The index built by `Frame::update_feature_index` for a collection of pointers. -/
def rebuilt_index (m : Memory) (pointers : List ℕ) : ℤ → Option ℕ :=
  (List.range pointers.length).foldl
    (fun idx i =>
      match (pointers.get? i).bind (fun a => m.features[a]?) with
      | some f => Function.update idx f.get_feature_id (some i)
      | Option.none => idx)
    (fun _ => Option.none)

/-- The method `Frame::remove_feature` on the frame object `frame`. -/
def remove_feature (m : Memory) (frame : ℕ) (feature_id : ℤ) : Memory :=
  match m.frames[frame]? with
  | some fr =>
    match fr.m_feature_id_to_index feature_id with
    | some index =>
      m.write_frame frame
        { fr with
          m_features := fr.m_features.eraseIdx index
          m_feature_id_to_index := m.rebuilt_index (fr.m_features.eraseIdx index) }
    | Option.none => m
  | Option.none => m

/-- The method `Frame::get_feature` on the frame object `frame`: a pointer or null. -/
def get_feature (m : Memory) (frame : ℕ) (feature_id : ℤ) : Option ℕ :=
  match m.frames[frame]? with
  | some fr =>
    match fr.m_feature_id_to_index feature_id with
    | some index => fr.m_features.get? index
    | Option.none => Option.none
  | Option.none => Option.none

/-- Body of the loop of `FeatureTracker::optical_flow_tracking` (lines 109-120) at index `i`:
the previous frame's pointer at position `i` is read, a new feature record is made and added to
the current frame. -/
def optical_flow_step (current_frame previous_frame : ℕ) (img_size : Size) (res : LKResult)
    (m : Memory) (i : ℕ) : Memory :=
  if res.status.getD i 0 ≠ 0 ∧
      FeatureTracker.is_in_border (res.next_pts.getD i ⟨0, 0⟩) img_size 1 = true then
    match (m.frames[previous_frame]?).bind (fun prev => prev.m_features.get? i) with
    | some prev_pointer =>
      match m.features[prev_pointer]? with
      | some prev_feature =>
        let new_feature := Feature.new prev_feature.get_feature_id (res.next_pts.getD i ⟨0, 0⟩)
        let new_feature := new_feature.set_track_count (prev_feature.get_track_count + 1)
        let made := m.make_shared_feature new_feature
        made.1.add_feature current_frame made.2
      | Option.none => m
    | Option.none => m
  else m

/-- The method `FeatureTracker::optical_flow_tracking` on frame objects. -/
def optical_flow_tracking (O : Oracles) (tr : FeatureTracker) (m : Memory)
    (current_frame previous_frame : ℕ) : Memory :=
  match m.frames[current_frame]?, m.frames[previous_frame]? with
  | some cur, some prev =>
    if prev.m_features.length = 0 then m
    else
      let prev_pts := FeatureTracker.extract_points_from_features (m.deref prev.m_features)
      let res := O.calcOpticalFlowPyrLK prev.m_left_image cur.m_left_image prev_pts
        ⟨tr.m_win_size, tr.m_max_level, tr.m_criteria, 0, 1 / 10000⟩
      (List.range prev_pts.length).foldl
        (optical_flow_step current_frame previous_frame cur.m_left_image.size res) m
  | _, _ => m

/-- The correspondences collected by `reject_outliers_with_fundamental_matrix` (lines
139-146). -/
def collect_correspondences (m : Memory) (current_frame previous_frame : ℕ) :
    List (Point2f × Point2f × ℤ) :=
  match m.frames[current_frame]? with
  | some cur =>
    (m.deref cur.m_features).filterMap
      (fun feature =>
        match (m.get_feature previous_frame feature.get_feature_id).bind
            (fun a => m.features[a]?) with
        | some prev_feature =>
          if prev_feature.is_valid then
            some (prev_feature.get_pixel_coord, feature.get_pixel_coord, feature.get_feature_id)
          else Option.none
        | Option.none => Option.none)
  | Option.none => []

/-- The removal loop of `reject_outliers_with_fundamental_matrix` (lines 157-161). -/
def remove_outliers (status : List ℕ) (feature_ids : List ℤ) (m : Memory) (current_frame : ℕ) :
    Memory :=
  (List.range status.length).foldl
    (fun mem i =>
      if status.getD i 0 = 0 then
        match feature_ids.get? i with
        | some id => mem.remove_feature current_frame id
        | Option.none => mem
      else mem)
    m

/-- The method `FeatureTracker::reject_outliers_with_fundamental_matrix` on frame objects. -/
def reject_outliers_with_fundamental_matrix (O : Oracles) (tr : FeatureTracker) (m : Memory)
    (current_frame previous_frame : ℕ) : Memory :=
  match m.frames[current_frame]? with
  | some cur =>
    if cur.m_features.length < 8 then m
    else
      let corr := m.collect_correspondences current_frame previous_frame
      let prev_pts := corr.map (fun c => c.1)
      let cur_pts := corr.map (fun c => c.2.1)
      let feature_ids := corr.map (fun c => c.2.2)
      if prev_pts.length < 8 then m
      else
        let status := (O.findFundamentalMat prev_pts cur_pts tr.m_f_threshold (99 / 100)).2
        remove_outliers status feature_ids m current_frame
  | Option.none => m

/-- Body of the loop of `FeatureTracker::update_feature_track_count`: one write through the
pointer `feature`. -/
def update_track_count_step (m : Memory) (feature : ℕ) : Memory :=
  match m.features[feature]? with
  | some f =>
    if f.is_valid then m.write_feature feature (f.set_track_count (f.get_track_count + 1))
    else m
  | Option.none => m

/-- The method `FeatureTracker::update_feature_track_count` on a frame object. -/
def update_feature_track_count (m : Memory) (frame : ℕ) : Memory :=
  match m.frames[frame]? with
  | some fr => fr.m_features.foldl update_track_count_step m
  | Option.none => m

/-- The minting loop of `FeatureTracker::extract_new_features` (lines 76-79). -/
def mint_features (corners : List Point2f) (tr : FeatureTracker) (m : Memory) (frame : ℕ) :
    FeatureTracker × Memory :=
  corners.foldl
    (fun s corner =>
      let made := s.2.make_shared_feature (Feature.new s.1.m_global_feature_id corner)
      ({ s.1 with m_global_feature_id := int_increment s.1.m_global_feature_id },
        made.1.add_feature frame made.2))
    (tr, m)

/-- The method `FeatureTracker::extract_new_features` on a frame object. -/
def extract_new_features (O : Oracles) (tr : FeatureTracker) (m : Memory) (frame : ℕ) :
    FeatureTracker × Memory :=
  match m.frames[frame]? with
  | some fr =>
    if fr.m_left_image.empty then (tr, m)
    else
      let mask : Mask :=
        ⟨fr.m_left_image.size,
          ((m.deref fr.m_features).filter Feature.is_valid).map
            (fun feature => (feature.get_pixel_coord, tr.m_min_distance))⟩
      let corners := O.goodFeaturesToTrack fr.m_left_image
        (FeatureTracker.max_corners_arg tr.m_max_features fr.m_features.length)
        tr.m_quality_level tr.m_min_distance mask
      mint_features corners tr m frame
  | Option.none => (tr, m)

/-- The number of features of a frame object (`Frame::get_feature_count`). -/
def get_feature_count (m : Memory) (frame : ℕ) : ℕ :=
  match m.frames[frame]? with
  | some fr => fr.m_features.length
  | Option.none => 0

/-- The method `FeatureTracker::track_features` on frame objects: `current_frame` and
`previous_frame` are the two `std::shared_ptr<Frame>` arguments, `Option.none` for null. -/
def track_features (O : Oracles) (tr : FeatureTracker) (m : Memory)
    (current_frame previous_frame : Option ℕ) : FeatureTracker × Memory :=
  match current_frame with
  | Option.none => (tr, m)
  | some current =>
    let m :=
      match previous_frame with
      | some previous =>
        let m := optical_flow_tracking O tr m current previous
        let m := reject_outliers_with_fundamental_matrix O tr m current previous
        update_feature_track_count m current
      | Option.none => m
    if FeatureTracker.below_max_features (m.get_feature_count current) tr.m_max_features then
      extract_new_features O tr m current
    else (tr, m)

end Memory

/-- A memory with a previous frame object (pointer 0) holding the features with ids 0 and 1 at
(10, 10) and (20, 20), and a current frame object (pointer 1) without features. -/
def memory_two_frames : Memory :=
  { features := [Feature.new 0 ⟨10, 10⟩, Feature.new 1 ⟨20, 20⟩]
    frames :=
      [{ m_timestamp := 0, m_frame_id := 0, m_left_image := image_640x480,
         m_right_image := Mat.none, m_features := [0, 1],
         m_feature_id_to_index := fun id => if id = 0 then some 0 else if id = 1 then some 1
           else Option.none,
         m_is_keyframe := false },
       { m_timestamp := 1, m_frame_id := 1, m_left_image := image_640x480,
         m_right_image := Mat.none, m_features := [],
         m_feature_id_to_index := fun _ => Option.none, m_is_keyframe := false }] }

/-- The memory of `memory_two_frames`, except that the current frame object (pointer 1) already
holds the pointer of the previous frame's first feature record. -/
def memory_shared_record : Memory :=
  { features := [Feature.new 0 ⟨10, 10⟩, Feature.new 1 ⟨20, 20⟩]
    frames :=
      [{ m_timestamp := 0, m_frame_id := 0, m_left_image := image_640x480,
         m_right_image := Mat.none, m_features := [0, 1],
         m_feature_id_to_index := fun id => if id = 0 then some 0 else if id = 1 then some 1
           else Option.none,
         m_is_keyframe := false },
       { m_timestamp := 1, m_frame_id := 1, m_left_image := image_640x480,
         m_right_image := Mat.none, m_features := [0],
         m_feature_id_to_index := fun id => if id = 0 then some 0 else Option.none,
         m_is_keyframe := false }] }

/-- What a test reads back from a frame object: the summaries of its features, in order. -/
def Memory.frame_summary (m : Memory) (frame : ℕ) : Option (List (ℤ × Point2f × ℤ)) :=
  (m.frame_value frame).map (fun fr => fr.m_features.map Feature.summary)

/-- Relative to the memory `m0` at the start of a call with current frame object `current`, the
memory `m` has been changed only within the call's footprint: every frame object other than
`current` is as it was, no feature record has disappeared, every record that existed and is not
behind one of the pointers `shared` (the pointers the current frame held at the start) is as it
was, and the current frame holds only pointers of `shared` or of records made since. -/
def Memory.within_footprint (m0 : Memory) (current : ℕ) (shared : List ℕ) (m : Memory) : Prop :=
  m.frames.length = m0.frames.length ∧
    (∀ frame, frame ≠ current → m.frames[frame]? = m0.frames[frame]?) ∧
    m0.features.length ≤ m.features.length ∧
    (∀ a, a < m0.features.length → a ∉ shared → m.features[a]? = m0.features[a]?) ∧
    (∀ fr, m.frames[current]? = some fr →
      ∀ a ∈ fr.m_features, a ∈ shared ∨ m0.features.length ≤ a)

/-! ## Auxiliary lemmas -/

namespace Frame

theorem add_feature_features (fr : Frame) (feature : Feature) :
    (fr.add_feature feature).m_features = fr.m_features ++ [feature] := rfl

theorem remove_feature_sublist (fr : Frame) (feature_id : ℤ) :
    (fr.remove_feature feature_id).m_features.Sublist fr.m_features := by
  unfold remove_feature
  cases h : fr.m_feature_id_to_index feature_id with
  | none => exact List.Sublist.refl _
  | some index => exact List.eraseIdx_sublist _ _

end Frame

namespace FeatureTracker

theorem optical_flow_step_features (previous_frame : Frame) (img_size : Size) (res : LKResult)
    (current_frame : Frame) (i : ℕ) :
    (optical_flow_step previous_frame img_size res current_frame i).m_features =
      current_frame.m_features ++ (tracked_feature previous_frame img_size res i).toList := by
  unfold optical_flow_step tracked_feature
  split_ifs with h
  · cases hp : previous_frame.get_features.get? i with
    | none => simp
    | some prev_feature => simp [Frame.add_feature_features]
  · simp

theorem optical_flow_fold_features (previous_frame : Frame) (img_size : Size) (res : LKResult)
    (indices : List ℕ) (current_frame : Frame) :
    (indices.foldl (optical_flow_step previous_frame img_size res) current_frame).m_features =
      current_frame.m_features ++
        indices.filterMap (tracked_feature previous_frame img_size res) := by
  induction indices generalizing current_frame with
  | nil => simp
  | cons i rest ih =>
    rw [List.foldl_cons, ih, optical_flow_step_features, List.filterMap_cons]
    cases tracked_feature previous_frame img_size res i <;> simp

theorem tracked_feature_source (previous_frame : Frame) (img_size : Size) (res : LKResult) (i : ℕ)
    (feature : Feature) (h : tracked_feature previous_frame img_size res i = some feature) :
    ∃ prev_feature, previous_frame.m_features.get? i = some prev_feature ∧
      feature.m_feature_id = prev_feature.m_feature_id ∧
      feature.m_track_count = prev_feature.m_track_count + 1 ∧
      feature.m_is_valid = true := by
  unfold tracked_feature at h
  split_ifs at h with hc
  cases hp : previous_frame.get_features.get? i with
  | none => rw [hp] at h; cases h
  | some prev_feature =>
    simp only [hp, Option.map_some', Option.some.injEq] at h
    refine ⟨prev_feature, hp, ?_⟩
    subst h
    simp [Feature.new, Feature.set_track_count, Feature.get_feature_id, Feature.get_track_count]

theorem tracked_ids_sublist (previous_frame : Frame) (img_size : Size) (res : LKResult) (n : ℕ) :
    (((List.range n).filterMap (tracked_feature previous_frame img_size res)).map
      Feature.get_feature_id).Sublist
      ((previous_frame.m_features.take n).map Feature.get_feature_id) := by
  induction n with
  | zero => simp
  | succ n ih =>
    rw [List.range_succ, List.filterMap_append, List.map_append, List.take_succ, List.map_append]
    refine List.Sublist.append ih ?_
    cases h : tracked_feature previous_frame img_size res n with
    | none => simp [h]
    | some feature =>
      obtain ⟨p, hp, hid, _, _⟩ := tracked_feature_source _ _ _ _ _ h
      rw [List.get?_eq_getElem?] at hp
      simp [h, hp, Feature.get_feature_id, hid]

theorem optical_flow_tracking_features (O : Oracles) (tr : FeatureTracker)
    (current_frame previous_frame : Frame) :
    ∃ tracked : List Feature,
      (optical_flow_tracking O tr current_frame previous_frame).m_features =
        current_frame.m_features ++ tracked ∧
      (tracked.map Feature.get_feature_id).Sublist previous_frame.ids ∧
      ∀ feature ∈ tracked, feature.m_is_valid = true := by
  unfold optical_flow_tracking
  split_ifs with h0
  · exact ⟨[], by simp, List.nil_sublist _, by simp⟩
  · refine ⟨_, optical_flow_fold_features _ _ _ _ _, ?_, ?_⟩
    · refine (tracked_ids_sublist _ _ _ _).trans ?_
      exact (List.take_sublist _ _).map _
    · intro feature hf
      rw [List.mem_filterMap] at hf
      obtain ⟨i, _, hi⟩ := hf
      obtain ⟨_, _, _, _, hv⟩ := tracked_feature_source _ _ _ _ _ hi
      exact hv

theorem remove_outliers_sublist (status : List ℕ) (feature_ids : List ℤ) (current_frame : Frame) :
    (remove_outliers status feature_ids current_frame).m_features.Sublist
      current_frame.m_features := by
  unfold remove_outliers
  generalize List.range status.length = indices
  induction indices generalizing current_frame with
  | nil => exact List.Sublist.refl _
  | cons i rest ih =>
    rw [List.foldl_cons]
    refine (ih _).trans ?_
    split_ifs
    · cases feature_ids.get? i with
      | none => exact List.Sublist.refl _
      | some id => exact Frame.remove_feature_sublist _ _
    · exact List.Sublist.refl _

theorem reject_outliers_sublist (O : Oracles) (tr : FeatureTracker)
    (current_frame previous_frame : Frame) :
    (reject_outliers_with_fundamental_matrix O tr current_frame previous_frame).m_features.Sublist
      current_frame.m_features := by
  unfold reject_outliers_with_fundamental_matrix
  split_ifs
  · exact List.Sublist.refl _
  · dsimp only
    split_ifs
    · exact List.Sublist.refl _
    · exact remove_outliers_sublist _ _ _

theorem update_feature_track_count_ids (frame : Frame) :
    (update_feature_track_count frame).ids = frame.ids := by
  unfold update_feature_track_count Frame.ids
  simp only [List.map_map]
  refine List.map_congr_left ?_
  intro feature _
  simp only [Function.comp]
  split_ifs <;> rfl

theorem update_feature_track_count_valid (frame : Frame)
    (h : ∀ feature ∈ frame.m_features, feature.m_is_valid = true) :
    ∀ feature ∈ (update_feature_track_count frame).m_features, feature.m_is_valid = true := by
  intro feature hf
  unfold update_feature_track_count at hf
  simp only [List.mem_map] at hf
  obtain ⟨g, hg, rfl⟩ := hf
  split_ifs
  · exact h g hg
  · exact h g hg

theorem int_increment_of_lt (n : ℤ) (h : n < 2 ^ 31 - 1) : int_increment n = n + 1 := by
  unfold int_increment
  rw [if_neg (ne_of_lt h)]

/-- As long as `INT_MAX` is not passed, `k` increments add `k`. -/
theorem int_increment_iterate (k : ℕ) (n : ℤ) (h : n + (k : ℤ) ≤ 2 ^ 31 - 1) :
    int_increment^[k] n = n + (k : ℤ) := by
  induction k generalizing n with
  | zero => simp
  | succ k ih =>
    have h1 : n < 2 ^ 31 - 1 := by push_cast at h; linarith
    rw [Function.iterate_succ_apply, int_increment_of_lt n h1, ih (n + 1) (by push_cast at h; linarith)]
    push_cast
    ring

theorem mint_features_eq (corners : List Point2f) (tr : FeatureTracker) (frame : Frame) :
    (mint_features corners tr frame).1 =
        { tr with
          m_global_feature_id := int_increment^[corners.length] tr.m_global_feature_id } ∧
      (mint_features corners tr frame).2.m_features =
        frame.m_features ++ minted tr.m_global_feature_id corners := by
  unfold mint_features
  induction corners generalizing tr frame with
  | nil => simp [minted]
  | cons corner rest ih =>
    rw [List.foldl_cons]
    obtain ⟨h1, h2⟩ := ih { tr with m_global_feature_id := int_increment tr.m_global_feature_id }
      (frame.add_feature (Feature.new tr.m_global_feature_id corner))
    constructor
    · rw [h1]
      simp only [List.length_cons, Function.iterate_succ_apply]
    · rw [h2]
      simp [minted, Frame.add_feature_features]

theorem minted_ids_bounds (n : ℤ) (corners : List Point2f)
    (h : n + (corners.length : ℤ) ≤ 2 ^ 31 - 1) :
    ∀ feature ∈ minted n corners,
      n ≤ feature.m_feature_id ∧ feature.m_feature_id < n + (corners.length : ℤ) ∧
        feature.m_track_count = 1 ∧ feature.m_is_valid = true := by
  induction corners generalizing n with
  | nil => simp [minted]
  | cons corner rest ih =>
    intro feature hf
    simp only [List.length_cons, Nat.cast_add, Nat.cast_one] at h
    have hpos : (0 : ℤ) ≤ (rest.length : ℤ) := Int.natCast_nonneg _
    rw [minted, int_increment_of_lt n (by linarith), List.mem_cons] at hf
    rcases hf with rfl | hf
    · refine ⟨le_refl _, ?_, rfl, rfl⟩
      simp only [Feature.new, List.length_cons, Nat.cast_add, Nat.cast_one]
      linarith
    · obtain ⟨h1, h2, h3, h4⟩ := ih (n + 1) (by linarith) feature hf
      simp only [List.length_cons, Nat.cast_add, Nat.cast_one]
      exact ⟨by linarith, by linarith, h3, h4⟩

theorem minted_ids_nodup (n : ℤ) (corners : List Point2f)
    (h : n + (corners.length : ℤ) ≤ 2 ^ 31 - 1) :
    ((minted n corners).map Feature.get_feature_id).Nodup := by
  induction corners generalizing n with
  | nil => simp [minted]
  | cons corner rest ih =>
    simp only [List.length_cons, Nat.cast_add, Nat.cast_one] at h
    have hpos : (0 : ℤ) ≤ (rest.length : ℤ) := Int.natCast_nonneg _
    rw [minted, int_increment_of_lt n (by linarith)]
    simp only [List.map_cons, List.nodup_cons]
    refine ⟨?_, ih (n + 1) (by linarith)⟩
    intro hmem
    rw [List.mem_map] at hmem
    obtain ⟨feature, hf, hid⟩ := hmem
    have hb := (minted_ids_bounds (n + 1) rest (by linarith) feature hf).1
    simp only [Feature.get_feature_id, Feature.new] at hid
    omega

theorem minted_length (n : ℤ) (corners : List Point2f) :
    (minted n corners).length = corners.length := by
  induction corners generalizing n with
  | nil => rfl
  | cons corner rest ih => simp [minted, ih]

theorem extract_new_features_eq (O : Oracles) (tr : FeatureTracker) (frame : Frame) :
    ∃ corners : List Point2f,
      (extract_new_features O tr frame).1 =
          { tr with
            m_global_feature_id := int_increment^[corners.length] tr.m_global_feature_id } ∧
        (extract_new_features O tr frame).2.m_features =
          frame.m_features ++ minted tr.m_global_feature_id corners := by
  unfold extract_new_features
  split_ifs
  · exact ⟨[], by simp, by simp [minted]⟩
  · exact ⟨_, mint_features_eq _ _ _⟩

/-- The features carried into the current frame by the tracking branch of `track_features`
(optical flow, outlier rejection, track-count update) on a current frame without features. -/
theorem tracking_branch_ids (O : Oracles) (tr : FeatureTracker) (current previous : Frame)
    (hfresh : current.m_features = []) :
    (update_feature_track_count
        (reject_outliers_with_fundamental_matrix O tr
          (optical_flow_tracking O tr current previous) previous)).ids.Sublist previous.ids ∧
      ∀ feature ∈ (update_feature_track_count
        (reject_outliers_with_fundamental_matrix O tr
          (optical_flow_tracking O tr current previous) previous)).m_features,
        feature.m_is_valid = true := by
  obtain ⟨tracked, hof, hsub, hvalid⟩ := optical_flow_tracking_features O tr current previous
  rw [hfresh, List.nil_append] at hof
  have hrej := reject_outliers_sublist O tr (optical_flow_tracking O tr current previous) previous
  rw [hof] at hrej
  constructor
  · rw [update_feature_track_count_ids]
    exact (hrej.map _).trans hsub
  · apply update_feature_track_count_valid
    intro feature hf
    exact hvalid feature (hrej.subset hf)

/-- Every feature left in the current frame by the tracking branch of `track_features` carries
the id of a feature of the previous frame and that feature's track count plus 2: plus 1 when
`optical_flow_tracking` creates it, plus 1 again in `update_feature_track_count`. -/
theorem tracking_branch_track_count (O : Oracles) (tr : FeatureTracker)
    (current previous : Frame) (hfresh : current.m_features = []) :
    ∀ feature ∈ (update_feature_track_count
        (reject_outliers_with_fundamental_matrix O tr
          (optical_flow_tracking O tr current previous) previous)).m_features,
      ∃ prev_feature ∈ previous.m_features,
        feature.m_feature_id = prev_feature.m_feature_id ∧
          feature.m_track_count = prev_feature.m_track_count + 2 := by
  have hsrc : ∀ f ∈ (optical_flow_tracking O tr current previous).m_features,
      ∃ prev_feature ∈ previous.m_features,
        f.m_feature_id = prev_feature.m_feature_id ∧
          f.m_track_count = prev_feature.m_track_count + 1 ∧ f.m_is_valid = true := by
    intro f hf
    unfold optical_flow_tracking at hf
    split_ifs at hf with h0
    · rw [hfresh] at hf
      cases hf
    · rw [optical_flow_fold_features, hfresh, List.nil_append, List.mem_filterMap] at hf
      obtain ⟨i, -, hi⟩ := hf
      obtain ⟨prev_feature, hp, h1, h2, h3⟩ := tracked_feature_source _ _ _ _ _ hi
      rw [List.get?_eq_getElem?] at hp
      exact ⟨prev_feature, List.getElem?_mem hp, h1, h2, h3⟩
  intro feature hfeature
  unfold update_feature_track_count at hfeature
  simp only [List.mem_map] at hfeature
  obtain ⟨f, hf, rfl⟩ := hfeature
  obtain ⟨prev_feature, hmem, h1, h2, h3⟩ :=
    hsrc f ((reject_outliers_sublist O tr _ previous).subset hf)
  refine ⟨prev_feature, hmem, ?_⟩
  have hv : f.is_valid = true := h3
  rw [if_pos hv]
  simp only [Feature.set_track_count, Feature.get_track_count]
  exact ⟨h1, by omega⟩

theorem track_features_eq (O : Oracles) (tr : FeatureTracker) (current : Frame)
    (previous : Option Frame) :
    track_features O tr (some current) previous =
      if below_max_features (tracking_branch O tr current previous).get_feature_count
          tr.m_max_features = true then
        ((extract_new_features O tr (tracking_branch O tr current previous)).1,
          some (extract_new_features O tr (tracking_branch O tr current previous)).2)
      else (tr, some (tracking_branch O tr current previous)) := by
  cases previous <;> simp [track_features, tracking_branch, set_mask]

/-- One call of `track_features` on a current frame without features: the produced frame holds
the features left by the tracking branch, whose ids form a sublist of the previous frame's ids,
followed by features minted from the counter's value before the call. -/
theorem track_features_step (O : Oracles) (tr : FeatureTracker) (current : Frame)
    (previous : Option Frame) (hfresh : current.m_features = []) :
    ∃ (produced : Frame) (kept : List Feature) (corners : List Point2f),
      (track_features O tr (some current) previous).2 = some produced ∧
      produced.m_features = kept ++ minted tr.m_global_feature_id corners ∧
      kept = (tracking_branch O tr current previous).m_features ∧
      (kept.map Feature.get_feature_id).Sublist (previous.elim [] Frame.ids) ∧
      (∀ feature ∈ kept, feature.m_is_valid = true) ∧
      (track_features O tr (some current) previous).1 =
        { tr with
          m_global_feature_id := int_increment^[corners.length] tr.m_global_feature_id } := by
  have key : ∀ mid : Frame, mid.ids.Sublist (previous.elim [] Frame.ids) →
      (∀ feature ∈ mid.m_features, feature.m_is_valid = true) →
      ∃ (produced : Frame) (kept : List Feature) (corners : List Point2f),
        (if below_max_features mid.get_feature_count tr.m_max_features = true then
          ((extract_new_features O tr mid).1, some (extract_new_features O tr mid).2)
        else (tr, some mid)).2 = some produced ∧
        produced.m_features = kept ++ minted tr.m_global_feature_id corners ∧
        kept = mid.m_features ∧
        (kept.map Feature.get_feature_id).Sublist (previous.elim [] Frame.ids) ∧
        (∀ feature ∈ kept, feature.m_is_valid = true) ∧
        (if below_max_features mid.get_feature_count tr.m_max_features = true then
          ((extract_new_features O tr mid).1, some (extract_new_features O tr mid).2)
        else (tr, some mid)).1 =
          { tr with
            m_global_feature_id := int_increment^[corners.length] tr.m_global_feature_id } := by
    intro mid hsub hvalid
    split_ifs
    · obtain ⟨corners, h1, h2⟩ := extract_new_features_eq O tr mid
      exact ⟨_, mid.m_features, corners, rfl, h2, rfl, hsub, hvalid, h1⟩
    · exact ⟨mid, mid.m_features, [], rfl, by simp [minted], rfl, hsub, hvalid, by simp⟩
  rw [track_features_eq]
  apply key
  · cases previous with
    | none => simp [tracking_branch, Frame.ids, hfresh]
    | some prev => exact (tracking_branch_ids O tr current prev hfresh).1
  · cases previous with
    | none => simp [tracking_branch, hfresh]
    | some prev => exact (tracking_branch_ids O tr current prev hfresh).2

/-- One call of a run in which the counter does not pass `INT_MAX` keeps the invariant and
advances the counter by the number of features minted; every id of the produced frame is an id
of the previous frame handed in or at least the old counter. -/
theorem track_features_invariant (O : Oracles) (tr : FeatureTracker) (max_features : ℤ)
    (current : Frame) (last previous : Option Frame)
    (hfresh : current.m_features = []) (hinv : run_invariant tr last)
    (hprev : previous = last ∨ previous = Option.none)
    (hcounter : ∀ produced : Frame,
      (track_features O (tr.set_max_features max_features) (some current) previous).2 =
        some produced →
      tr.m_global_feature_id + ((produced.get_feature_count -
        (tracking_branch O (tr.set_max_features max_features) current
          previous).get_feature_count : ℕ) : ℤ) ≤ 2 ^ 31 - 1) :
    ∃ produced : Frame,
      (track_features O (tr.set_max_features max_features) (some current) previous).2 =
        some produced ∧
      run_invariant
        (track_features O (tr.set_max_features max_features) (some current) previous).1
        (some produced) ∧
      (track_features O (tr.set_max_features max_features) (some current)
          previous).1.m_global_feature_id =
        tr.m_global_feature_id + ((produced.get_feature_count -
          (tracking_branch O (tr.set_max_features max_features) current
            previous).get_feature_count : ℕ) : ℤ) ∧
      ∀ id ∈ produced.ids, id ∈ previous.elim [] Frame.ids ∨ tr.m_global_feature_id ≤ id := by
  obtain ⟨produced, kept, corners, hout, hfeat, hkept, hsub, -, htr⟩ :=
    track_features_step O (tr.set_max_features max_features) current previous hfresh
  have hcount : produced.get_feature_count -
      (tracking_branch O (tr.set_max_features max_features) current
        previous).get_feature_count = corners.length := by
    simp only [Frame.get_feature_count, hfeat, ← hkept, List.length_append, minted_length]
    omega
  have hc : tr.m_global_feature_id + (corners.length : ℤ) ≤ 2 ^ 31 - 1 := by
    have := hcounter produced hout
    rw [hcount] at this
    exact this
  have hprevinv : (previous.elim [] Frame.ids).Nodup ∧
      ∀ id ∈ previous.elim [] Frame.ids, id < tr.m_global_feature_id := by
    rcases hprev with rfl | rfl
    · cases previous with
      | none => simp
      | some p => exact hinv p rfl
    · simp
  have hids : produced.ids = kept.map Feature.get_feature_id ++
      (minted tr.m_global_feature_id corners).map Feature.get_feature_id := by
    simp [Frame.ids, hfeat, set_max_features]
  have hnew : ∀ id ∈ (minted tr.m_global_feature_id corners).map Feature.get_feature_id,
      tr.m_global_feature_id ≤ id ∧ id < tr.m_global_feature_id + (corners.length : ℤ) := by
    intro id hid
    rw [List.mem_map] at hid
    obtain ⟨feature, hf, rfl⟩ := hid
    obtain ⟨h1, h2, -, -⟩ := minted_ids_bounds _ _ hc feature hf
    exact ⟨h1, h2⟩
  have hafter : (track_features O (tr.set_max_features max_features) (some current)
      previous).1.m_global_feature_id = tr.m_global_feature_id + (corners.length : ℤ) := by
    rw [htr]
    simp only [set_max_features]
    exact int_increment_iterate _ _ hc
  refine ⟨produced, hout, ?_, ?_, ?_⟩
  · intro p hp
    cases hp
    rw [hafter, hids]
    constructor
    · rw [List.nodup_append]
      refine ⟨hsub.nodup hprevinv.1, minted_ids_nodup _ _ hc, ?_⟩
      rw [List.disjoint_left]
      intro id h1 h2
      have := hprevinv.2 id (hsub.subset h1)
      have := (hnew id h2).1
      omega
    · intro id hid
      rw [List.mem_append] at hid
      rcases hid with h | h
      · have := hprevinv.2 id (hsub.subset h)
        have : (0 : ℤ) ≤ (corners.length : ℤ) := Int.natCast_nonneg _
        omega
      · exact (hnew id h).2
  · rw [hafter, hcount]
  · intro id hid
    rw [hids, List.mem_append] at hid
    rcases hid with h | h
    · exact Or.inl (hsub.subset h)
    · exact Or.inr (hnew id h).1

/-- The first call of a run in which the counter does not overflow: the produced frame, the
invariant after the call, the ids of the produced frame and the hypothesis for the rest of the
run. -/
theorem run_tracker_cons (call : TrackCall) (rest : List TrackCall) (tr : FeatureTracker)
    (last : Option Frame) (hinv : run_invariant tr last)
    (hfresh : call.current_frame.m_features = [])
    (hcounter : tr.m_global_feature_id + (minted_in_run tr last (call :: rest) : ℤ) ≤
      2 ^ 31 - 1) :
    ∃ (produced : Frame) (tr2 : FeatureTracker),
      run_tracker tr last (call :: rest) = produced :: run_tracker tr2 (some produced) rest ∧
      run_invariant tr2 (some produced) ∧
      tr.m_global_feature_id ≤ tr2.m_global_feature_id ∧
      tr2.m_global_feature_id + (minted_in_run tr2 (some produced) rest : ℤ) ≤ 2 ^ 31 - 1 ∧
      ∀ id ∈ produced.ids,
        id ∈ (if call.pass_previous = true then last else Option.none).elim [] Frame.ids ∨
          tr.m_global_feature_id ≤ id := by
  have hstep := track_features_step call.oracles (tr.set_max_features call.max_features)
    call.current_frame (if call.pass_previous = true then last else Option.none) hfresh
  obtain ⟨produced0, -, -, hout0, -⟩ := hstep
  have hrun : minted_in_run tr last (call :: rest) =
      (produced0.get_feature_count -
        (tracking_branch call.oracles (tr.set_max_features call.max_features)
          call.current_frame
          (if call.pass_previous = true then last else Option.none)).get_feature_count) +
        minted_in_run
          (track_features call.oracles (tr.set_max_features call.max_features)
            (some call.current_frame)
            (if call.pass_previous = true then last else Option.none)).1
          (some produced0) rest := by
    simp only [minted_in_run, hout0]
  rw [hrun] at hcounter
  push_cast at hcounter
  have hrestpos : (0 : ℤ) ≤ (minted_in_run
      (track_features call.oracles (tr.set_max_features call.max_features)
        (some call.current_frame)
        (if call.pass_previous = true then last else Option.none)).1
      (some produced0) rest : ℤ) := Int.natCast_nonneg _
  obtain ⟨produced, hout, hinv2, hafter, hsrc⟩ :=
    track_features_invariant call.oracles tr call.max_features call.current_frame last
      (if call.pass_previous = true then last else Option.none) hfresh hinv
      (by split_ifs <;> simp)
      (by
        intro produced hp
        rw [hout0] at hp
        cases hp
        push_cast
        linarith)
  rw [hout0] at hout
  cases hout
  refine ⟨produced0, _, ?_, hinv2, ?_, ?_, hsrc⟩
  · simp only [run_tracker, hout0]
  · rw [hafter]
    have : (0 : ℤ) ≤ ((produced0.get_feature_count -
        (tracking_branch call.oracles (tr.set_max_features call.max_features)
          call.current_frame
          (if call.pass_previous = true then last else Option.none)).get_feature_count : ℕ) :
        ℤ) := Int.natCast_nonneg _
    linarith
  · rw [hafter]
    push_cast
    linarith

theorem run_tracker_nodup (calls : List TrackCall) (tr : FeatureTracker) (last : Option Frame)
    (hinv : run_invariant tr last)
    (hfresh : ∀ call ∈ calls, call.current_frame.m_features = [])
    (hcounter : tr.m_global_feature_id + (minted_in_run tr last calls : ℤ) ≤ 2 ^ 31 - 1) :
    ∀ frame ∈ run_tracker tr last calls, frame.ids.Nodup := by
  induction calls generalizing tr last with
  | nil => simp [run_tracker]
  | cons call rest ih =>
    obtain ⟨produced, tr2, hrun, hinv2, -, hc2, -⟩ :=
      run_tracker_cons call rest tr last hinv (hfresh call (List.mem_cons_self _ _)) hcounter
    intro frame hframe
    rw [hrun, List.mem_cons] at hframe
    rcases hframe with rfl | hframe
    · exact (hinv2 _ rfl).1
    · exact ih _ _ hinv2 (fun c hc => hfresh c (List.mem_cons_of_mem _ hc)) hc2 frame hframe

/-- An id below the counter that the last produced frame does not hold is in no later frame. -/
theorem run_tracker_absent (calls : List TrackCall) (tr : FeatureTracker) (last : Option Frame)
    (id : ℤ) (hinv : run_invariant tr last)
    (hfresh : ∀ call ∈ calls, call.current_frame.m_features = [])
    (hcounter : tr.m_global_feature_id + (minted_in_run tr last calls : ℤ) ≤ 2 ^ 31 - 1)
    (hbelow : id < tr.m_global_feature_id) (habsent : ∀ p, last = some p → id ∉ p.ids) :
    ∀ frame ∈ run_tracker tr last calls, id ∉ frame.ids := by
  induction calls generalizing tr last with
  | nil => simp [run_tracker]
  | cons call rest ih =>
    obtain ⟨produced, tr2, hrun, hinv2, hmono, hc2, hsrc⟩ :=
      run_tracker_cons call rest tr last hinv (hfresh call (List.mem_cons_self _ _)) hcounter
    have hnot : id ∉ produced.ids := by
      intro hmem
      rcases hsrc id hmem with h | h
      · split_ifs at h
        · cases last with
          | none => simp at h
          | some p => exact habsent p rfl h
        · simp at h
      · omega
    intro frame hframe
    rw [hrun, List.mem_cons] at hframe
    rcases hframe with rfl | hframe
    · exact hnot
    · exact ih _ _ hinv2 (fun c hc => hfresh c (List.mem_cons_of_mem _ hc)) hc2 (by omega)
        (fun p hp => by cases hp; exact hnot) frame hframe

theorem run_tracker_dropped (calls : List TrackCall) (tr : FeatureTracker) (last : Option Frame)
    (hinv : run_invariant tr last)
    (hfresh : ∀ call ∈ calls, call.current_frame.m_features = [])
    (hcounter : tr.m_global_feature_id + (minted_in_run tr last calls : ℤ) ≤ 2 ^ 31 - 1)
    (i j : ℕ) (hij : i + 1 < j) (id : ℤ) (f g h : Frame)
    (hf : (run_tracker tr last calls)[i]? = some f)
    (hg : (run_tracker tr last calls)[i + 1]? = some g)
    (hh : (run_tracker tr last calls)[j]? = some h)
    (hpresent : id ∈ f.ids) (hgone : id ∉ g.ids) : id ∉ h.ids := by
  induction calls generalizing tr last i j with
  | nil => simp [run_tracker] at hf
  | cons call rest ih =>
    obtain ⟨produced, tr2, hrun, hinv2, -, hc2, -⟩ :=
      run_tracker_cons call rest tr last hinv (hfresh call (List.mem_cons_self _ _)) hcounter
    have hrest : ∀ c ∈ rest, c.current_frame.m_features = [] :=
      fun c hc => hfresh c (List.mem_cons_of_mem _ hc)
    rw [hrun] at hf hg hh
    obtain ⟨j, rfl⟩ : ∃ k, j = k + 1 := ⟨j - 1, by omega⟩
    rw [List.getElem?_cons_succ] at hg hh
    cases i with
    | succ i =>
      rw [List.getElem?_cons_succ] at hf
      exact ih _ _ hinv2 hrest hc2 i j (by omega) hf hg hh
    | zero =>
      rw [List.getElem?_cons_zero] at hf
      cases hf
      cases rest with
      | nil => simp [run_tracker] at hg
      | cons call2 rest2 =>
        obtain ⟨produced2, tr3, hrun2, hinv3, hmono2, hc3, -⟩ :=
          run_tracker_cons call2 rest2 tr2 (some f) hinv2
            (hrest call2 (List.mem_cons_self _ _)) hc2
        rw [hrun2] at hg hh
        obtain ⟨j, rfl⟩ : ∃ k, j = k + 1 := ⟨j - 1, by omega⟩
        rw [List.getElem?_cons_succ] at hh
        simp only [zero_add, List.getElem?_cons_zero, Option.some.injEq] at hg
        subst hg
        have hb := (hinv2 f rfl).2 id hpresent
        exact run_tracker_absent rest2 _ _ id hinv3
          (fun c hc => hrest c (List.mem_cons_of_mem _ hc)) hc3 (by omega)
          (fun p hp => by cases hp; exact hgone) h (List.getElem?_mem hh)

/-- The value of the counter after `k` increments from a value `n` of the `int` range: `n + k`
reduced to the range by the two's-complement wrap-around. -/
theorem int_increment_iterate_wrap (k : ℕ) (n : ℤ) (h1 : -2 ^ 31 ≤ n) (h2 : n < 2 ^ 31) :
    int_increment^[k] n = (n + (k : ℤ) + 2 ^ 31) % 2 ^ 32 - 2 ^ 31 := by
  induction k with
  | zero =>
    simp only [Function.iterate_zero, id_eq, Nat.cast_zero, add_zero]
    omega
  | succ k ih =>
    rw [Function.iterate_succ_apply', ih]
    unfold int_increment
    push_cast
    split_ifs with h <;> omega

theorem minted_ids (n : ℤ) (corners : List Point2f) :
    (minted n corners).map Feature.get_feature_id =
      (List.range corners.length).map (fun i => int_increment^[i] n) := by
  induction corners generalizing n with
  | nil => rfl
  | cons corner rest ih =>
    rw [minted, List.map_cons, ih, List.length_cons, List.range_succ_eq_map, List.map_cons,
      List.map_map]
    rfl

theorem optical_flow_fold_lost (previous_frame : Frame) (img_size : Size) (res : LKResult)
    (h : ∀ i, res.status.getD i 0 = 0) (indices : List ℕ) (current_frame : Frame) :
    indices.foldl (optical_flow_step previous_frame img_size res) current_frame =
      current_frame := by
  induction indices generalizing current_frame with
  | nil => rfl
  | cons i rest ih =>
    have hstep : optical_flow_step previous_frame img_size res current_frame i =
        current_frame := by
      unfold optical_flow_step
      rw [if_neg]
      rintro ⟨h1, -⟩
      exact h1 (h i)
    rw [List.foldl_cons, hstep, ih]

/-- When the optical flow loses every point, the tracking branch leaves a current frame without
features as it is. -/
theorem tracking_branch_lost (O : Oracles) (tr : FeatureTracker) (current previous : Frame)
    (hfresh : current.m_features = [])
    (h : ∀ i, (O.calcOpticalFlowPyrLK previous.get_image current.get_image
      (extract_points_from_features previous.get_features)
      ⟨tr.m_win_size, tr.m_max_level, tr.m_criteria, 0, 1 / 10000⟩).status.getD i 0 = 0) :
    tracking_branch O tr current (some previous) = current := by
  have h1 : optical_flow_tracking O tr current previous = current := by
    unfold optical_flow_tracking
    split_ifs
    · rfl
    · exact optical_flow_fold_lost _ _ _ h _ _
  have h2 : reject_outliers_with_fundamental_matrix O tr current previous = current := by
    unfold reject_outliers_with_fundamental_matrix
    rw [if_pos]
    simp [Frame.get_feature_count, hfresh]
  show update_feature_track_count
    (reject_outliers_with_fundamental_matrix O tr
      (optical_flow_tracking O tr current previous) previous) = current
  rw [h1, h2]
  unfold update_feature_track_count
  cases current
  simp_all

/-- The call `redetect_call` of a run, whatever the tracker's counter and the preceding frame:
the produced frame holds the 150 features minted from the counter. -/
theorem redetect_call_step (tr : FeatureTracker) (previous : Frame) :
    track_features redetect_call.oracles (tr.set_max_features 150)
        (some redetect_call.current_frame) (some previous) =
      ((mint_features corners_150 (tr.set_max_features 150) (fresh_frame 1 image_640x480)).1,
        some (mint_features corners_150 (tr.set_max_features 150)
          (fresh_frame 1 image_640x480)).2) := by
  have hb : tracking_branch redetect_call.oracles (tr.set_max_features 150)
      redetect_call.current_frame (some previous) = fresh_frame 1 image_640x480 :=
    tracking_branch_lost _ _ _ _ rfl (fun i => by
      show (List.map (fun _ => 0)
        (extract_points_from_features previous.get_features)).getD i 0 = 0
      rw [List.getD_eq_getElem?_getD, List.getElem?_map]
      cases (extract_points_from_features previous.get_features)[i]? <;> rfl)
  rw [track_features_eq, hb]
  have hbelow : below_max_features (fresh_frame 1 image_640x480).get_feature_count
      (tr.set_max_features 150).m_max_features = true := by
    show below_max_features 0 150 = true
    decide
  rw [if_pos hbelow]
  have hext : extract_new_features redetect_call.oracles (tr.set_max_features 150)
      (fresh_frame 1 image_640x480) =
        mint_features corners_150 (tr.set_max_features 150) (fresh_frame 1 image_640x480) := by
    unfold extract_new_features
    rw [if_neg (by decide)]
    rfl
  rw [hext]

/-- The ids of the frames produced by `m` successive calls `redetect_call`: the `j`-th of them
holds the ids number `150 j` to `150 j + 149` after the counter's value at the start. -/
theorem redetect_run_ids (m : ℕ) (tr : FeatureTracker) (last : Frame) (j : ℕ) (hj : j < m) :
    ((run_tracker tr (some last) (List.replicate m redetect_call))[j]?).map Frame.ids =
      some ((List.range 150).map
        (fun i => int_increment^[150 * j + i] tr.m_global_feature_id)) := by
  induction m generalizing tr last j with
  | zero => omega
  | succ m ih =>
    have hstep := redetect_call_step tr last
    have hmint := mint_features_eq corners_150 (tr.set_max_features 150)
      (fresh_frame 1 image_640x480)
    have hlen : corners_150.length = 150 := by simp [corners_150]
    have hrun : run_tracker tr (some last) (List.replicate (m + 1) redetect_call) =
        (mint_features corners_150 (tr.set_max_features 150) (fresh_frame 1 image_640x480)).2 ::
          run_tracker
            (mint_features corners_150 (tr.set_max_features 150)
              (fresh_frame 1 image_640x480)).1
            (some (mint_features corners_150 (tr.set_max_features 150)
              (fresh_frame 1 image_640x480)).2)
            (List.replicate m redetect_call) := by
      rw [List.replicate_succ, run_tracker]
      have hcall : track_features redetect_call.oracles
          (tr.set_max_features redetect_call.max_features) (some redetect_call.current_frame)
          (if redetect_call.pass_previous = true then some last else Option.none) =
          ((mint_features corners_150 (tr.set_max_features 150)
              (fresh_frame 1 image_640x480)).1,
            some (mint_features corners_150 (tr.set_max_features 150)
              (fresh_frame 1 image_640x480)).2) := hstep
      simp only [hcall]
    rw [hrun]
    have hids : (mint_features corners_150 (tr.set_max_features 150)
        (fresh_frame 1 image_640x480)).2.ids =
          (List.range 150).map (fun i => int_increment^[i] tr.m_global_feature_id) := by
      unfold Frame.ids
      rw [hmint.2]
      show List.map Feature.get_feature_id ([] ++ minted tr.m_global_feature_id corners_150) = _
      rw [List.nil_append, minted_ids, hlen]
    have hafter : (mint_features corners_150 (tr.set_max_features 150)
        (fresh_frame 1 image_640x480)).1.m_global_feature_id =
          int_increment^[150] tr.m_global_feature_id := by
      rw [hmint.1, hlen]
      simp only [set_max_features]
    cases j with
    | zero =>
      rw [List.getElem?_cons_zero, Option.map_some', hids]
      refine congrArg some (List.map_congr_left ?_)
      intro i _
      rw [Nat.mul_zero, Nat.zero_add]
    | succ j =>
      rw [List.getElem?_cons_succ, ih _ _ j (by omega), hafter]
      refine congrArg some (List.map_congr_left ?_)
      intro i _
      rw [← Function.iterate_add_apply]
      have hsum : 150 * j + i + 150 = 150 * (j + 1) + i := by omega
      rw [hsum]

end FeatureTracker

/-! ## Lemmas on the border test and on the stereo gates -/

theorem cvRound_intCast (a : ℤ) : cvRound (a : ℚ) = a := by
  unfold cvRound
  simp

theorem cvRound_nearest (v : ℚ) : |(cvRound v : ℚ) - v| ≤ 1 / 2 := by
  unfold cvRound
  have h1 := Int.floor_le v
  have h2 := Int.lt_floor_add_one v
  simp only
  rw [abs_le]
  split_ifs with ha hb hc
  · constructor <;> linarith
  · push_cast; constructor <;> linarith
  · constructor <;> linarith
  · push_cast; constructor <;> linarith

theorem FeatureTracker.is_in_border_iff (point : Point2f) (img_size : Size) (border_size : ℤ) :
    FeatureTracker.is_in_border point img_size border_size = true ↔
      border_size ≤ cvRound point.x ∧ cvRound point.x < img_size.width - border_size ∧
        border_size ≤ cvRound point.y ∧ cvRound point.y < img_size.height - border_size := by
  simp [FeatureTracker.is_in_border, and_assoc]

theorem round_to_format_ne_nan (precision : ℕ) (emin emax : ℤ) (v : ℚ) :
    round_to_format precision emin emax v ≠ FloatValue.nan := by
  unfold round_to_format
  dsimp only
  split_ifs <;> simp

/-- A `float` difference of finite values is finite or an infinity. -/
theorem float_sub_ne_nan (a b : ℚ) : float_sub a b ≠ FloatValue.nan :=
  round_to_format_ne_nan _ _ _ _

/-- The disparity check `!(disparity < 0.1f || disparity > 300.0f)` passes exactly for a finite
disparity in the closed interval from `0.1f` to 300. -/
theorem FloatValue.disparity_check_iff (v : FloatValue) (hv : v ≠ FloatValue.nan) :
    ¬ (v.lt (FloatValue.finite float_0_1) = true ∨ (FloatValue.finite 300).lt v = true) ↔
      ∃ d, v = FloatValue.finite d ∧ float_0_1 ≤ d ∧ d ≤ 300 := by
  cases v with
  | finite a =>
    simp only [FloatValue.lt, decide_eq_true_eq, not_or, not_lt, FloatValue.finite.injEq]
    constructor
    · rintro ⟨h1, h2⟩
      exact ⟨a, rfl, h1, h2⟩
    · rintro ⟨d, rfl, h1, h2⟩
      exact ⟨h1, h2⟩
  | infinity s => cases s <;> simp [FloatValue.lt]
  | nan => exact absurd rfl hv

/-- The y-difference check `!(y_diff > 20.0f)` passes exactly for a finite difference of
magnitude at most 20. -/
theorem FloatValue.y_diff_check_iff (v : FloatValue) (hv : v ≠ FloatValue.nan) :
    ¬ ((FloatValue.finite 20).lt v.abs = true) ↔
      ∃ dy, v = FloatValue.finite dy ∧ |dy| ≤ 20 := by
  cases v with
  | finite a =>
    simp only [FloatValue.lt, FloatValue.abs, decide_eq_true_eq, not_lt, FloatValue.finite.injEq]
    constructor
    · intro h
      exact ⟨a, rfl, h⟩
    · rintro ⟨d, rfl, h⟩
      exact h
  | infinity s => simp [FloatValue.lt, FloatValue.abs]
  | nan => exact absurd rfl hv

theorem Frame.is_valid_match_iff (fundamental_matrix : Option Mat33) (left_pt right_pt : Point2f) :
    Frame.is_valid_match fundamental_matrix left_pt right_pt = true ↔
      (∀ F, fundamental_matrix = some F →
        (FloatValue.finite 5).lt (Frame.epipolar_error F left_pt right_pt) = false) ∧
        (∃ d, float_sub left_pt.x right_pt.x = FloatValue.finite d ∧ float_0_1 ≤ d ∧ d ≤ 300) ∧
          ∃ dy, float_sub left_pt.y right_pt.y = FloatValue.finite dy ∧ |dy| ≤ 20 := by
  have key : Frame.is_valid_match fundamental_matrix left_pt right_pt = true ↔
      (∀ F, fundamental_matrix = some F →
        ¬ (FloatValue.finite 5).lt (Frame.epipolar_error F left_pt right_pt) = true) ∧
        ¬ ((float_sub left_pt.x right_pt.x).lt (FloatValue.finite float_0_1) = true ∨
          (FloatValue.finite 300).lt (float_sub left_pt.x right_pt.x) = true) ∧
          ¬ (FloatValue.finite 20).lt (float_sub left_pt.y right_pt.y).abs = true := by
    unfold Frame.is_valid_match
    cases fundamental_matrix with
    | none => simp only []; split_ifs <;> simp_all
    | some F => simp only []; split_ifs <;> simp_all
  rw [key, FloatValue.disparity_check_iff _ (float_sub_ne_nan _ _),
    FloatValue.y_diff_check_iff _ (float_sub_ne_nan _ _)]
  simp only [Bool.not_eq_true]

/-! ## Lemmas on the second scan of `compute_stereo_matches` -/

theorem valid_before_zero (features : List Feature) : valid_before features 0 = 0 := by
  simp [valid_before]

theorem valid_before_succ (f : Feature) (rest : List Feature) (p : ℕ) :
    valid_before (f :: rest) (p + 1) =
      (if f.is_valid = true then 1 else 0) + valid_before rest p := by
  unfold valid_before
  rw [List.take_succ_cons, List.filter_cons]
  split_ifs
  · simp only [List.length_cons]
    omega
  · omega

namespace Frame

theorem apply_matches_cons (fundamental_matrix : Option Mat33) (left_pts : List Point2f)
    (res : LKResult) (idx : ℕ) (feature : Feature) (rest : List Feature) :
    apply_matches fundamental_matrix left_pts res idx (feature :: rest) =
      matched_feature fundamental_matrix left_pts res idx feature ::
        apply_matches fundamental_matrix left_pts res
          (if feature.is_valid = true ∧ idx < res.status.length then idx + 1 else idx) rest := by
  rw [apply_matches]
  unfold matched_feature
  dsimp only
  split_ifs <;> rfl

theorem matched_feature_out_of_range (fundamental_matrix : Option Mat33)
    (left_pts : List Point2f) (res : LKResult) (k : ℕ) (feature : Feature)
    (h : res.status.length ≤ k) :
    matched_feature fundamental_matrix left_pts res k feature = feature := by
  unfold matched_feature
  rw [if_neg (by omega)]

theorem matched_feature_invalid (fundamental_matrix : Option Mat33)
    (left_pts : List Point2f) (res : LKResult) (k : ℕ) (feature : Feature)
    (h : feature.is_valid = false) :
    matched_feature fundamental_matrix left_pts res k feature = feature := by
  unfold matched_feature
  rw [if_neg (by simp [h])]

theorem apply_matches_getElem? (fundamental_matrix : Option Mat33) (left_pts : List Point2f)
    (res : LKResult) (features : List Feature) (idx p : ℕ) (feature : Feature)
    (hp : features[p]? = some feature) :
    (apply_matches fundamental_matrix left_pts res idx features)[p]? =
      some (matched_feature fundamental_matrix left_pts res
        (idx + valid_before features p) feature) := by
  induction features generalizing idx p with
  | nil => simp at hp
  | cons f rest ih =>
    rw [apply_matches_cons]
    cases p with
    | zero =>
      simp only [List.getElem?_cons_zero, Option.some.injEq] at hp
      subst hp
      simp [valid_before_zero]
    | succ p =>
      rw [List.getElem?_cons_succ] at hp
      rw [List.getElem?_cons_succ, ih _ _ hp, valid_before_succ]
      by_cases hv : f.is_valid = true
      · by_cases hlt : idx < res.status.length
        · rw [if_pos ⟨hv, hlt⟩, if_pos hv]
          congr 2
          omega
        · rw [if_neg (fun h => hlt h.2), if_pos hv,
            matched_feature_out_of_range _ _ _ _ _ (by omega),
            matched_feature_out_of_range _ _ _ _ _ (by omega)]
      · rw [if_neg (fun h => hv h.1), if_neg hv]
        congr 2
        omega

theorem left_pts_getElem? (features : List Feature) (p : ℕ) (feature : Feature)
    (hp : features[p]? = some feature) (hvalid : feature.is_valid = true) :
    ((features.filter Feature.is_valid).map Feature.get_pixel_coord)[valid_before features p]? =
      some feature.m_pixel_coord := by
  induction features generalizing p with
  | nil => simp at hp
  | cons f rest ih =>
    cases p with
    | zero =>
      simp only [List.getElem?_cons_zero, Option.some.injEq] at hp
      subst hp
      simp [valid_before_zero, List.filter_cons, hvalid, Feature.get_pixel_coord]
    | succ p =>
      rw [List.getElem?_cons_succ] at hp
      rw [valid_before_succ, List.filter_cons]
      by_cases hv : f.is_valid = true
      · rw [if_pos hv, if_pos hv, List.map_cons, Nat.add_comm, List.getElem?_cons_succ]
        exact ih p hp
      · rw [if_neg hv, if_neg hv, Nat.zero_add]
        exact ih p hp

/-- The effect of `compute_stereo_matches` on the valid feature stored at position `p` of a
stereo frame: it consumes the oracle result of index `valid_before fr.m_features p`, paired with
its own pixel coordinate. -/
theorem compute_stereo_matches_getElem? (O : Oracles) (fr : Frame) (p : ℕ) (feature : Feature)
    (hstereo : fr.is_stereo = true) (hp : fr.m_features[p]? = some feature)
    (hvalid : feature.m_is_valid = true) :
    (compute_stereo_matches O fr).m_features[p]? =
      some (if valid_before fr.m_features p < (stereo_flow O fr).status.length ∧
          is_loose (stereo_flow O fr) (valid_before fr.m_features p) = true ∧
          is_valid_match (stereo_matrix O fr) feature.m_pixel_coord
            ((stereo_flow O fr).next_pts.getD (valid_before fr.m_features p) ⟨0, 0⟩) = true
        then record_stereo_match feature
          ((stereo_flow O fr).next_pts.getD (valid_before fr.m_features p) ⟨0, 0⟩)
          (float_sub feature.m_pixel_coord.x
            ((stereo_flow O fr).next_pts.getD (valid_before fr.m_features p) ⟨0, 0⟩).x)
        else feature) := by
  have hleft := left_pts_getElem? fr.m_features p feature hp hvalid
  have hne : stereo_left_pts fr ≠ [] := by
    intro h
    unfold stereo_left_pts at h
    rw [h] at hleft
    simp at hleft
  have hget : (stereo_left_pts fr).getD (valid_before fr.m_features p) ⟨0, 0⟩ =
      feature.m_pixel_coord := by
    unfold stereo_left_pts
    rw [List.getD_eq_getElem?_getD, hleft]
    rfl
  unfold compute_stereo_matches
  rw [if_neg (by simp [hstereo]), if_neg hne]
  simp only []
  rw [apply_matches_getElem? _ _ _ _ _ _ _ hp, Nat.zero_add]
  unfold matched_feature
  rw [hget]
  have hv : feature.is_valid = true := hvalid
  congr 1
  split_ifs <;> simp_all

end Frame

/-! ## Temporal tracker (claims C1 to C4) -/

namespace FeatureTracker

/-- C1, the code at the failing input: frame 1 is produced without previous frame from the
corners (10, 10) and (20, 20), both features with track count 1; frame 2 is produced from a
fresh frame with frame 1 as previous frame, both points tracked in place. The two carried
features of frame 2 hold track count 3, not 1 + 1 = 2: `optical_flow_tracking` stores the
previous count plus 1 and `update_feature_track_count` then adds 1 again. -/
theorem track_count_incremented_twice :
    (track_features (scenario_oracles [⟨10, 10⟩, ⟨20, 20⟩] (fun pts => pts) [] [])
        (FeatureTracker.new.set_max_features 2)
        (some (fresh_frame 0 image_640x480)) Option.none).2.map
      (fun fr => fr.m_features.map Feature.summary) =
        some [(0, ⟨10, 10⟩, 1), (1, ⟨20, 20⟩, 1)] ∧
    (track_features (scenario_oracles [] (fun pts => pts) [1, 1] [])
        (track_features (scenario_oracles [⟨10, 10⟩, ⟨20, 20⟩] (fun pts => pts) [] [])
          (FeatureTracker.new.set_max_features 2)
          (some (fresh_frame 0 image_640x480)) Option.none).1
        (some (fresh_frame 1 image_640x480))
        (track_features (scenario_oracles [⟨10, 10⟩, ⟨20, 20⟩] (fun pts => pts) [] [])
          (FeatureTracker.new.set_max_features 2)
          (some (fresh_frame 0 image_640x480)) Option.none).2).2.map
      (fun fr => fr.m_features.map Feature.summary) =
        some [(0, ⟨10, 10⟩, 3), (1, ⟨20, 20⟩, 3)] := by
  refine ⟨by decide!, by decide!⟩

/-- C2, the code at the failing input: the previous frame stores an invalid feature (id 0) before
a valid one (id 1 at (10, 10)). The only submitted point is (10, 10), the coordinate of the
feature with id 1, yet the feature created for it carries id 0: the loop reads
`previous_frame->get_features()[i]` at the index of the submitted point. -/
theorem tracked_id_read_at_unfiltered_index :
    extract_points_from_features frame_with_invalid_feature.m_features = [⟨10, 10⟩] ∧
      frame_with_invalid_feature.m_features.map
        (fun f => (f.m_feature_id, f.m_pixel_coord, f.m_is_valid)) =
          [(0, ⟨5, 5⟩, false), (1, ⟨10, 10⟩, true)] ∧
      (optical_flow_tracking (scenario_oracles [] (fun pts => pts) [1] [])
          FeatureTracker.new (fresh_frame 1 image_640x480)
          frame_with_invalid_feature).m_features.map Feature.summary =
        [(0, ⟨10, 10⟩, 2)] := by
  refine ⟨by decide!, by decide!, by decide!⟩

/-- C3: in a run of one tracker in which every call receives a current frame without features
and, as previous frame, nothing or the frame produced by the preceding call, and in which the
`int` counter does not overflow (its value at the start plus the number of features minted in
the run does not pass `INT_MAX = 2^31 - 1`), the ids within every produced frame are pairwise
distinct, whatever the oracles return. -/
theorem ids_pairwise_distinct (tr : FeatureTracker) (calls : List TrackCall)
    (hfresh : ∀ call ∈ calls, call.current_frame.m_features = [])
    (hcounter : tr.m_global_feature_id + (minted_in_run tr Option.none calls : ℤ) ≤
      2 ^ 31 - 1) :
    ∀ frame ∈ run_tracker tr Option.none calls, frame.ids.Nodup :=
  run_tracker_nodup calls tr Option.none (by intro p hp; cases hp) hfresh hcounter

/-- C3, witness: the sample run of three calls produces the id lists [0, 1], [0, 2] and
[0, 2, 3]. -/
theorem ids_pairwise_distinct_witness :
    (run_tracker FeatureTracker.new Option.none sample_run).map Frame.ids =
        [[0, 1], [0, 2], [0, 2, 3]] ∧
      ∀ frame ∈ run_tracker FeatureTracker.new Option.none sample_run, frame.ids.Nodup :=
  ⟨by decide!, ids_pairwise_distinct FeatureTracker.new sample_run (by decide!) (by decide!)⟩

/-- C4, counterexample: the run `overflow_run` of a freshly constructed tracker. The first
frame holds id 0; the second frame (every point lost, 150 corners detected) does not hold it;
after 28633116 such calls, which mint 2^32 further ids, the counter has wrapped around from
`INT_MAX` to `INT_MIN` and come back to 0: the last frame holds id 0 again. -/
theorem dropped_id_reappears_after_overflow :
    ((run_tracker FeatureTracker.new Option.none overflow_run).map Frame.ids)[0]? =
        some [0] ∧
      (((run_tracker FeatureTracker.new Option.none overflow_run).map Frame.ids)[1]?).map
        (fun ids => decide ((0 : ℤ) ∈ ids)) = some false ∧
      (((run_tracker FeatureTracker.new Option.none overflow_run).map
        Frame.ids)[28633116]?).map (fun ids => decide ((0 : ℤ) ∈ ids)) = some true := by
  have hfirst : track_features (detect_call 0 [⟨20, 20⟩]).oracles
      (FeatureTracker.new.set_max_features (detect_call 0 [⟨20, 20⟩]).max_features)
      (some (detect_call 0 [⟨20, 20⟩]).current_frame)
      (if (detect_call 0 [⟨20, 20⟩]).pass_previous = true then Option.none else Option.none) =
        ((mint_features [⟨20, 20⟩] (FeatureTracker.new.set_max_features 3)
            (fresh_frame 0 image_640x480)).1,
          some (mint_features [⟨20, 20⟩] (FeatureTracker.new.set_max_features 3)
            (fresh_frame 0 image_640x480)).2) := by
    show track_features (scenario_oracles [⟨20, 20⟩] (fun pts => pts) [] [])
      (FeatureTracker.new.set_max_features 3) (some (fresh_frame 0 image_640x480))
      Option.none = _
    have hbelow : below_max_features (fresh_frame 0 image_640x480).get_feature_count
        (FeatureTracker.new.set_max_features 3).m_max_features = true := by
      show below_max_features 0 3 = true
      decide
    have hbranch : tracking_branch (scenario_oracles [⟨20, 20⟩] (fun pts => pts) [] [])
        (FeatureTracker.new.set_max_features 3) (fresh_frame 0 image_640x480) Option.none =
          fresh_frame 0 image_640x480 := rfl
    rw [track_features_eq, hbranch, if_pos hbelow]
    have hext : extract_new_features (scenario_oracles [⟨20, 20⟩] (fun pts => pts) [] [])
        (FeatureTracker.new.set_max_features 3) (fresh_frame 0 image_640x480) =
          mint_features [⟨20, 20⟩] (FeatureTracker.new.set_max_features 3)
            (fresh_frame 0 image_640x480) := by
      unfold extract_new_features
      rw [if_neg (by decide)]
      rfl
    rw [hext]
  have hmint := mint_features_eq [⟨20, 20⟩] (FeatureTracker.new.set_max_features 3)
    (fresh_frame 0 image_640x480)
  have hrun : run_tracker FeatureTracker.new Option.none overflow_run =
      (mint_features [⟨20, 20⟩] (FeatureTracker.new.set_max_features 3)
          (fresh_frame 0 image_640x480)).2 ::
        run_tracker
          (mint_features [⟨20, 20⟩] (FeatureTracker.new.set_max_features 3)
            (fresh_frame 0 image_640x480)).1
          (some (mint_features [⟨20, 20⟩] (FeatureTracker.new.set_max_features 3)
            (fresh_frame 0 image_640x480)).2)
          (List.replicate 28633116 redetect_call) := by
    rw [overflow_run, run_tracker]
    simp only [hfirst]
  have hcounter : (mint_features [⟨20, 20⟩] (FeatureTracker.new.set_max_features 3)
      (fresh_frame 0 image_640x480)).1.m_global_feature_id = 1 := by
    rw [hmint.1]
    rfl
  have hlater : ∀ j, j < 28633116 →
      ((run_tracker FeatureTracker.new Option.none overflow_run).map Frame.ids)[j + 1]? =
        some ((List.range 150).map
          (fun i => ((1 : ℤ) + ((150 * j + i : ℕ) : ℤ) + 2 ^ 31) % 2 ^ 32 - 2 ^ 31)) := by
    intro j hj
    have hids := redetect_run_ids 28633116
      (mint_features [⟨20, 20⟩] (FeatureTracker.new.set_max_features 3)
        (fresh_frame 0 image_640x480)).1
      (mint_features [⟨20, 20⟩] (FeatureTracker.new.set_max_features 3)
        (fresh_frame 0 image_640x480)).2 j hj
    rw [hrun, List.map_cons, List.getElem?_cons_succ, List.getElem?_map, hids, hcounter]
    refine congrArg some (List.map_congr_left ?_)
    intro i _
    exact int_increment_iterate_wrap _ 1 (by norm_num) (by norm_num)
  refine ⟨?_, ?_, ?_⟩
  · rw [hrun, List.map_cons, List.getElem?_cons_zero]
    simp only [Frame.ids, hmint.2]
    rfl
  · rw [hlater 0 (by norm_num), Option.map_some']
    refine congrArg some ?_
    rw [decide_eq_false_iff_not, List.mem_map]
    rintro ⟨i, hi, h0⟩
    rw [List.mem_range] at hi
    omega
  · rw [hlater 28633115 (by norm_num), Option.map_some']
    refine congrArg some ?_
    rw [decide_eq_true_iff, List.mem_map]
    exact ⟨45, by simp, by norm_num⟩

/-- C4, amended: in a run of one tracker in which every call receives a current frame without
features and, as previous frame, nothing or the frame produced by the preceding call, and in
which the `int` counter does not overflow (its value at the start plus the number of features
minted in the run does not pass `INT_MAX = 2^31 - 1`), an id held by the `i`-th produced frame
and not by the next one is held by no later produced frame. -/
theorem dropped_id_never_reappears (tr : FeatureTracker) (calls : List TrackCall)
    (hfresh : ∀ call ∈ calls, call.current_frame.m_features = [])
    (hcounter : tr.m_global_feature_id + (minted_in_run tr Option.none calls : ℤ) ≤
      2 ^ 31 - 1)
    (i j : ℕ) (hij : i + 1 < j) (id : ℤ) (ids_i ids_next ids_j : List ℤ)
    (hi : ((run_tracker tr Option.none calls).map Frame.ids)[i]? = some ids_i)
    (hnext : ((run_tracker tr Option.none calls).map Frame.ids)[i + 1]? = some ids_next)
    (hj : ((run_tracker tr Option.none calls).map Frame.ids)[j]? = some ids_j)
    (hpresent : id ∈ ids_i) (hgone : id ∉ ids_next) : id ∉ ids_j := by
  rw [List.getElem?_map] at hi hnext hj
  cases hf : (run_tracker tr Option.none calls)[i]? with
  | none => rw [hf] at hi; cases hi
  | some f =>
    cases hg : (run_tracker tr Option.none calls)[i + 1]? with
    | none => rw [hg] at hnext; cases hnext
    | some g =>
      cases hh : (run_tracker tr Option.none calls)[j]? with
      | none => rw [hh] at hj; cases hj
      | some h =>
        rw [hf] at hi
        rw [hg] at hnext
        rw [hh] at hj
        cases hi
        cases hnext
        cases hj
        exact run_tracker_dropped calls tr Option.none (by intro p hp; cases hp) hfresh
          hcounter i j hij id f g h hf hg hh hpresent hgone

/-- C4, amended, witness: in the sample run, which mints 4 features, id 1 is held by the first
frame, lost in the second and absent from the third. -/
theorem dropped_id_never_reappears_witness :
    (run_tracker FeatureTracker.new Option.none sample_run).map Frame.ids =
        [[0, 1], [0, 2], [0, 2, 3]] ∧ (1 : ℤ) ∉ [(0 : ℤ), 2, 3] :=
  ⟨by decide!,
    dropped_id_never_reappears FeatureTracker.new sample_run (by decide!) (by decide!) 0 2
      (by decide) 1 [0, 1] [0, 2] [0, 2, 3] (by decide!) (by decide!) (by decide!) (by decide)
      (by decide)⟩

end FeatureTracker

/-! ## Stereo gates and depth (claims C5 to C8) -/

namespace Frame

/-- The outcome of `compute_stereo_matches` for a loose candidate pair: the match is recorded
exactly when the flag `is_valid_match` of the pair is true. -/
theorem loose_pair_outcome (O : Oracles) (fr : Frame) (p : ℕ) (feature : Feature)
    (right_pt : Point2f) (hpair : loose_pair_at O fr p feature right_pt) :
    (compute_stereo_matches O fr).m_features[p]? =
      some (if is_valid_match (stereo_matrix O fr) feature.m_pixel_coord right_pt = true then
        record_stereo_match feature right_pt (float_sub feature.m_pixel_coord.x right_pt.x)
      else feature) := by
  obtain ⟨hstereo, hp, hvalid, hlt, hloose, hright⟩ := hpair
  rw [compute_stereo_matches_getElem? O fr p feature hstereo hp hvalid, hright]
  simp only [hlt, hloose, true_and]

/-- A loose candidate pair that passes the three checks has its match recorded: the right
coordinate, the `float` disparity `d` and the flag `has_stereo_match` are written, every other
field is kept. -/
theorem loose_pair_recorded (O : Oracles) (fr : Frame) (p : ℕ) (feature : Feature)
    (right_pt : Point2f) (hpair : loose_pair_at O fr p feature right_pt) (d : ℚ)
    (hepi : ∀ F, stereo_matrix O fr = some F →
      (FloatValue.finite 5).lt (epipolar_error F feature.m_pixel_coord right_pt) = false)
    (hd : float_sub feature.m_pixel_coord.x right_pt.x = FloatValue.finite d)
    (hrange : float_0_1 ≤ d ∧ d ≤ 300)
    (hy : ∃ dy, float_sub feature.m_pixel_coord.y right_pt.y = FloatValue.finite dy ∧ |dy| ≤ 20) :
    (compute_stereo_matches O fr).m_features[p]? =
      some { feature with
        m_right_coord := right_pt, m_disparity := d, m_has_stereo_match := true } := by
  rw [loose_pair_outcome O fr p feature right_pt hpair,
    if_pos ((is_valid_match_iff _ _ _).2 ⟨hepi, ⟨d, hd, hrange.1, hrange.2⟩, hy⟩), hd]
  rfl

/-- A loose candidate pair that fails one of the three checks leaves its feature unchanged. -/
theorem loose_pair_rejected (O : Oracles) (fr : Frame) (p : ℕ) (feature : Feature)
    (right_pt : Point2f) (hpair : loose_pair_at O fr p feature right_pt)
    (h : ¬ ((∀ F, stereo_matrix O fr = some F →
        (FloatValue.finite 5).lt (epipolar_error F feature.m_pixel_coord right_pt) = false) ∧
      (∃ d, float_sub feature.m_pixel_coord.x right_pt.x = FloatValue.finite d ∧
        float_0_1 ≤ d ∧ d ≤ 300) ∧
      ∃ dy, float_sub feature.m_pixel_coord.y right_pt.y = FloatValue.finite dy ∧ |dy| ≤ 20)) :
    (compute_stereo_matches O fr).m_features[p]? = some feature := by
  rw [loose_pair_outcome O fr p feature right_pt hpair, if_neg]
  intro hm
  exact h ((is_valid_match_iff _ _ _).1 hm)

/-- C5, counterexample: a pair with disparity exactly 300.0 (left x = 400, right x = 100, same
row, no fundamental matrix) is not rejected: `is_valid_match` stays true and
`compute_stereo_matches` records the match with disparity 300 on the feature. -/
theorem disparity_300_is_accepted :
    ((400 : ℚ) - 100 ≥ 300) ∧
      is_valid_match Option.none ⟨400, 50⟩ ⟨100, 50⟩ = true ∧
      (compute_stereo_matches (stereo_oracles (fun _ => ⟨100, 50⟩) Option.none)
          (stereo_frame_one ⟨400, 50⟩)).m_features.map
        (fun f => (f.m_has_stereo_match, f.m_disparity)) = [(true, 300)] := by
  refine ⟨by norm_num, by decide!, by decide!⟩

/-- C5, amended: for a loose candidate pair (the valid feature at position `p` and the point
`right_pt` tracked for it), `d` being the disparity `leftX - rightX` as the code computes it,
the difference rounded to `float`. When `d < 0.1f` or `d > 300.0f` (an infinite `d` included)
the pair is rejected and the feature is left unchanged (no stereo match recorded); when the
pair passes the epipolar and y-difference checks, the match is recorded (right coordinate,
disparity `d`, `has_stereo_match = true`) if `0.1f ≤ d ≤ 300` and not otherwise. The flag
`is_valid_match` is false for every pair with `d < 0.1f` or `d > 300`. The bounds 0.1f and
300.0 themselves pass, as do 0.11f and 299.99f, while 0.09f and 300.01f fail; the pairs at
x = 300 and x = -1e-6f, and at x = 310 and x = 10 - 2^-20, whose differences round to 300.0,
pass. -/
theorem disparity_gate_closed_interval (O : Oracles) (fr : Frame) (p : ℕ) (feature : Feature)
    (right_pt : Point2f) (hpair : loose_pair_at O fr p feature right_pt) :
    (((float_sub feature.m_pixel_coord.x right_pt.x).lt (FloatValue.finite float_0_1) = true ∨
          (FloatValue.finite 300).lt (float_sub feature.m_pixel_coord.x right_pt.x) = true) →
        (compute_stereo_matches O fr).m_features[p]? = some feature) ∧
      (((∀ F, stereo_matrix O fr = some F →
            (FloatValue.finite 5).lt (epipolar_error F feature.m_pixel_coord right_pt) = false) ∧
          ∃ dy, float_sub feature.m_pixel_coord.y right_pt.y = FloatValue.finite dy ∧
            |dy| ≤ 20) →
        ∀ d, float_sub feature.m_pixel_coord.x right_pt.x = FloatValue.finite d →
          ((float_0_1 ≤ d ∧ d ≤ 300) →
            (compute_stereo_matches O fr).m_features[p]? =
              some { feature with
                m_right_coord := right_pt, m_disparity := d, m_has_stereo_match := true }) ∧
          (¬ (float_0_1 ≤ d ∧ d ≤ 300) →
            (compute_stereo_matches O fr).m_features[p]? = some feature)) ∧
      (∀ (fundamental_matrix : Option Mat33) (left_pt right_pt : Point2f),
        ((float_sub left_pt.x right_pt.x).lt (FloatValue.finite float_0_1) = true ∨
            (FloatValue.finite 300).lt (float_sub left_pt.x right_pt.x) = true) →
          is_valid_match fundamental_matrix left_pt right_pt = false) ∧
      round_float (1 / 10) = FloatValue.finite float_0_1 ∧
      is_valid_match Option.none ⟨float_0_1, 50⟩ ⟨0, 50⟩ = true ∧
      is_valid_match Option.none ⟨300, 50⟩ ⟨0, 50⟩ = true ∧
      is_valid_match Option.none ⟨7381975 / 67108864, 50⟩ ⟨0, 50⟩ = true ∧
      is_valid_match Option.none ⟨1228759 / 4096, 50⟩ ⟨0, 50⟩ = true ∧
      is_valid_match Option.none ⟨3019899 / 33554432, 50⟩ ⟨0, 50⟩ = false ∧
      is_valid_match Option.none ⟨1228841 / 4096, 50⟩ ⟨0, 50⟩ = false ∧
      is_valid_match Option.none ⟨300, 50⟩ ⟨-(8796093 / 8796093022208), 50⟩ = true ∧
      is_valid_match Option.none ⟨310, 50⟩ ⟨10 - 1 / 2 ^ 20, 50⟩ = true := by
  have hflag : ∀ (fundamental_matrix : Option Mat33) (left_pt right_pt : Point2f),
      ((float_sub left_pt.x right_pt.x).lt (FloatValue.finite float_0_1) = true ∨
          (FloatValue.finite 300).lt (float_sub left_pt.x right_pt.x) = true) →
        is_valid_match fundamental_matrix left_pt right_pt = false := by
    intro fundamental_matrix left_pt right_pt h
    rw [← Bool.not_eq_true, is_valid_match_iff]
    rintro ⟨-, h1, -⟩
    exact (FloatValue.disparity_check_iff _ (float_sub_ne_nan _ _)).2 h1 h
  refine ⟨?_, ?_, hflag, by decide!, by decide!, by decide!, by decide!, by decide!, by decide!,
    by decide!, by decide!, by decide!⟩
  · intro h
    rw [loose_pair_outcome O fr p feature right_pt hpair, hflag _ _ _ h]
    rfl
  · rintro ⟨h1, h2⟩ d hd
    constructor
    · intro h
      exact loose_pair_recorded O fr p feature right_pt hpair d h1 hd h h2
    · intro h
      apply loose_pair_rejected O fr p feature right_pt hpair
      rintro ⟨-, ⟨d2, hd2, h3, h4⟩, -⟩
      rw [hd] at hd2
      cases hd2
      exact h ⟨h3, h4⟩

/-- C5, witness: the feature at (400, 50) tracked to (50, 50) has disparity 350 and keeps its
freshly constructed state. -/
theorem disparity_gate_closed_interval_witness :
    (compute_stereo_matches (stereo_oracles (fun _ => ⟨50, 50⟩) Option.none)
        (stereo_frame_one ⟨400, 50⟩)).m_features[0]? = some (Feature.new 0 ⟨400, 50⟩) :=
  (disparity_gate_closed_interval (stereo_oracles (fun _ => ⟨50, 50⟩) Option.none)
    (stereo_frame_one ⟨400, 50⟩) 0 (Feature.new 0 ⟨400, 50⟩) ⟨50, 50⟩
    ⟨by decide, by rfl, by rfl, by decide, by decide!, by rfl⟩).1 (Or.inr (by decide!))

/-- C7: for a loose candidate pair, the y-difference being `|leftY - rightY|` as the code
computes it (the difference rounded to `float`, then `std::abs`): a y-difference above 20.0
rejects the pair and leaves the feature unchanged, and the vertical gate rejects in no other
case; when the pair passes the epipolar and disparity checks, the match is recorded (right
coordinate, disparity, `has_stereo_match = true`) if the y-difference is at most 20 and not
otherwise. The flag `is_valid_match` is false for every pair with a y-difference above 20; a
y-difference of exactly 20.0 passes and 20.01f fails; the pairs at y = 20 and y = -1e-7f, and at
y = 30 and y = 10 - 2^-20, whose differences round to 20.0, pass. -/
theorem vertical_gate_strict (O : Oracles) (fr : Frame) (p : ℕ) (feature : Feature)
    (right_pt : Point2f) (hpair : loose_pair_at O fr p feature right_pt) :
    ((FloatValue.finite 20).lt (float_sub feature.m_pixel_coord.y right_pt.y).abs = true →
        (compute_stereo_matches O fr).m_features[p]? = some feature) ∧
      ((FloatValue.finite 20).lt (float_sub feature.m_pixel_coord.y right_pt.y).abs = true ↔
        ¬ ∃ dy, float_sub feature.m_pixel_coord.y right_pt.y = FloatValue.finite dy ∧
          |dy| ≤ 20) ∧
      ((∀ F, stereo_matrix O fr = some F →
          (FloatValue.finite 5).lt (epipolar_error F feature.m_pixel_coord right_pt) = false) →
        ∀ d, float_sub feature.m_pixel_coord.x right_pt.x = FloatValue.finite d →
          float_0_1 ≤ d ∧ d ≤ 300 →
          ((FloatValue.finite 20).lt (float_sub feature.m_pixel_coord.y right_pt.y).abs = false →
            (compute_stereo_matches O fr).m_features[p]? =
              some { feature with
                m_right_coord := right_pt, m_disparity := d, m_has_stereo_match := true }) ∧
          ((FloatValue.finite 20).lt (float_sub feature.m_pixel_coord.y right_pt.y).abs = true →
            (compute_stereo_matches O fr).m_features[p]? = some feature)) ∧
      (∀ (fundamental_matrix : Option Mat33) (left_pt right_pt : Point2f),
        (FloatValue.finite 20).lt (float_sub left_pt.y right_pt.y).abs = true →
          is_valid_match fundamental_matrix left_pt right_pt = false) ∧
      is_valid_match Option.none ⟨100, 70⟩ ⟨90, 50⟩ = true ∧
      is_valid_match Option.none ⟨100, 50⟩ ⟨90, 70⟩ = true ∧
      is_valid_match Option.none ⟨100, 10491003 / 524288⟩ ⟨90, 0⟩ = false ∧
      is_valid_match Option.none ⟨100, 0⟩ ⟨90, 10491003 / 524288⟩ = false ∧
      is_valid_match Option.none ⟨100, 20⟩ ⟨90, -(14073749 / 140737488355328)⟩ = true ∧
      is_valid_match Option.none ⟨100, 30⟩ ⟨90, 10 - 1 / 2 ^ 20⟩ = true := by
  have hiff : (FloatValue.finite 20).lt (float_sub feature.m_pixel_coord.y right_pt.y).abs = true ↔
      ¬ ∃ dy, float_sub feature.m_pixel_coord.y right_pt.y = FloatValue.finite dy ∧
        |dy| ≤ 20 := by
    rw [← FloatValue.y_diff_check_iff _ (float_sub_ne_nan _ _), not_not]
  have hflag : ∀ (fundamental_matrix : Option Mat33) (left_pt right_pt : Point2f),
      (FloatValue.finite 20).lt (float_sub left_pt.y right_pt.y).abs = true →
        is_valid_match fundamental_matrix left_pt right_pt = false := by
    intro fundamental_matrix left_pt right_pt h
    rw [← Bool.not_eq_true, is_valid_match_iff]
    rintro ⟨-, -, h1⟩
    exact (FloatValue.y_diff_check_iff _ (float_sub_ne_nan _ _)).2 h1 h
  refine ⟨?_, hiff, ?_, hflag, by decide!, by decide!, by decide!, by decide!, by decide!,
    by decide!⟩
  · intro h
    rw [loose_pair_outcome O fr p feature right_pt hpair, hflag _ _ _ h]
    rfl
  · intro h1 d hd hrange
    constructor
    · intro h
      apply loose_pair_recorded O fr p feature right_pt hpair d h1 hd hrange
      apply (FloatValue.y_diff_check_iff _ (float_sub_ne_nan _ _)).1
      rw [h]
      simp
    · intro h
      rw [loose_pair_outcome O fr p feature right_pt hpair, hflag _ _ _ h]
      rfl

/-- C7, witness: the feature at (100, 70) tracked to (90, 50) has y-difference exactly 20 and
disparity 10: its match is recorded. -/
theorem vertical_gate_strict_witness :
    (compute_stereo_matches (stereo_oracles (fun _ => ⟨90, 50⟩) Option.none)
        (stereo_frame_one ⟨100, 70⟩)).m_features[0]? =
      some { Feature.new 0 ⟨100, 70⟩ with
        m_right_coord := ⟨90, 50⟩, m_disparity := 10, m_has_stereo_match := true } := by
  have hnone : stereo_matrix (stereo_oracles (fun _ => ⟨90, 50⟩) Option.none)
      (stereo_frame_one ⟨100, 70⟩) = Option.none := by decide!
  exact ((vertical_gate_strict (stereo_oracles (fun _ => ⟨90, 50⟩) Option.none)
    (stereo_frame_one ⟨100, 70⟩) 0 (Feature.new 0 ⟨100, 70⟩) ⟨90, 50⟩
    ⟨by decide, by rfl, by rfl, by decide, by decide!, by rfl⟩).2.2.1
      (fun F hF => by rw [hnone] at hF; cases hF) 10 (by decide!) (by decide!)).1 (by decide!)

/-- C8: the epipolar check of `compute_stereo_matches`. A matrix `F` is available exactly when
the loose set has at least 8 entries and the estimator returns the non-empty matrix `F`. For a
loose candidate pair, the residual being `|r_h^T F l_h|` as the code computes it in `double`:
with a matrix and a residual above 5.0 the pair is rejected and the feature left unchanged; a
residual of at most 5.0 (5.0 included), or a NaN, does not reject, and the match is then
recorded (right coordinate, disparity, `has_stereo_match = true`) when the pair passes the
disparity check (`0.1f ≤ d ≤ 300`) and the y-difference check (`|dy| ≤ 20`); when no matrix is
available the match is recorded if the pair passes the disparity check and the y-difference
check, and not otherwise. A residual of exactly 5.0 passes, and so does the residual of
`5 + 2^-59`, which is 5.0 in `double`; a residual of `5 + 2^-10` rejects. -/
theorem epipolar_gate (O : Oracles) (fr : Frame) (p : ℕ) (feature : Feature)
    (right_pt : Point2f) (hpair : loose_pair_at O fr p feature right_pt) :
    (∀ F, stereo_matrix O fr = some F ↔
        8 ≤ (collect_loose (stereo_left_pts fr) (stereo_flow O fr) 0 fr.m_features).length ∧
          (O.findFundamentalMat
            ((collect_loose (stereo_left_pts fr) (stereo_flow O fr) 0 fr.m_features).map
              (fun pair => pair.1))
            ((collect_loose (stereo_left_pts fr) (stereo_flow O fr) 0 fr.m_features).map
              (fun pair => pair.2)) 3 (99 / 100)).1 = some F) ∧
      (∀ F, stereo_matrix O fr = some F →
        (FloatValue.finite 5).lt (epipolar_error F feature.m_pixel_coord right_pt) = true →
          (compute_stereo_matches O fr).m_features[p]? = some feature) ∧
      (∀ F, stereo_matrix O fr = some F →
        (FloatValue.finite 5).lt (epipolar_error F feature.m_pixel_coord right_pt) = false →
        ∀ d, float_sub feature.m_pixel_coord.x right_pt.x = FloatValue.finite d →
          float_0_1 ≤ d ∧ d ≤ 300 →
          (∃ dy, float_sub feature.m_pixel_coord.y right_pt.y = FloatValue.finite dy ∧
            |dy| ≤ 20) →
          (compute_stereo_matches O fr).m_features[p]? =
            some { feature with
              m_right_coord := right_pt, m_disparity := d, m_has_stereo_match := true }) ∧
      (stereo_matrix O fr = Option.none →
        (∀ d, float_sub feature.m_pixel_coord.x right_pt.x = FloatValue.finite d →
          float_0_1 ≤ d ∧ d ≤ 300 →
          (∃ dy, float_sub feature.m_pixel_coord.y right_pt.y = FloatValue.finite dy ∧
            |dy| ≤ 20) →
          (compute_stereo_matches O fr).m_features[p]? =
            some { feature with
              m_right_coord := right_pt, m_disparity := d, m_has_stereo_match := true }) ∧
        (¬ ((∃ d, float_sub feature.m_pixel_coord.x right_pt.x = FloatValue.finite d ∧
              float_0_1 ≤ d ∧ d ≤ 300) ∧
            ∃ dy, float_sub feature.m_pixel_coord.y right_pt.y = FloatValue.finite dy ∧
              |dy| ≤ 20) →
          (compute_stereo_matches O fr).m_features[p]? = some feature)) ∧
      epipolar_error ⟨0, 0, 0, 0, 0, 0, 0, 0, 5⟩ ⟨100, 50⟩ ⟨90, 50⟩ = FloatValue.finite 5 ∧
      is_valid_match (some ⟨0, 0, 0, 0, 0, 0, 0, 0, 5⟩) ⟨100, 50⟩ ⟨90, 50⟩ = true ∧
      epipolar_error ⟨1 / 2 ^ 60, 0, 0, 0, 0, 0, 0, 0, 5⟩ ⟨2, 50⟩ ⟨1, 50⟩ =
        FloatValue.finite 5 ∧
      is_valid_match (some ⟨1 / 2 ^ 60, 0, 0, 0, 0, 0, 0, 0, 5⟩) ⟨2, 50⟩ ⟨1, 50⟩ = true ∧
      is_valid_match (some ⟨0, 0, 0, 0, 0, 0, 0, 0, 5 + 1 / 2 ^ 10⟩) ⟨100, 50⟩ ⟨90, 50⟩ =
        false := by
  refine ⟨?_, ?_, ?_, ?_, by decide!, by decide!, by decide!, by decide!, by decide!⟩
  · intro F
    unfold stereo_matrix estimate_fundamental_matrix
    split_ifs with h
    · simp [h]
    · simp [h]
  · intro F hF h
    apply loose_pair_rejected O fr p feature right_pt hpair
    rintro ⟨h1, -, -⟩
    rw [h1 F hF] at h
    cases h
  · intro F hF h d hd hrange hy
    apply loose_pair_recorded O fr p feature right_pt hpair d ?_ hd hrange hy
    intro M hM
    rw [hF] at hM
    cases hM
    exact h
  · intro hnone
    constructor
    · intro d hd hrange hy
      apply loose_pair_recorded O fr p feature right_pt hpair d ?_ hd hrange hy
      intro M hM
      rw [hnone] at hM
      cases hM
    · intro hg
      apply loose_pair_rejected O fr p feature right_pt hpair
      rintro ⟨-, h2, h3⟩
      exact hg ⟨h2, h3⟩

/-- C8, witness: a stereo frame with 8 features, each tracked 10 pixels to the left, and an
estimated matrix whose residual is 6 for every pair: the first feature is left unchanged. -/
theorem epipolar_gate_witness :
    stereo_matrix (stereo_oracles (fun q => ⟨q.x - 10, q.y⟩) (some ⟨0, 0, 0, 0, 0, 0, 0, 0, 6⟩))
        stereo_frame_eight = some ⟨0, 0, 0, 0, 0, 0, 0, 0, 6⟩ ∧
      (compute_stereo_matches
        (stereo_oracles (fun q => ⟨q.x - 10, q.y⟩) (some ⟨0, 0, 0, 0, 0, 0, 0, 0, 6⟩))
        stereo_frame_eight).m_features[0]? = some (Feature.new 0 ⟨100, 50⟩) :=
  ⟨by decide!,
    (epipolar_gate (stereo_oracles (fun q => ⟨q.x - 10, q.y⟩) (some ⟨0, 0, 0, 0, 0, 0, 0, 0, 6⟩))
      stereo_frame_eight 0 (Feature.new 0 ⟨100, 50⟩) ⟨90, 50⟩
      ⟨by decide, by decide!, by rfl, by decide!, by decide!, by decide!⟩).2.1
        ⟨0, 0, 0, 0, 0, 0, 0, 0, 6⟩ (by decide!) (by decide!)⟩

theorem estimate_depth_from_stereo_getElem? (fr : Frame) (baseline focal_length : ℚ) (i : ℕ)
    (hstereo : fr.is_stereo = true) :
    (fr.estimate_depth_from_stereo baseline focal_length).m_features[i]? =
      (fr.m_features[i]?).map (estimate_depth baseline focal_length) := by
  unfold estimate_depth_from_stereo
  rw [if_neg (by simp [hstereo])]
  simp

/-- C6: on a stereo frame, for a valid feature with a recorded stereo match of disparity `d`,
the depth being `(baseline * focal_length) / d` as the code computes it (the `float` product,
then the `float` quotient): `estimate_depth_from_stereo` sets the depth to that value when
`d > 0.5` and the value lies strictly between `0.1f` and 100, and otherwise (an infinite value
included) leaves the depth as it was; no other field changes. A feature whose depth was never
set holds the sentinel -1. With baseline 0.1f, focal length 300 and `d = 20` the depth becomes
1.5; with `d = 0.4f` it stays -1, as it does for a value of exactly `0.1f` (baseline 0.1f, focal
length 1, `d = 1`) and for a quotient below 100 that rounds to 100.0 (product 9830403 / 32768,
`d = 3145729 / 1048576`); with `d = 7` the stored depth is the rounded quotient of 30 by 7. -/
theorem depth_from_stereo (fr : Frame) (baseline focal_length : ℚ) (i : ℕ) (feature : Feature)
    (hstereo : fr.is_stereo = true) (hi : fr.m_features[i]? = some feature)
    (hvalid : feature.m_is_valid = true) (hmatch : feature.m_has_stereo_match = true) :
    (∃ updated : Feature,
      (fr.estimate_depth_from_stereo baseline focal_length).m_features[i]? = some updated ∧
      updated = { feature with m_depth := updated.m_depth } ∧
      (∀ depth : ℚ,
        (feature.m_disparity > 1 / 2 ∧
          FloatValue.div round_float (float_mul baseline focal_length)
            (FloatValue.finite feature.m_disparity) = FloatValue.finite depth ∧
          float_0_1 < depth ∧ depth < 100) →
        updated.m_depth = depth) ∧
      (¬ (feature.m_disparity > 1 / 2 ∧
          ∃ depth : ℚ,
            FloatValue.div round_float (float_mul baseline focal_length)
              (FloatValue.finite feature.m_disparity) = FloatValue.finite depth ∧
            float_0_1 < depth ∧ depth < 100) →
        updated.m_depth = feature.m_depth)) ∧
      (∀ id pixel_coord right_coord disparity,
        ((Feature.new id pixel_coord).set_stereo_match right_coord disparity).m_depth = -1) ∧
      ((stereo_frame_matched 20).estimate_depth_from_stereo float_0_1 300).m_features.map
        Feature.get_depth = [3 / 2] ∧
      ((stereo_frame_matched (13421773 / 33554432)).estimate_depth_from_stereo float_0_1
        300).m_features.map Feature.get_depth = [-1] ∧
      ((stereo_frame_matched 1).estimate_depth_from_stereo float_0_1 1).m_features.map
        Feature.get_depth = [-1] ∧
      ((stereo_frame_matched (3145729 / 1048576)).estimate_depth_from_stereo
        (9830403 / 32768) 1).m_features.map Feature.get_depth = [-1] ∧
      ((stereo_frame_matched 7).estimate_depth_from_stereo float_0_1 300).m_features.map
        Feature.get_depth = [4493897 / 1048576] := by
  refine ⟨?_, fun _ _ _ _ => rfl, by decide!, by decide!, by decide!, by decide!, by decide!⟩
  refine ⟨estimate_depth baseline focal_length feature, ?_, ?_, ?_, ?_⟩
  · rw [estimate_depth_from_stereo_getElem? _ _ _ _ hstereo, hi]
    rfl
  · unfold estimate_depth
    dsimp only
    split_ifs
    · split <;> rfl
    · rfl
    · rfl
    · rfl
  · rintro depth ⟨h1, h2, h3, h4⟩
    unfold estimate_depth
    rw [if_pos ⟨hvalid, hmatch⟩]
    simp only [Feature.get_stereo_disparity]
    rw [if_pos h1, h2, if_pos]
    · rfl
    · simp [FloatValue.lt, h3, h4]
  · intro h
    unfold estimate_depth
    rw [if_pos ⟨hvalid, hmatch⟩]
    simp only [Feature.get_stereo_disparity]
    split_ifs with h1 h2
    · split
      · next d hd =>
        exfalso
        apply h
        refine ⟨h1, d, hd, ?_⟩
        rw [hd] at h2
        simpa [FloatValue.lt] using h2
      · rfl
    · rfl
    · rfl

/-- C6, witness: the frame holding one feature matched with disparity 20, baseline 0.1f and
focal length 300. -/
theorem depth_from_stereo_witness :
    ((stereo_frame_matched 20).estimate_depth_from_stereo float_0_1 300).m_features.map
        Feature.get_depth = [3 / 2] :=
  (depth_from_stereo (stereo_frame_matched 20) float_0_1 300 0
    ((Feature.new 0 ⟨100, 50⟩).set_stereo_match ⟨100 - 20, 50⟩ 20)
    (by decide) (by rfl) (by rfl) (by rfl)).2.2.1

end Frame

/-! ## Border test (claims C9 and C10) -/

namespace FeatureTracker

/-- C9: for a point with integer-valued coordinates `(a, b)`, margin `m` and image size `W × H`,
`is_in_border` holds if and only if `m ≤ a < W - m` and `m ≤ b < H - m`. On either axis a
coordinate of exactly `m` or `dimension - m - 1` is kept (the other coordinate being in range
and the range non-empty) and a coordinate of `m - 1` or `dimension - m` is dropped; shown also
at the default margin 1 on a 640×480 image. -/
theorem is_in_border_integer (m W H a b : ℤ) :
    (is_in_border ⟨(a : ℚ), (b : ℚ)⟩ ⟨W, H⟩ m = true ↔
        m ≤ a ∧ a < W - m ∧ m ≤ b ∧ b < H - m) ∧
      (is_in_border ⟨(m : ℚ), (b : ℚ)⟩ ⟨W, H⟩ m = true ↔ m < W - m ∧ m ≤ b ∧ b < H - m) ∧
      (is_in_border ⟨((W - m - 1 : ℤ) : ℚ), (b : ℚ)⟩ ⟨W, H⟩ m = true ↔
        m ≤ W - m - 1 ∧ m ≤ b ∧ b < H - m) ∧
      is_in_border ⟨((m - 1 : ℤ) : ℚ), (b : ℚ)⟩ ⟨W, H⟩ m = false ∧
      is_in_border ⟨((W - m : ℤ) : ℚ), (b : ℚ)⟩ ⟨W, H⟩ m = false ∧
      (is_in_border ⟨(a : ℚ), (m : ℚ)⟩ ⟨W, H⟩ m = true ↔ m ≤ a ∧ a < W - m ∧ m < H - m) ∧
      (is_in_border ⟨(a : ℚ), ((H - m - 1 : ℤ) : ℚ)⟩ ⟨W, H⟩ m = true ↔
        m ≤ a ∧ a < W - m ∧ m ≤ H - m - 1) ∧
      is_in_border ⟨(a : ℚ), ((m - 1 : ℤ) : ℚ)⟩ ⟨W, H⟩ m = false ∧
      is_in_border ⟨(a : ℚ), ((H - m : ℤ) : ℚ)⟩ ⟨W, H⟩ m = false ∧
      is_in_border ⟨1, 1⟩ ⟨640, 480⟩ 1 = true ∧
      is_in_border ⟨638, 478⟩ ⟨640, 480⟩ 1 = true ∧
      is_in_border ⟨0, 1⟩ ⟨640, 480⟩ 1 = false ∧
      is_in_border ⟨639, 1⟩ ⟨640, 480⟩ 1 = false ∧
      is_in_border ⟨1, 0⟩ ⟨640, 480⟩ 1 = false ∧
      is_in_border ⟨1, 479⟩ ⟨640, 480⟩ 1 = false := by
  refine ⟨?_, ?_, ?_, ?_, ?_, ?_, ?_, ?_, ?_, by decide!, by decide!, by decide!, by decide!,
    by decide!, by decide!⟩
  · rw [is_in_border_iff]
    simp only [cvRound_intCast]
  · rw [is_in_border_iff]
    simp only [cvRound_intCast]
    omega
  · rw [is_in_border_iff]
    simp only [cvRound_intCast]
    omega
  · rw [← Bool.not_eq_true, is_in_border_iff]
    simp only [cvRound_intCast]
    omega
  · rw [← Bool.not_eq_true, is_in_border_iff]
    simp only [cvRound_intCast]
    omega
  · rw [is_in_border_iff]
    simp only [cvRound_intCast]
    omega
  · rw [is_in_border_iff]
    simp only [cvRound_intCast]
    omega
  · rw [← Bool.not_eq_true, is_in_border_iff]
    simp only [cvRound_intCast]
    omega
  · rw [← Bool.not_eq_true, is_in_border_iff]
    simp only [cvRound_intCast]
    omega

/-- C10, counterexample: on a 10×10 image a successfully tracked point at x = 0.75 fails the
test `1 ≤ x` on its own coordinate yet is carried forward, and a point at x = 8.75 satisfies
`1 ≤ x < 10 - 1` yet is dropped. -/
theorem border_test_not_on_raw_coordinates :
    (¬ (1 ≤ (3 / 4 : ℚ)) ∧
      (optical_flow_tracking (scenario_oracles [] (fun _ => [⟨3 / 4, 5⟩]) [1] [])
          FeatureTracker.new (fresh_frame 1 image_10x10) small_previous_frame).m_features.map
        Feature.summary = [(0, ⟨3 / 4, 5⟩, 2)]) ∧
      ((1 ≤ (35 / 4 : ℚ) ∧ (35 / 4 : ℚ) < 10 - 1 ∧ 1 ≤ (5 : ℚ) ∧ (5 : ℚ) < 10 - 1) ∧
        (optical_flow_tracking (scenario_oracles [] (fun _ => [⟨35 / 4, 5⟩]) [1] [])
          FeatureTracker.new (fresh_frame 1 image_10x10) small_previous_frame).m_features =
            []) := by
  refine ⟨⟨by norm_num, by decide!⟩, ⟨by norm_num, by decide!⟩⟩

/-- C10, amended: `optical_flow_tracking` on a current frame of size `W × H`, `res` being the
output of the motion oracle for the points submitted from the previous frame. The features of
the current frame are kept and followed, in the order of the submitted points, by one feature
for each index `i` with success status whose returned point `p` passes the test
`1 ≤ c < dimension - 1` on both axes for the coordinates `c = cvRound(p)` rounded to the nearest
integer (the feature with the id and the track count plus 1 of the previous frame's `i`-th
feature, which exists for every submitted point, and the coordinate `p`); every other point is
dropped. A rounded coordinate differs from the coordinate by at most 0.5, so every coordinate
with `0.5 < x < dimension - 1.5` passes the test on its axis and every coordinate below 0.5 or
above `dimension - 1.5` fails it. -/
theorem border_test_on_rounded_coordinates (O : Oracles) (tr : FeatureTracker)
    (current_frame previous_frame : Frame) (res : LKResult)
    (hres : O.calcOpticalFlowPyrLK previous_frame.m_left_image current_frame.m_left_image
      (extract_points_from_features previous_frame.m_features)
      ⟨tr.m_win_size, tr.m_max_level, tr.m_criteria, 0, 1 / 10000⟩ = res) :
    (optical_flow_tracking O tr current_frame previous_frame).m_features =
        current_frame.m_features ++
          (List.range (extract_points_from_features previous_frame.m_features).length).filterMap
            (fun i =>
              if res.status.getD i 0 ≠ 0 ∧
                  (1 ≤ cvRound (res.next_pts.getD i ⟨0, 0⟩).x ∧
                    cvRound (res.next_pts.getD i ⟨0, 0⟩).x <
                      (current_frame.m_left_image.cols : ℤ) - 1 ∧
                    1 ≤ cvRound (res.next_pts.getD i ⟨0, 0⟩).y ∧
                    cvRound (res.next_pts.getD i ⟨0, 0⟩).y <
                      (current_frame.m_left_image.rows : ℤ) - 1) then
                (previous_frame.m_features[i]?).map
                  (fun prev_feature =>
                    { Feature.new prev_feature.m_feature_id (res.next_pts.getD i ⟨0, 0⟩) with
                      m_track_count := prev_feature.m_track_count + 1 })
              else Option.none) ∧
      (∀ i : ℕ, i < (extract_points_from_features previous_frame.m_features).length →
        ∃ prev_feature, previous_frame.m_features[i]? = some prev_feature) ∧
      (∀ (i : ℕ) (prev_feature : Feature),
        i < (extract_points_from_features previous_frame.m_features).length →
        previous_frame.m_features[i]? = some prev_feature → res.status.getD i 0 ≠ 0 →
        (1 ≤ cvRound (res.next_pts.getD i ⟨0, 0⟩).x ∧
          cvRound (res.next_pts.getD i ⟨0, 0⟩).x < (current_frame.m_left_image.cols : ℤ) - 1 ∧
          1 ≤ cvRound (res.next_pts.getD i ⟨0, 0⟩).y ∧
          cvRound (res.next_pts.getD i ⟨0, 0⟩).y < (current_frame.m_left_image.rows : ℤ) - 1) →
        { Feature.new prev_feature.m_feature_id (res.next_pts.getD i ⟨0, 0⟩) with
            m_track_count := prev_feature.m_track_count + 1 } ∈
          (optical_flow_tracking O tr current_frame previous_frame).m_features) ∧
      (∀ v : ℚ, |(cvRound v : ℚ) - v| ≤ 1 / 2) ∧
      (∀ (dimension : ℤ) (v : ℚ), 1 / 2 < v → v < (dimension : ℚ) - 3 / 2 →
        1 ≤ cvRound v ∧ cvRound v < dimension - 1) ∧
      (∀ (dimension : ℤ) (v : ℚ), v < 1 / 2 ∨ (dimension : ℚ) - 3 / 2 < v →
        ¬ (1 ≤ cvRound v ∧ cvRound v < dimension - 1)) := by
  have hfeatures : (optical_flow_tracking O tr current_frame previous_frame).m_features =
      current_frame.m_features ++
        (List.range (extract_points_from_features previous_frame.m_features).length).filterMap
          (fun i =>
            if res.status.getD i 0 ≠ 0 ∧
                (1 ≤ cvRound (res.next_pts.getD i ⟨0, 0⟩).x ∧
                  cvRound (res.next_pts.getD i ⟨0, 0⟩).x <
                    (current_frame.m_left_image.cols : ℤ) - 1 ∧
                  1 ≤ cvRound (res.next_pts.getD i ⟨0, 0⟩).y ∧
                  cvRound (res.next_pts.getD i ⟨0, 0⟩).y <
                    (current_frame.m_left_image.rows : ℤ) - 1) then
              (previous_frame.m_features[i]?).map
                (fun prev_feature =>
                  { Feature.new prev_feature.m_feature_id (res.next_pts.getD i ⟨0, 0⟩) with
                    m_track_count := prev_feature.m_track_count + 1 })
            else Option.none) := by
    unfold optical_flow_tracking
    split_ifs with h0
    · have hnil : previous_frame.m_features = [] := by
        simpa [Frame.get_feature_count] using h0
      simp [hnil, extract_points_from_features]
    · simp only [Frame.get_features, Frame.get_image, hres]
      rw [optical_flow_fold_features]
      congr 1
      apply List.filterMap_congr
      intro i _
      unfold tracked_feature
      simp only [is_in_border_iff, Mat.size, Frame.get_features, List.get?_eq_getElem?]
      split_ifs <;> rfl
  refine ⟨hfeatures, ?_, ?_, cvRound_nearest, ?_, ?_⟩
  · intro i hi
    have hle : (extract_points_from_features previous_frame.m_features).length ≤
        previous_frame.m_features.length := by
      unfold extract_points_from_features
      rw [List.length_map]
      exact List.length_filter_le _ _
    have hlt : i < previous_frame.m_features.length := by omega
    exact ⟨previous_frame.m_features[i], List.getElem?_eq_getElem hlt⟩
  · intro i prev_feature hi hp hstatus hborder
    rw [hfeatures, List.mem_append, List.mem_filterMap]
    refine Or.inr ⟨i, List.mem_range.2 hi, ?_⟩
    rw [if_pos ⟨hstatus, hborder⟩, hp]
    rfl
  · intro dimension v h1 h2
    have hv := cvRound_nearest v
    rw [abs_le] at hv
    have a1 : (0 : ℚ) < (cvRound v : ℚ) := by linarith
    have a2 : (cvRound v : ℚ) < (dimension : ℚ) - 1 := by linarith
    have b1 : 0 < cvRound v := by exact_mod_cast a1
    have b2 : cvRound v < dimension - 1 := by exact_mod_cast a2
    exact ⟨by omega, b2⟩
  · rintro dimension v h ⟨c1, c2⟩
    have hv := cvRound_nearest v
    rw [abs_le] at hv
    have d1 : (1 : ℚ) ≤ (cvRound v : ℚ) := by exact_mod_cast c1
    have d2 : (cvRound v : ℚ) + 1 ≤ (dimension : ℚ) - 1 := by
      have : cvRound v + 1 ≤ dimension - 1 := by omega
      exact_mod_cast this
    rcases h with h | h <;> linarith

/-- C10, witness: on a 10×10 image the point (0.75, 5), returned for the feature with id 0,
rounds to (1, 5) and is carried. -/
theorem border_test_on_rounded_coordinates_witness :
    (optical_flow_tracking (scenario_oracles [] (fun _ => [⟨3 / 4, 5⟩]) [1] [])
        FeatureTracker.new (fresh_frame 1 image_10x10) small_previous_frame).m_features.map
      Feature.summary = [(0, ⟨3 / 4, 5⟩, 2)] ∧
    { Feature.new 0 ⟨3 / 4, 5⟩ with m_track_count := 1 + 1 } ∈
      (optical_flow_tracking (scenario_oracles [] (fun _ => [⟨3 / 4, 5⟩]) [1] [])
        FeatureTracker.new (fresh_frame 1 image_10x10) small_previous_frame).m_features :=
  ⟨by decide!,
    (border_test_on_rounded_coordinates (scenario_oracles [] (fun _ => [⟨3 / 4, 5⟩]) [1] [])
      FeatureTracker.new (fresh_frame 1 image_10x10) small_previous_frame
      ⟨[⟨3 / 4, 5⟩], [1], [0]⟩ (by rfl)).2.2.1 0 (Feature.new 0 ⟨5, 5⟩) (by decide) (by rfl)
        (by decide) (by decide!)⟩

end FeatureTracker

/-! ## Two-view outlier filter (claim C11) -/

namespace FeatureTracker

theorem collect_correspondences_length_le (current_frame previous_frame : Frame) :
    (collect_correspondences current_frame previous_frame).length ≤
      current_frame.get_feature_count := by
  unfold collect_correspondences Frame.get_feature_count Frame.get_features
  exact List.length_filterMap_le _ _

/-- C11: `reject_outliers_with_fundamental_matrix` leaves the current frame exactly as it was,
whatever the two-view estimator would return (it is not invoked), when the current frame holds
fewer than 8 features or fewer than 8 correspondences are collected; with 8 or more
correspondences the result is the removal loop run on the mask the estimator returns. With 7
correspondences and an all-outlier mask no feature is removed; with 8 the mask is applied. -/
theorem two_view_filter_needs_eight (O : Oracles) (tr : FeatureTracker)
    (current_frame previous_frame : Frame) :
    (current_frame.get_feature_count < 8 →
        reject_outliers_with_fundamental_matrix O tr current_frame previous_frame =
          current_frame) ∧
      ((collect_correspondences current_frame previous_frame).length < 8 →
        reject_outliers_with_fundamental_matrix O tr current_frame previous_frame =
          current_frame) ∧
      (8 ≤ (collect_correspondences current_frame previous_frame).length →
        reject_outliers_with_fundamental_matrix O tr current_frame previous_frame =
          remove_outliers
            (O.findFundamentalMat
              ((collect_correspondences current_frame previous_frame).map (fun c => c.1))
              ((collect_correspondences current_frame previous_frame).map (fun c => c.2.1))
              tr.m_f_threshold (99 / 100)).2
            ((collect_correspondences current_frame previous_frame).map (fun c => c.2.2))
            current_frame) ∧
      ((collect_correspondences (frame_with_features image_640x480 7)
          (frame_with_features image_640x480 7)).length = 7 ∧
        (reject_outliers_with_fundamental_matrix
          (scenario_oracles [] (fun pts => pts) [] (List.replicate 7 0)) FeatureTracker.new
          (frame_with_features image_640x480 7) (frame_with_features image_640x480 7)).ids =
            [0, 1, 2, 3, 4, 5, 6]) ∧
      ((collect_correspondences (frame_with_features image_640x480 8)
          (frame_with_features image_640x480 8)).length = 8 ∧
        (reject_outliers_with_fundamental_matrix
          (scenario_oracles [] (fun pts => pts) [] (List.replicate 8 0)) FeatureTracker.new
          (frame_with_features image_640x480 8) (frame_with_features image_640x480 8)).ids =
            [] ∧
        (reject_outliers_with_fundamental_matrix
          (scenario_oracles [] (fun pts => pts) [] [1, 0, 1, 1, 0, 1, 1, 1]) FeatureTracker.new
          (frame_with_features image_640x480 8) (frame_with_features image_640x480 8)).ids =
            [0, 2, 3, 5, 6, 7]) := by
  have hle := collect_correspondences_length_le current_frame previous_frame
  refine ⟨?_, ?_, ?_, ⟨by decide!, by decide!⟩, ⟨by decide!, by decide!, by decide!⟩⟩
  · intro h
    unfold reject_outliers_with_fundamental_matrix
    rw [if_pos h]
  · intro h
    unfold reject_outliers_with_fundamental_matrix
    split_ifs with h1
    · rfl
    · dsimp only
      rw [if_pos (by simpa using h)]
  · intro h
    unfold reject_outliers_with_fundamental_matrix
    rw [if_neg (by omega)]
    dsimp only
    rw [if_neg (by simpa using h)]

end FeatureTracker

/-! ## Minting of new features (claims C12 and C13) -/

namespace FeatureTracker

theorem minted_getElem? (n : ℤ) (corners : List Point2f) (i : ℕ) (corner : Point2f)
    (h : corners[i]? = some corner) :
    (minted n corners)[i]? = some (Feature.new (int_increment^[i] n) corner) := by
  induction corners generalizing n i with
  | nil => simp at h
  | cons c rest ih =>
    cases i with
    | zero =>
      simp only [List.getElem?_cons_zero, Option.some.injEq] at h
      subst h
      simp [minted]
    | succ i =>
      rw [List.getElem?_cons_succ] at h
      rw [minted, List.getElem?_cons_succ, ih (int_increment n) i h, Function.iterate_succ_apply]

theorem track_features_without_previous (O : Oracles) (tr : FeatureTracker) (current : Frame) :
    track_features O tr (some current) Option.none =
      if below_max_features current.get_feature_count tr.m_max_features = true then
        ((extract_new_features O tr current).1, some (extract_new_features O tr current).2)
      else (tr, some current) := by
  simp [track_features, set_mask]

/-- C12, counterexample: with the counter at `INT_MAX = 2147483647` and the detector returning
the corners (10, 10) and (20, 20), `extract_new_features` appends the ids 2147483647 and
-2147483648 and leaves the counter at -2147483647, not the ids `n`, `n + 1` and the counter
`n + 2`. -/
theorem counter_wraps_at_int_max :
    (extract_new_features (scenario_oracles [⟨10, 10⟩, ⟨20, 20⟩] (fun pts => pts) [] [])
        { FeatureTracker.new with m_global_feature_id := 2147483647 }
        (fresh_frame 0 image_640x480)).2.ids = [2147483647, -2147483648] ∧
      (extract_new_features (scenario_oracles [⟨10, 10⟩, ⟨20, 20⟩] (fun pts => pts) [] [])
        { FeatureTracker.new with m_global_feature_id := 2147483647 }
        (fresh_frame 0 image_640x480)).1.m_global_feature_id = -2147483647 ∧
      (2147483647 : ℤ) + 1 ≠ -2147483648 ∧ (2147483647 : ℤ) + 2 ≠ -2147483647 := by
  refine ⟨by decide!, by decide!, by decide, by decide⟩

/-- C12, amended: `extract_new_features` on a frame with a non-empty image, the counter at `n`
and the detector returning `corners`: the stored features are kept, exactly `corners.length`
features are appended in the detector's order, the `i`-th with the `i`-th corner as pixel
coordinate, track count 1 and the id reached from `n` by `i` increments of the `int` counter;
the counter ends at the value reached by `corners.length` increments. As long as the counter
does not pass `INT_MAX` (`n + corners.length ≤ 2^31 - 1`) the ids are `n`, `n + 1`, ... and the
counter becomes `n + corners.length`. In particular `track_features` without previous frame,
with `max_features = 2`, the counter at `n ≤ INT_MAX - 2` and the corners (10, 10), (20, 20),
yields the two features with ids `n`, `n + 1` and track count 1, whatever the optical-flow and
two-view oracles are (they are not consulted). -/
theorem new_features_minted_in_order (O : Oracles) (tr : FeatureTracker) (frame : Frame)
    (corners : List Point2f) (himage : frame.get_image.empty = false)
    (hcorners : O.goodFeaturesToTrack frame.get_image
      (max_corners_arg tr.m_max_features frame.get_feature_count)
      tr.m_quality_level tr.m_min_distance
      ⟨frame.get_image.size,
        (frame.get_features.filter Feature.is_valid).map
          (fun feature => (feature.get_pixel_coord, tr.m_min_distance))⟩ = corners) :
    (extract_new_features O tr frame).2.m_features.length =
        frame.m_features.length + corners.length ∧
      (extract_new_features O tr frame).2.m_features.take frame.m_features.length =
        frame.m_features ∧
      (∀ (i : ℕ) (corner : Point2f), corners[i]? = some corner →
        ∃ feature : Feature,
          (extract_new_features O tr frame).2.m_features[frame.m_features.length + i]? =
            some feature ∧
          feature = Feature.new (int_increment^[i] tr.m_global_feature_id) corner ∧
          feature.m_feature_id = int_increment^[i] tr.m_global_feature_id ∧
          feature.m_pixel_coord = corner ∧ feature.m_track_count = 1) ∧
      (extract_new_features O tr frame).1.m_global_feature_id =
        int_increment^[corners.length] tr.m_global_feature_id ∧
      (tr.m_global_feature_id + (corners.length : ℤ) ≤ 2 ^ 31 - 1 →
        (∀ (i : ℕ) (corner : Point2f), corners[i]? = some corner →
          (extract_new_features O tr frame).2.m_features[frame.m_features.length + i]? =
            some (Feature.new (tr.m_global_feature_id + (i : ℤ)) corner)) ∧
        (extract_new_features O tr frame).1.m_global_feature_id =
          tr.m_global_feature_id + (corners.length : ℤ)) ∧
      (∀ (n : ℤ) (Oflow : Oracles), n + 2 ≤ 2 ^ 31 - 1 →
        Oflow.goodFeaturesToTrack = (fun _ _ _ _ _ => [⟨10, 10⟩, ⟨20, 20⟩]) →
        (track_features Oflow
            ({ FeatureTracker.new with m_global_feature_id := n }.set_max_features 2)
            (some (fresh_frame 0 image_640x480)) Option.none).2.map
          (fun fr => fr.m_features.map Feature.summary) =
            some [(n, ⟨10, 10⟩, 1), (n + 1, ⟨20, 20⟩, 1)] ∧
        (track_features Oflow
            ({ FeatureTracker.new with m_global_feature_id := n }.set_max_features 2)
            (some (fresh_frame 0 image_640x480)) Option.none).1.m_global_feature_id = n + 2) := by
  have hext : (extract_new_features O tr frame).1 =
        { tr with
          m_global_feature_id := int_increment^[corners.length] tr.m_global_feature_id } ∧
      (extract_new_features O tr frame).2.m_features =
        frame.m_features ++ minted tr.m_global_feature_id corners := by
    unfold extract_new_features
    rw [if_neg (by simp [himage])]
    simp only [hcorners]
    exact mint_features_eq corners tr frame
  have hget : ∀ (i : ℕ) (corner : Point2f), corners[i]? = some corner →
      (extract_new_features O tr frame).2.m_features[frame.m_features.length + i]? =
        some (Feature.new (int_increment^[i] tr.m_global_feature_id) corner) := by
    intro i corner hi
    rw [hext.2, List.getElem?_append_right (by omega), Nat.add_sub_cancel_left]
    exact minted_getElem? _ _ _ _ hi
  refine ⟨?_, ?_, ?_, ?_, ?_, ?_⟩
  · rw [hext.2, List.length_append, minted_length]
  · rw [hext.2, List.take_left']
    rfl
  · intro i corner hi
    exact ⟨_, hget i corner hi, rfl, rfl, rfl, rfl⟩
  · rw [hext.1]
  · intro hc
    constructor
    · intro i corner hi
      have hlt : i < corners.length := (List.getElem?_eq_some.1 hi).1
      rw [hget i corner hi, int_increment_iterate i _ (by
        have : (i : ℤ) < (corners.length : ℤ) := by exact_mod_cast hlt
        linarith)]
    · rw [hext.1]
      exact int_increment_iterate _ _ hc
  · intro n Oflow hn hO
    rw [track_features_without_previous]
    have hb : below_max_features (fresh_frame 0 image_640x480).get_feature_count
        ({ FeatureTracker.new with m_global_feature_id := n }.set_max_features 2).m_max_features
          = true := by
      show below_max_features 0 2 = true
      decide
    rw [if_pos hb]
    have hm := mint_features_eq [⟨10, 10⟩, ⟨20, 20⟩]
      ({ FeatureTracker.new with m_global_feature_id := n }.set_max_features 2)
      (fresh_frame 0 image_640x480)
    have he : extract_new_features Oflow
        ({ FeatureTracker.new with m_global_feature_id := n }.set_max_features 2)
        (fresh_frame 0 image_640x480) =
        mint_features [⟨10, 10⟩, ⟨20, 20⟩]
          ({ FeatureTracker.new with m_global_feature_id := n }.set_max_features 2)
          (fresh_frame 0 image_640x480) := by
      unfold extract_new_features
      rw [if_neg (by decide), hO]
    have h1 : int_increment n = n + 1 := int_increment_of_lt n (by linarith)
    have h2 : int_increment (n + 1) = n + 1 + 1 := int_increment_of_lt (n + 1) (by linarith)
    rw [he]
    constructor
    · simp only [Option.map_some', hm.2]
      simp [fresh_frame, Frame.set_left_image, Frame.new, minted, Feature.summary, Feature.new,
        set_max_features, h1]
    · rw [hm.1]
      simp [set_max_features, h1, h2]
      ring

/-- C12, amended, witness: the detector returns the corners (10, 10) and (20, 20) on a fresh
640×480 frame, the counter at 0. -/
theorem new_features_minted_in_order_witness :
    (extract_new_features (scenario_oracles [⟨10, 10⟩, ⟨20, 20⟩] (fun pts => pts) [] [])
        (FeatureTracker.new.set_max_features 2) (fresh_frame 0 image_640x480)).2.m_features.map
      Feature.summary = [(0, ⟨10, 10⟩, 1), (1, ⟨20, 20⟩, 1)] ∧
    (extract_new_features (scenario_oracles [⟨10, 10⟩, ⟨20, 20⟩] (fun pts => pts) [] [])
        (FeatureTracker.new.set_max_features 2)
        (fresh_frame 0 image_640x480)).1.m_global_feature_id = 0 + (2 : ℕ) :=
  ⟨by decide!,
    ((new_features_minted_in_order
      (scenario_oracles [⟨10, 10⟩, ⟨20, 20⟩] (fun pts => pts) [] [])
      (FeatureTracker.new.set_max_features 2) (fresh_frame 0 image_640x480)
      [⟨10, 10⟩, ⟨20, 20⟩] (by decide) (by rfl)).2.2.2.2.1 (by decide)).2⟩

end FeatureTracker

namespace FeatureTracker

/-- C13, the code at the failing input: two `FeatureTracker` instances, each freshly
constructed, and `Frame::extract_features` (its static counter at its initial value) each mint
two features in the same run. All three operations hand out the ids 0 and 1: the tracker's
counter is a per-instance member initialised to 0 and `Frame::extract_features` counts on a
static of its own. -/
theorem id_counters_are_separate :
    (extract_new_features (scenario_oracles [⟨10, 10⟩, ⟨20, 20⟩] (fun pts => pts) [] [])
        FeatureTracker.new (fresh_frame 0 image_640x480)).2.ids = [0, 1] ∧
      (extract_new_features (scenario_oracles [⟨30, 30⟩, ⟨40, 40⟩] (fun pts => pts) [] [])
        FeatureTracker.new (fresh_frame 1 image_640x480)).2.ids = [0, 1] ∧
      (Frame.extract_features (scenario_oracles [⟨50, 50⟩, ⟨60, 60⟩] (fun pts => pts) [] [])
        0 (fresh_frame 2 image_640x480) 150).2.ids = [0, 1] := by
  refine ⟨by decide!, by decide!, by decide!⟩

end FeatureTracker

/-! ## Stereo stage: skipping and frame effect (claims C14 and C15) -/

namespace Frame

/-- C14: on a frame whose right image is absent, `compute_stereo_matches` and
`estimate_depth_from_stereo` return the frame unchanged (the feature collection and every field
of every feature included), whatever the oracles are; so does `compute_stereo_matches` on a
stereo frame without valid feature. Shown also on a mono frame with three features and on a
stereo frame whose only feature is flagged invalid. -/
theorem stereo_stage_skipped (O : Oracles) (fr : Frame) (baseline focal_length : ℚ) :
    (fr.is_stereo = false →
        compute_stereo_matches O fr = fr ∧
          fr.estimate_depth_from_stereo baseline focal_length = fr) ∧
      (fr.is_stereo = true → (∀ feature ∈ fr.m_features, feature.m_is_valid = false) →
        compute_stereo_matches O fr = fr) ∧
      (compute_stereo_matches (stereo_oracles (fun q => ⟨q.x - 10, q.y⟩) Option.none)
          (frame_with_features image_640x480 3)).m_features =
        (frame_with_features image_640x480 3).m_features ∧
      ((frame_with_features image_640x480 3).estimate_depth_from_stereo (1 / 10)
          300).m_features = (frame_with_features image_640x480 3).m_features ∧
      (compute_stereo_matches (stereo_oracles (fun q => ⟨q.x - 10, q.y⟩) Option.none)
          (((Frame.new 0 0).set_stereo_images image_640x480 image_640x480).add_feature
            ((Feature.new 0 ⟨100, 50⟩).set_valid false))).m_features =
        [(Feature.new 0 ⟨100, 50⟩).set_valid false] := by
  refine ⟨?_, ?_, by decide!, by decide!, by decide!⟩
  · intro h
    constructor
    · unfold compute_stereo_matches
      rw [if_pos h]
    · unfold estimate_depth_from_stereo
      rw [if_pos h]
  · intro h hall
    unfold compute_stereo_matches
    rw [if_neg (by simp [h]), if_pos]
    unfold stereo_left_pts
    rw [List.map_eq_nil_iff, List.filter_eq_nil_iff]
    intro feature hf
    simp [Feature.is_valid, hall feature hf]

end Frame

namespace Frame

theorem apply_matches_length (fundamental_matrix : Option Mat33) (left_pts : List Point2f)
    (res : LKResult) (idx : ℕ) (features : List Feature) :
    (apply_matches fundamental_matrix left_pts res idx features).length = features.length := by
  induction features generalizing idx with
  | nil => simp [apply_matches]
  | cons f rest ih => rw [apply_matches_cons, List.length_cons, List.length_cons, ih]

theorem compute_stereo_matches_length (O : Oracles) (fr : Frame) :
    (compute_stereo_matches O fr).m_features.length = fr.m_features.length := by
  unfold compute_stereo_matches
  split_ifs
  · rfl
  · rfl
  · exact apply_matches_length _ _ _ _ _

theorem compute_stereo_matches_invalid (O : Oracles) (fr : Frame) (p : ℕ) (feature : Feature)
    (hp : fr.m_features[p]? = some feature) (hinvalid : feature.m_is_valid = false) :
    (compute_stereo_matches O fr).m_features[p]? = some feature := by
  unfold compute_stereo_matches
  split_ifs
  · exact hp
  · exact hp
  · simp only []
    rw [apply_matches_getElem? _ _ _ _ _ _ _ hp, matched_feature_invalid _ _ _ _ _ hinvalid]

/-- C15: on a stereo frame `compute_stereo_matches` neither adds nor removes a feature. The
feature stored at position `p`, when valid, is paired with the oracle result of index
`k = valid_before fr.m_features p` (it is the `k`-th valid feature and its pixel coordinate is
the `k`-th submitted point). When that result has success status and error below 50 and the
pair keeps the flag `is_valid_match` (passes every gate), the disparity `leftX - rightX` the
code computes (the difference rounded to `float`) is a finite value `d` between `0.1f` and 300
and the feature gets `right_coord` = the tracked right point, `disparity = d` and
`has_stereo_match = true`, all other fields kept; every other feature (invalid, without
result, failed, or rejected by a gate) is left exactly as it was. In all cases id, pixel
coordinate, normalized coordinate, velocity, track count, depth and validity are unchanged.
At x = 300 tracked to x = 0.3f the recorded disparity is 299.70001220703125, the `float`
nearest to the difference. -/
theorem stereo_matches_recorded_per_feature (O : Oracles) (fr : Frame) (p : ℕ)
    (feature : Feature) (hstereo : fr.is_stereo = true)
    (hp : fr.m_features[p]? = some feature) :
    (compute_stereo_matches O fr).m_features.length = fr.m_features.length ∧
      (feature.m_is_valid = true →
        (stereo_left_pts fr)[valid_before fr.m_features p]? = some feature.m_pixel_coord) ∧
      ((feature.m_is_valid = true ∧
          valid_before fr.m_features p < (stereo_flow O fr).status.length ∧
          (stereo_flow O fr).status.getD (valid_before fr.m_features p) 0 ≠ 0 ∧
          (stereo_flow O fr).err.getD (valid_before fr.m_features p) 0 < 50 ∧
          is_valid_match (stereo_matrix O fr) feature.m_pixel_coord
            ((stereo_flow O fr).next_pts.getD (valid_before fr.m_features p) ⟨0, 0⟩) = true) →
        ∃ d : ℚ,
          float_sub feature.m_pixel_coord.x
            ((stereo_flow O fr).next_pts.getD (valid_before fr.m_features p) ⟨0, 0⟩).x =
              FloatValue.finite d ∧
          float_0_1 ≤ d ∧ d ≤ 300 ∧
          (compute_stereo_matches O fr).m_features[p]? =
            some { feature with
              m_right_coord :=
                (stereo_flow O fr).next_pts.getD (valid_before fr.m_features p) ⟨0, 0⟩
              m_disparity := d
              m_has_stereo_match := true }) ∧
      (¬ (feature.m_is_valid = true ∧
          valid_before fr.m_features p < (stereo_flow O fr).status.length ∧
          (stereo_flow O fr).status.getD (valid_before fr.m_features p) 0 ≠ 0 ∧
          (stereo_flow O fr).err.getD (valid_before fr.m_features p) 0 < 50 ∧
          is_valid_match (stereo_matrix O fr) feature.m_pixel_coord
            ((stereo_flow O fr).next_pts.getD (valid_before fr.m_features p) ⟨0, 0⟩) = true) →
        (compute_stereo_matches O fr).m_features[p]? = some feature) ∧
      (∃ updated : Feature, (compute_stereo_matches O fr).m_features[p]? = some updated ∧
        updated.m_feature_id = feature.m_feature_id ∧
        updated.m_pixel_coord = feature.m_pixel_coord ∧
        updated.m_normalized_coord = feature.m_normalized_coord ∧
        updated.m_velocity = feature.m_velocity ∧
        updated.m_track_count = feature.m_track_count ∧
        updated.m_depth = feature.m_depth ∧
        updated.m_is_valid = feature.m_is_valid) ∧
      (compute_stereo_matches (stereo_oracles (fun _ => ⟨5033165 / 16777216, 50⟩) Option.none)
          (stereo_frame_one ⟨300, 50⟩)).m_features.map
        (fun f => (f.m_has_stereo_match, f.m_right_coord, f.m_disparity)) =
          [(true, ⟨5033165 / 16777216, 50⟩, 4910285 / 16384)] := by
  have hloose : ∀ k, is_loose (stereo_flow O fr) k = true ↔
      ((stereo_flow O fr).status.getD k 0 ≠ 0 ∧ (stereo_flow O fr).err.getD k 0 < 50) := by
    intro k
    simp [is_loose]
  have hcases : feature.m_is_valid = true ∨ feature.m_is_valid = false := by
    cases feature.m_is_valid <;> simp
  have hyes : (feature.m_is_valid = true ∧
          valid_before fr.m_features p < (stereo_flow O fr).status.length ∧
          (stereo_flow O fr).status.getD (valid_before fr.m_features p) 0 ≠ 0 ∧
          (stereo_flow O fr).err.getD (valid_before fr.m_features p) 0 < 50 ∧
          is_valid_match (stereo_matrix O fr) feature.m_pixel_coord
            ((stereo_flow O fr).next_pts.getD (valid_before fr.m_features p) ⟨0, 0⟩) = true) →
        ∃ d : ℚ,
          float_sub feature.m_pixel_coord.x
            ((stereo_flow O fr).next_pts.getD (valid_before fr.m_features p) ⟨0, 0⟩).x =
              FloatValue.finite d ∧
          float_0_1 ≤ d ∧ d ≤ 300 ∧
          (compute_stereo_matches O fr).m_features[p]? =
            some { feature with
              m_right_coord :=
                (stereo_flow O fr).next_pts.getD (valid_before fr.m_features p) ⟨0, 0⟩
              m_disparity := d
              m_has_stereo_match := true } := by
    rintro ⟨hv, hlt, hs, he, hm⟩
    obtain ⟨-, ⟨d, hd, h1, h2⟩, -⟩ := (is_valid_match_iff _ _ _).1 hm
    refine ⟨d, hd, h1, h2, ?_⟩
    rw [compute_stereo_matches_getElem? O fr p feature hstereo hp hv,
      if_pos ⟨hlt, (hloose _).2 ⟨hs, he⟩, hm⟩, hd]
    rfl
  have hno : ¬ (feature.m_is_valid = true ∧
          valid_before fr.m_features p < (stereo_flow O fr).status.length ∧
          (stereo_flow O fr).status.getD (valid_before fr.m_features p) 0 ≠ 0 ∧
          (stereo_flow O fr).err.getD (valid_before fr.m_features p) 0 < 50 ∧
          is_valid_match (stereo_matrix O fr) feature.m_pixel_coord
            ((stereo_flow O fr).next_pts.getD (valid_before fr.m_features p) ⟨0, 0⟩) = true) →
        (compute_stereo_matches O fr).m_features[p]? = some feature := by
    intro hn
    rcases hcases with hv | hv
    · rw [compute_stereo_matches_getElem? O fr p feature hstereo hp hv, if_neg]
      rintro ⟨hlt, hl, hm⟩
      exact hn ⟨hv, hlt, ((hloose _).1 hl).1, ((hloose _).1 hl).2, hm⟩
    · exact compute_stereo_matches_invalid O fr p feature hp hv
  refine ⟨compute_stereo_matches_length O fr, ?_, hyes, hno, ?_, by decide!⟩
  · intro hv
    exact left_pts_getElem? fr.m_features p feature hp hv
  · by_cases hc : (feature.m_is_valid = true ∧
          valid_before fr.m_features p < (stereo_flow O fr).status.length ∧
          (stereo_flow O fr).status.getD (valid_before fr.m_features p) 0 ≠ 0 ∧
          (stereo_flow O fr).err.getD (valid_before fr.m_features p) 0 < 50 ∧
          is_valid_match (stereo_matrix O fr) feature.m_pixel_coord
            ((stereo_flow O fr).next_pts.getD (valid_before fr.m_features p) ⟨0, 0⟩) = true)
    · obtain ⟨d, -, -, -, hres⟩ := hyes hc
      exact ⟨_, hres, rfl, rfl, rfl, rfl, rfl, rfl, rfl⟩
    · exact ⟨_, hno hc, rfl, rfl, rfl, rfl, rfl, rfl, rfl⟩

/-- C15, witness: a stereo frame storing an invalid feature, a feature matched with disparity
10, a feature whose tracking failed and a feature tracked to a negative disparity: only the
second one records a stereo match. -/
theorem stereo_matches_recorded_per_feature_witness :
    (compute_stereo_matches stereo_oracles_mixed stereo_frame_mixed).m_features.map
        (fun f => (f.m_feature_id, f.m_has_stereo_match, f.m_right_coord, f.m_disparity)) =
      [(0, false, ⟨-1, -1⟩, -1), (1, true, ⟨90, 50⟩, 10), (2, false, ⟨-1, -1⟩, -1),
        (3, false, ⟨-1, -1⟩, -1)] ∧
    ∃ d : ℚ,
      float_sub (Feature.new 1 ⟨100, 50⟩).m_pixel_coord.x
        ((stereo_flow stereo_oracles_mixed stereo_frame_mixed).next_pts.getD
          (valid_before stereo_frame_mixed.m_features 1) ⟨0, 0⟩).x = FloatValue.finite d ∧
      float_0_1 ≤ d ∧ d ≤ 300 ∧
      (compute_stereo_matches stereo_oracles_mixed stereo_frame_mixed).m_features[1]? =
        some { Feature.new 1 ⟨100, 50⟩ with
          m_right_coord := (stereo_flow stereo_oracles_mixed stereo_frame_mixed).next_pts.getD
            (valid_before stereo_frame_mixed.m_features 1) ⟨0, 0⟩
          m_disparity := d
          m_has_stereo_match := true } :=
  ⟨by decide!,
    (stereo_matches_recorded_per_feature stereo_oracles_mixed stereo_frame_mixed 1
      (Feature.new 1 ⟨100, 50⟩) (by decide) (by rfl)).2.2.1
        ⟨by rfl, by decide, by decide, by decide!, by decide!⟩⟩

end Frame

/-! ## Lemmas on the id index -/

namespace Frame

/-- The index after the first `n` iterations of the loop of `update_feature_index`. -/
theorem rebuilt_index_prefix (features : List Feature) (n : ℕ) (hn : n ≤ features.length)
    (id : ℤ) (i : ℕ) :
    (List.range n).foldl
        (fun idx k =>
          match features.get? k with
          | some f => Function.update idx f.get_feature_id (some k)
          | Option.none => idx)
        (fun _ => Option.none) id = some i ↔
      i < n ∧ (features.map Feature.get_feature_id)[i]? = some id ∧
        ∀ j, i < j → j < n → (features.map Feature.get_feature_id)[j]? ≠ some id := by
  induction n generalizing i with
  | zero => simp
  | succ n ih =>
    rw [List.range_succ, List.foldl_append, List.foldl_cons, List.foldl_nil]
    have hlt : n < features.length := by omega
    have hget : features.get? n = some features[n] := by
      rw [List.get?_eq_getElem?, List.getElem?_eq_getElem hlt]
    have hidn : (features.map Feature.get_feature_id)[n]? = some features[n].get_feature_id := by
      rw [List.getElem?_map, List.getElem?_eq_getElem hlt]
      rfl
    simp only [hget]
    by_cases hid : id = features[n].get_feature_id
    · subst hid
      rw [Function.update_same]
      constructor
      · intro h
        cases h
        exact ⟨by omega, hidn, fun j h1 h2 => by omega⟩
      · rintro ⟨h1, _, h3⟩
        by_cases hin : i = n
        · rw [hin]
        · exact absurd hidn (h3 n (by omega) (by omega))
    · rw [Function.update_noteq hid, ih (by omega)]
      constructor
      · rintro ⟨h1, h2, h3⟩
        refine ⟨by omega, h2, fun j hj1 hj2 => ?_⟩
        by_cases hjn : j = n
        · rw [hjn, hidn]
          intro hc
          exact hid (Option.some.inj hc).symm
        · exact h3 j hj1 (by omega)
      · rintro ⟨h1, h2, h3⟩
        have hin : i ≠ n := by
          intro hc
          rw [hc, hidn] at h2
          exact hid (Option.some.inj h2).symm
        exact ⟨by omega, h2, fun j hj1 hj2 => h3 j hj1 (by omega)⟩

/-- The rebuilt index maps an id to the last position that holds it. -/
theorem rebuilt_index_iff (features : List Feature) (id : ℤ) (i : ℕ) :
    rebuilt_index features id = some i ↔
      (features.map Feature.get_feature_id)[i]? = some id ∧
        ∀ j, i < j → (features.map Feature.get_feature_id)[j]? ≠ some id := by
  have key : rebuilt_index features id = some i ↔
      i < features.length ∧ (features.map Feature.get_feature_id)[i]? = some id ∧
        ∀ j, i < j → j < features.length →
          (features.map Feature.get_feature_id)[j]? ≠ some id :=
    rebuilt_index_prefix features features.length (le_refl _) id i
  rw [key]
  constructor
  · rintro ⟨_, h2, h3⟩
    refine ⟨h2, fun j hj => ?_⟩
    by_cases hjl : j < features.length
    · exact h3 j hj hjl
    · rw [List.getElem?_eq_none (by simpa using hjl)]
      simp
  · rintro ⟨h2, h3⟩
    refine ⟨?_, h2, fun j hj _ => h3 j hj⟩
    by_contra hc
    rw [List.getElem?_eq_none (by simpa using hc)] at h2
    cases h2

theorem nodup_getElem?_unique {l : List ℤ} (h : l.Nodup) {i j : ℕ} {a : ℤ}
    (hi : l[i]? = some a) (hj : l[j]? = some a) : i = j := by
  rw [List.nodup_iff_getElem?_ne_getElem?] at h
  have hil : i < l.length := (List.getElem?_eq_some.1 hi).1
  have hjl : j < l.length := (List.getElem?_eq_some.1 hj).1
  rcases Nat.lt_trichotomy i j with hlt | heq | hgt
  · exact absurd (hi.trans hj.symm) (h i j hlt hjl)
  · exact heq
  · exact absurd (hj.trans hi.symm) (h j i hgt hil)

theorem update_feature_index_synced (fr : Frame) (hnodup : fr.ids.Nodup) :
    (update_feature_index fr).index_synced := by
  intro id i
  show rebuilt_index fr.m_features id = some i ↔ _
  rw [rebuilt_index_iff]
  constructor
  · exact fun h => h.1
  · intro h
    refine ⟨h, fun j hj hc => ?_⟩
    have := nodup_getElem?_unique hnodup h hc
    omega

theorem add_feature_ids (fr : Frame) (feature : Feature) :
    (fr.add_feature feature).ids = fr.ids ++ [feature.m_feature_id] := by
  simp [ids, add_feature, Feature.get_feature_id]

theorem add_feature_synced (fr : Frame) (feature : Feature) (hnodup : fr.ids.Nodup)
    (hsync : fr.index_synced) (hnew : feature.m_feature_id ∉ fr.ids) :
    (fr.add_feature feature).ids.Nodup ∧ (fr.add_feature feature).index_synced := by
  have hlen : fr.ids.length = fr.m_features.length := by simp [ids]
  constructor
  · rw [add_feature_ids]
    rw [List.nodup_append]
    refine ⟨hnodup, List.nodup_singleton _, ?_⟩
    rw [List.disjoint_left]
    intro a ha hb
    rw [List.mem_singleton] at hb
    exact hnew (hb ▸ ha)
  · intro id i
    rw [add_feature_ids]
    show Function.update fr.m_feature_id_to_index feature.get_feature_id
      (some ((fr.m_features ++ [feature]).length - 1)) id = some i ↔ _
    have hl : (fr.m_features ++ [feature]).length - 1 = fr.ids.length := by
      simp [hlen]
    rw [hl]
    by_cases hid : id = feature.get_feature_id
    · subst hid
      rw [Function.update_same]
      constructor
      · intro h
        cases h
        rw [List.getElem?_append_right (le_refl _)]
        simp [Feature.get_feature_id]
      · intro h
        by_cases hi : i < fr.ids.length
        · rw [List.getElem?_append_left hi] at h
          exact absurd (List.getElem?_mem h) hnew
        · rw [List.getElem?_append_right (by omega)] at h
          have : i - fr.ids.length = 0 := by
            by_contra hc
            rw [List.getElem?_eq_none (by simp; omega)] at h
            cases h
          congr 1
          omega
    · rw [Function.update_noteq hid, hsync id i]
      constructor
      · intro h
        have hi : i < fr.ids.length := (List.getElem?_eq_some.1 h).1
        rw [List.getElem?_append_left hi]
        exact h
      · intro h
        by_cases hi : i < fr.ids.length
        · rw [List.getElem?_append_left hi] at h
          exact h
        · rw [List.getElem?_append_right (by omega)] at h
          have hm := List.getElem?_mem h
          rw [List.mem_singleton] at hm
          exact absurd hm hid

theorem eraseIdx_eq_filter (features : List Feature) (p : ℕ) (id : ℤ)
    (hnodup : (features.map Feature.get_feature_id).Nodup)
    (hp : (features.map Feature.get_feature_id)[p]? = some id) :
    features.eraseIdx p = features.filter (fun f => decide (f.m_feature_id ≠ id)) := by
  induction features generalizing p with
  | nil => simp at hp
  | cons f rest ih =>
    rw [List.map_cons, List.nodup_cons] at hnodup
    cases p with
    | zero =>
      simp only [List.map_cons, List.getElem?_cons_zero, Option.some.injEq] at hp
      rw [List.eraseIdx_cons_zero, List.filter_cons]
      have : decide (f.m_feature_id ≠ id) = false := by
        simp [← hp, Feature.get_feature_id]
      rw [this]
      simp only [Bool.false_eq_true, if_false]
      symm
      rw [List.filter_eq_self]
      intro a ha
      simp only [decide_eq_true_eq]
      intro hc
      apply hnodup.1
      rw [hp, List.mem_map]
      exact ⟨a, ha, hc⟩
    | succ p =>
      simp only [List.map_cons, List.getElem?_cons_succ] at hp
      rw [List.eraseIdx_cons_succ, List.filter_cons, ih p hnodup.2 hp]
      have : decide (f.m_feature_id ≠ id) = true := by
        simp only [decide_eq_true_eq]
        intro hc
        apply hnodup.1
        have := List.getElem?_mem hp
        rwa [← hc] at this
      rw [this]
      simp

theorem filter_ne_of_not_mem (features : List Feature) (id : ℤ)
    (h : id ∉ features.map Feature.get_feature_id) :
    features.filter (fun f => decide (f.m_feature_id ≠ id)) = features := by
  rw [List.filter_eq_self]
  intro a ha
  simp only [decide_eq_true_eq]
  intro hc
  apply h
  rw [List.mem_map]
  exact ⟨a, ha, hc⟩

/-- On a frame with pairwise distinct ids and a synced index, `remove_feature` drops exactly
the feature with the given id, keeps the order of the others, and leaves the index synced. -/
theorem remove_feature_synced (fr : Frame) (feature_id : ℤ) (hnodup : fr.ids.Nodup)
    (hsync : fr.index_synced) :
    (fr.remove_feature feature_id).m_features =
        fr.m_features.filter (fun f => decide (f.m_feature_id ≠ feature_id)) ∧
      (fr.remove_feature feature_id).ids.Nodup ∧
      (fr.remove_feature feature_id).index_synced ∧
      (feature_id ∉ fr.ids → fr.remove_feature feature_id = fr) := by
  unfold remove_feature
  cases hidx : fr.m_feature_id_to_index feature_id with
  | none =>
    have hnot : feature_id ∉ fr.ids := by
      intro hm
      obtain ⟨i, hi⟩ := List.mem_iff_getElem?.1 hm
      rw [(hsync feature_id i).2 hi] at hidx
      cases hidx
    exact ⟨(filter_ne_of_not_mem _ _ hnot).symm, hnodup, hsync, fun _ => rfl⟩
  | some index =>
    have hp := (hsync feature_id index).1 hidx
    have hsub : ((fr.m_features.eraseIdx index).map Feature.get_feature_id).Nodup :=
      ((List.eraseIdx_sublist _ _).map _).nodup hnodup
    refine ⟨eraseIdx_eq_filter _ _ _ hnodup hp, hsub, ?_, ?_⟩
    · exact update_feature_index_synced _ hsub
    · intro hnot
      exact absurd (List.getElem?_mem hp) hnot

theorem get_feature_eq_some_iff (fr : Frame) (hsync : fr.index_synced)
    (feature_id : ℤ) (feature : Feature) :
    fr.get_feature feature_id = some feature ↔
      feature ∈ fr.m_features ∧ feature.m_feature_id = feature_id := by
  unfold get_feature
  constructor
  · intro h
    cases hidx : fr.m_feature_id_to_index feature_id with
    | none => rw [hidx] at h; cases h
    | some index =>
      rw [hidx] at h
      simp only [List.get?_eq_getElem?] at h
      have hp := (hsync feature_id index).1 hidx
      rw [ids, List.getElem?_map, h] at hp
      exact ⟨List.getElem?_mem h, Option.some.inj hp⟩
  · rintro ⟨hmem, hid⟩
    obtain ⟨i, hi⟩ := List.mem_iff_getElem?.1 hmem
    have hp : fr.ids[i]? = some feature_id := by
      rw [ids, List.getElem?_map, hi]
      simp [Feature.get_feature_id, hid]
    rw [(hsync feature_id i).2 hp]
    simp only [List.get?_eq_getElem?]
    exact hi

theorem get_feature_eq_none_iff (fr : Frame) (hsync : fr.index_synced) (feature_id : ℤ) :
    fr.get_feature feature_id = Option.none ↔ feature_id ∉ fr.ids := by
  unfold get_feature
  constructor
  · intro h hm
    obtain ⟨i, hi⟩ := List.mem_iff_getElem?.1 hm
    rw [(hsync feature_id i).2 hi] at h
    simp only [List.get?_eq_getElem?] at h
    rw [ids, List.getElem?_map] at hi
    rw [h] at hi
    cases hi
  · intro h
    cases hidx : fr.m_feature_id_to_index feature_id with
    | none => rfl
    | some index => exact absurd (List.getElem?_mem ((hsync feature_id index).1 hidx)) h

end Frame

/-! ## Feature store and id index (claim C17) -/

namespace Frame

theorem new_synced (timestamp frame_id : ℤ) :
    (Frame.new timestamp frame_id).ids.Nodup ∧ (Frame.new timestamp frame_id).index_synced := by
  constructor
  · simp [ids, Frame.new]
  · intro id i
    simp [ids, Frame.new]

theorem calls_synced (calls : List StoreCall) (fr : Frame) (hnodup : fr.ids.Nodup)
    (hsync : fr.index_synced) (hnew : adds_new_ids fr calls) :
    (calls.foldl call fr).ids.Nodup ∧ (calls.foldl call fr).index_synced := by
  induction calls generalizing fr with
  | nil => exact ⟨hnodup, hsync⟩
  | cons c rest ih =>
    rw [List.foldl_cons]
    cases c with
    | add_feature feature =>
      obtain ⟨h1, h2⟩ := hnew
      obtain ⟨h3, h4⟩ := add_feature_synced fr feature hnodup hsync h1
      exact ih _ h3 h4 h2
    | remove_feature feature_id =>
      obtain ⟨_, h3, h4, _⟩ := remove_feature_synced fr feature_id hnodup hsync
      exact ih _ h3 h4 hnew

/-- C17: after every sequence of `add_feature` calls with ids not already stored and
`remove_feature` calls, starting from an empty frame: the stored ids are pairwise distinct;
the index maps exactly the stored ids, each to the position of the feature with that id;
`get_feature` returns the stored feature with the id, and null exactly for an id that is not
stored; `remove_feature` of a stored id removes exactly the feature with that id (one feature
fewer, the others in their order); `remove_feature` of an id not stored leaves the frame
unchanged. -/
theorem index_in_sync (timestamp frame_id : ℤ) (calls : List StoreCall)
    (hnew : adds_new_ids (Frame.new timestamp frame_id) calls) :
    (calls.foldl call (Frame.new timestamp frame_id)).ids.Nodup ∧
      (∀ (id : ℤ) (i : ℕ),
        (calls.foldl call (Frame.new timestamp frame_id)).m_feature_id_to_index id = some i ↔
          ((calls.foldl call (Frame.new timestamp frame_id)).m_features.map
            Feature.get_feature_id)[i]? = some id) ∧
      (∀ (id : ℤ) (feature : Feature),
        (calls.foldl call (Frame.new timestamp frame_id)).get_feature id = some feature ↔
          feature ∈ (calls.foldl call (Frame.new timestamp frame_id)).m_features ∧
            feature.m_feature_id = id) ∧
      (∀ id : ℤ,
        (calls.foldl call (Frame.new timestamp frame_id)).get_feature id = Option.none ↔
          id ∉ (calls.foldl call (Frame.new timestamp frame_id)).ids) ∧
      (∀ id : ℤ, id ∈ (calls.foldl call (Frame.new timestamp frame_id)).ids →
        ((calls.foldl call (Frame.new timestamp frame_id)).remove_feature id).m_features =
            (calls.foldl call (Frame.new timestamp frame_id)).m_features.filter
              (fun f => decide (f.m_feature_id ≠ id)) ∧
          ((calls.foldl call (Frame.new timestamp frame_id)).remove_feature id).m_features.length
            + 1 = (calls.foldl call (Frame.new timestamp frame_id)).m_features.length) ∧
      (∀ id : ℤ, id ∉ (calls.foldl call (Frame.new timestamp frame_id)).ids →
        (calls.foldl call (Frame.new timestamp frame_id)).remove_feature id =
          calls.foldl call (Frame.new timestamp frame_id)) := by
  obtain ⟨h0, h1⟩ := new_synced timestamp frame_id
  obtain ⟨hnodup, hsync⟩ := calls_synced calls _ h0 h1 hnew
  refine ⟨hnodup, hsync, get_feature_eq_some_iff _ hsync, get_feature_eq_none_iff _ hsync,
    ?_, ?_⟩
  · intro id hid
    obtain ⟨hrem, -, -, -⟩ := remove_feature_synced _ id hnodup hsync
    refine ⟨hrem, ?_⟩
    obtain ⟨i, hi⟩ := List.mem_iff_getElem?.1 hid
    have hidx := (hsync id i).2 hi
    have hlt : i < (calls.foldl call (Frame.new timestamp frame_id)).m_features.length := by
      have := (List.getElem?_eq_some.1 hi).1
      simpa [ids] using this
    unfold remove_feature
    rw [hidx]
    show ((calls.foldl call (Frame.new timestamp frame_id)).m_features.eraseIdx i).length + 1 = _
    rw [List.length_eraseIdx, if_pos hlt]
    omega
  · intro id hid
    exact (remove_feature_synced _ id hnodup hsync).2.2.2 hid

/-- C17, witness: the sample sequence leaves the features with ids 5, 9, 7 in that order. -/
theorem index_in_sync_witness :
    adds_new_ids (Frame.new 0 0) sample_store_calls ∧
      (sample_store_calls.foldl call (Frame.new 0 0)).ids = [5, 9, 7] ∧
      (sample_store_calls.foldl call (Frame.new 0 0)).ids.Nodup :=
  have h : adds_new_ids (Frame.new 0 0) sample_store_calls := by
    unfold sample_store_calls
    simp only [adds_new_ids]
    decide!
  ⟨h, by decide!, (index_in_sync 0 0 sample_store_calls h).1⟩

end Frame

/-! ## Produced features, outlier removal and replenishing (claims C18 to C20) -/

theorem frame_with_features_succ (image : Mat) (n : ℕ) :
    frame_with_features image (n + 1) =
      (frame_with_features image n).add_feature
        (Feature.new (n : ℤ) ⟨100 + 10 * (n : ℚ), 50⟩) := by
  unfold frame_with_features
  rw [List.range_succ, List.foldl_append]
  rfl

theorem frame_with_features_synced (image : Mat) (n : ℕ) :
    (frame_with_features image n).ids = (List.range n).map Int.ofNat ∧
      (frame_with_features image n).ids.Nodup ∧ (frame_with_features image n).index_synced := by
  induction n with
  | zero =>
    refine ⟨rfl, by simp [frame_with_features, Frame.ids, fresh_frame, Frame.set_left_image,
      Frame.new], ?_⟩
    intro id i
    simp [frame_with_features, Frame.ids, fresh_frame, Frame.set_left_image, Frame.new]
  | succ n ih =>
    obtain ⟨h1, h2, h3⟩ := ih
    rw [frame_with_features_succ]
    have hnew : (Feature.new (n : ℤ) ⟨100 + 10 * (n : ℚ), 50⟩).m_feature_id ∉
        (frame_with_features image n).ids := by
      rw [h1]
      simp [Feature.new]
    obtain ⟨k1, k2⟩ := Frame.add_feature_synced _ _ h2 h3 hnew
    refine ⟨?_, k1, k2⟩
    rw [Frame.add_feature_ids, h1, List.range_succ, List.map_append]
    rfl

namespace FeatureTracker

/-- A property that holds of every constructed feature and is kept by `set_track_count` holds of
every feature of the frame produced by `track_features`, provided it holds of the features the
current frame starts with. -/
theorem track_features_all (O : Oracles) (tr : FeatureTracker) (current : Frame)
    (previous : Option Frame) (P : Feature → Prop)
    (hnew : ∀ id pixel_coord, P (Feature.new id pixel_coord))
    (hset : ∀ f count, P f → P (f.set_track_count count))
    (hcur : ∀ f ∈ current.m_features, P f) (produced : Frame)
    (hout : (track_features O tr (some current) previous).2 = some produced) :
    ∀ f ∈ produced.m_features, P f := by
  have hflow : ∀ prev : Frame, ∀ f ∈ (optical_flow_tracking O tr current prev).m_features,
      P f := by
    intro prev f hf
    unfold optical_flow_tracking at hf
    split_ifs at hf with h0
    · exact hcur f hf
    · rw [optical_flow_fold_features, List.mem_append] at hf
      rcases hf with hf | hf
      · exact hcur f hf
      · rw [List.mem_filterMap] at hf
        obtain ⟨i, -, hi⟩ := hf
        unfold tracked_feature at hi
        split_ifs at hi
        cases hp : prev.get_features.get? i with
        | none => rw [hp] at hi; cases hi
        | some prev_feature =>
          rw [hp] at hi
          simp only [Option.map_some', Option.some.injEq] at hi
          rw [← hi]
          exact hset _ _ (hnew _ _)
  have hmid : ∀ prev : Frame, ∀ f ∈ (update_feature_track_count
      (reject_outliers_with_fundamental_matrix O tr
        (optical_flow_tracking O tr current prev) prev)).m_features, P f := by
    intro prev f hf
    unfold update_feature_track_count at hf
    simp only [List.mem_map] at hf
    obtain ⟨g, hg, rfl⟩ := hf
    have hPg := hflow prev g ((reject_outliers_sublist O tr _ prev).subset hg)
    split_ifs
    · exact hset _ _ hPg
    · exact hPg
  have key : ∀ mid : Frame, (∀ f ∈ mid.m_features, P f) →
      (if below_max_features mid.get_feature_count tr.m_max_features = true then
          ((extract_new_features O tr (set_mask mid)).1,
            some (extract_new_features O tr (set_mask mid)).2)
        else (tr, some mid)).2 = some produced → ∀ f ∈ produced.m_features, P f := by
    intro mid hmidP hp f hf
    split_ifs at hp
    · simp only [Option.some.injEq] at hp
      obtain ⟨corners, -, h2⟩ := extract_new_features_eq O tr (set_mask mid)
      rw [← hp, h2, List.mem_append] at hf
      rcases hf with hf | hf
      · exact hmidP f hf
      · clear h2
        generalize tr.m_global_feature_id = n at hf
        induction corners generalizing n with
        | nil => simp [minted] at hf
        | cons c rest ih =>
          simp only [minted, List.mem_cons] at hf
          rcases hf with rfl | hf
          · exact hnew _ _
          · exact ih _ hf
    · simp only [Option.some.injEq] at hp
      rw [← hp] at hf
      exact hmidP f hf
  cases previous with
  | none =>
    apply key current hcur
    simpa [track_features] using hout
  | some prev =>
    apply key _ (hmid prev)
    simpa [track_features] using hout

/-- C18: for every call of `track_features` on a current frame that starts with no features,
whatever the previous frame (whatever depth or stereo match its features hold) and whatever
the oracles return, every feature of the produced frame, propagated or newly minted, is valid
and has depth -1, right coordinate (-1, -1), disparity -1 and no stereo match. -/
theorem produced_features_valid_and_unset (O : Oracles) (tr : FeatureTracker) (current : Frame)
    (previous : Option Frame) (hfresh : current.m_features = []) :
    ∃ produced : Frame,
      (track_features O tr (some current) previous).2 = some produced ∧
        ∀ feature ∈ produced.m_features,
          feature.m_is_valid = true ∧ feature.m_depth = -1 ∧
            feature.m_right_coord = ⟨-1, -1⟩ ∧ feature.m_disparity = -1 ∧
              feature.m_has_stereo_match = false := by
  obtain ⟨produced, -, -, hout, -⟩ := track_features_step O tr current previous hfresh
  refine ⟨produced, hout, ?_⟩
  refine track_features_all O tr current previous _ ?_ ?_ ?_ produced hout
  · intro id pixel_coord
    exact ⟨rfl, rfl, rfl, rfl, rfl⟩
  · intro f count h
    exact h
  · intro f hf
    rw [hfresh] at hf
    cases hf

/-- C18, witness: the previous frame's feature holds depth 1.5 and a stereo match of disparity
20; the feature carried into the produced frame and the newly minted one hold the unset
values. -/
theorem produced_features_valid_and_unset_witness :
    previous_with_depth.m_features.map
        (fun f => (f.m_feature_id, f.m_depth, f.m_disparity, f.m_has_stereo_match)) =
          [(0, 3 / 2, 20, true)] ∧
      (track_features (scenario_oracles [⟨300, 300⟩] (fun pts => pts) [1] [])
          { FeatureTracker.new with m_global_feature_id := 1 }
          (some (fresh_frame 1 image_640x480)) (some previous_with_depth)).2.map
        (fun fr => fr.m_features.map
          (fun f => (f.m_feature_id, f.m_depth, f.m_disparity, f.m_has_stereo_match))) =
          some [(0, -1, -1, false), (1, -1, -1, false)] ∧
      ∃ produced : Frame,
        (track_features (scenario_oracles [⟨300, 300⟩] (fun pts => pts) [1] [])
          { FeatureTracker.new with m_global_feature_id := 1 }
          (some (fresh_frame 1 image_640x480)) (some previous_with_depth)).2 = some produced ∧
          ∀ feature ∈ produced.m_features,
            feature.m_is_valid = true ∧ feature.m_depth = -1 ∧
              feature.m_right_coord = ⟨-1, -1⟩ ∧ feature.m_disparity = -1 ∧
                feature.m_has_stereo_match = false :=
  ⟨by decide!, by decide!,
    produced_features_valid_and_unset (scenario_oracles [⟨300, 300⟩] (fun pts => pts) [1] [])
      { FeatureTracker.new with m_global_feature_id := 1 } (fresh_frame 1 image_640x480)
      (some previous_with_depth) (by rfl)⟩

theorem mem_outlier_ids (status : List ℕ) (feature_ids : List ℤ) (id : ℤ) :
    id ∈ outlier_ids status feature_ids ↔
      ∃ i, i < status.length ∧ status.getD i 0 = 0 ∧ feature_ids[i]? = some id := by
  unfold outlier_ids
  rw [List.mem_filterMap]
  constructor
  · rintro ⟨i, hi, h⟩
    rw [List.mem_range] at hi
    split_ifs at h with h0
    rw [List.get?_eq_getElem?] at h
    exact ⟨i, hi, h0, h⟩
  · rintro ⟨i, hi, h0, h⟩
    refine ⟨i, List.mem_range.2 hi, ?_⟩
    rw [if_pos h0, List.get?_eq_getElem?]
    exact h

theorem remove_fold_synced (status : List ℕ) (feature_ids : List ℤ) (indices : List ℕ)
    (current_frame : Frame) (hnodup : current_frame.ids.Nodup)
    (hsync : current_frame.index_synced) :
    (indices.foldl
        (fun cur i =>
          if status.getD i 0 = 0 then
            match feature_ids.get? i with
            | some id => cur.remove_feature id
            | Option.none => cur
          else cur)
        current_frame).m_features =
        current_frame.m_features.filter
          (fun f => decide (f.m_feature_id ∉ indices.filterMap
            (fun i => if status.getD i 0 = 0 then feature_ids.get? i else Option.none))) ∧
      (indices.foldl
        (fun cur i =>
          if status.getD i 0 = 0 then
            match feature_ids.get? i with
            | some id => cur.remove_feature id
            | Option.none => cur
          else cur)
        current_frame).ids.Nodup ∧
      (indices.foldl
        (fun cur i =>
          if status.getD i 0 = 0 then
            match feature_ids.get? i with
            | some id => cur.remove_feature id
            | Option.none => cur
          else cur)
        current_frame).index_synced := by
  induction indices generalizing current_frame with
  | nil =>
    refine ⟨?_, hnodup, hsync⟩
    simp
  | cons i rest ih =>
    rw [List.foldl_cons, List.filterMap_cons]
    by_cases h0 : status.getD i 0 = 0
    · rw [if_pos h0]
      simp only [if_pos h0]
      cases hid : feature_ids.get? i with
      | none =>
        simp only []
        exact ih current_frame hnodup hsync
      | some id =>
        simp only []
        obtain ⟨h1, h2, h3, -⟩ := Frame.remove_feature_synced current_frame id hnodup hsync
        obtain ⟨k1, k2, k3⟩ := ih (current_frame.remove_feature id) h2 h3
        refine ⟨?_, k2, k3⟩
        rw [k1, h1, List.filter_filter]
        congr 1
        funext f
        simp only [List.mem_cons, not_or, Bool.decide_and, ne_eq]
        rw [Bool.and_comm]
    · rw [if_neg h0]
      simp only [if_neg h0]
      exact ih current_frame hnodup hsync

theorem remove_outliers_synced (status : List ℕ) (feature_ids : List ℤ) (current_frame : Frame)
    (hnodup : current_frame.ids.Nodup) (hsync : current_frame.index_synced) :
    (remove_outliers status feature_ids current_frame).m_features =
        current_frame.m_features.filter
          (fun f => decide (f.m_feature_id ∉ outlier_ids status feature_ids)) ∧
      (remove_outliers status feature_ids current_frame).ids.Nodup ∧
      (remove_outliers status feature_ids current_frame).index_synced :=
  remove_fold_synced status feature_ids (List.range status.length) current_frame hnodup hsync

theorem reject_outliers_of_eight (O : Oracles) (tr : FeatureTracker)
    (current_frame previous_frame : Frame)
    (h : 8 ≤ (collect_correspondences current_frame previous_frame).length) :
    reject_outliers_with_fundamental_matrix O tr current_frame previous_frame =
      remove_outliers
        (O.findFundamentalMat
          ((collect_correspondences current_frame previous_frame).map (fun c => c.1))
          ((collect_correspondences current_frame previous_frame).map (fun c => c.2.1))
          tr.m_f_threshold (99 / 100)).2
        ((collect_correspondences current_frame previous_frame).map (fun c => c.2.2))
        current_frame := by
  have hle := collect_correspondences_length_le current_frame previous_frame
  unfold reject_outliers_with_fundamental_matrix
  rw [if_neg (by omega)]
  dsimp only
  rw [if_neg (by simpa using h)]

/-- C19: `reject_outliers_with_fundamental_matrix` on a current frame with pairwise distinct
ids (and its index in sync, as after any sequence of `add_feature` and `remove_feature` calls)
and at least 8 correspondences, for every mask `status` the estimator returns. The outlier ids
are the ids `feature_ids[i]` of the correspondences with `status[i] = 0`; afterwards the frame
holds exactly the features whose id is not an outlier id, in their original order;
`get_feature` returns null for every outlier id and the stored feature for the id of every
surviving feature. -/
theorem outliers_removed_by_id (O : Oracles) (tr : FeatureTracker)
    (current_frame previous_frame : Frame) (status : List ℕ)
    (hnodup : current_frame.ids.Nodup) (hsync : current_frame.index_synced)
    (h8 : 8 ≤ (collect_correspondences current_frame previous_frame).length)
    (hstatus : (O.findFundamentalMat
      ((collect_correspondences current_frame previous_frame).map (fun c => c.1))
      ((collect_correspondences current_frame previous_frame).map (fun c => c.2.1))
      tr.m_f_threshold (99 / 100)).2 = status) :
    (∀ id : ℤ,
        id ∈ outlier_ids status
            ((collect_correspondences current_frame previous_frame).map (fun c => c.2.2)) ↔
          ∃ i, i < status.length ∧ status.getD i 0 = 0 ∧
            ((collect_correspondences current_frame previous_frame).map
              (fun c => c.2.2))[i]? = some id) ∧
      (reject_outliers_with_fundamental_matrix O tr current_frame previous_frame).m_features =
        current_frame.m_features.filter
          (fun f => decide (f.m_feature_id ∉ outlier_ids status
            ((collect_correspondences current_frame previous_frame).map (fun c => c.2.2)))) ∧
      (∀ id ∈ outlier_ids status
          ((collect_correspondences current_frame previous_frame).map (fun c => c.2.2)),
        (reject_outliers_with_fundamental_matrix O tr current_frame
          previous_frame).get_feature id = Option.none) ∧
      (∀ feature ∈
          (reject_outliers_with_fundamental_matrix O tr current_frame previous_frame).m_features,
        (reject_outliers_with_fundamental_matrix O tr current_frame
          previous_frame).get_feature feature.m_feature_id = some feature) := by
  have heq := reject_outliers_of_eight O tr current_frame previous_frame h8
  rw [hstatus] at heq
  obtain ⟨h1, h2, h3⟩ := remove_outliers_synced status
    ((collect_correspondences current_frame previous_frame).map (fun c => c.2.2))
    current_frame hnodup hsync
  rw [heq]
  refine ⟨fun id => mem_outlier_ids _ _ id, h1, ?_, ?_⟩
  · intro id hid
    rw [Frame.get_feature_eq_none_iff _ h3]
    intro hmem
    rw [Frame.ids, h1, List.mem_map] at hmem
    obtain ⟨f, hf, hfid⟩ := hmem
    rw [List.mem_filter] at hf
    have := hf.2
    simp only [decide_eq_true_eq] at this
    apply this
    have hfid2 : f.m_feature_id = id := hfid
    rw [hfid2]
    exact hid
  · intro feature hf
    exact (Frame.get_feature_eq_some_iff _ h3 _ _).2 ⟨hf, rfl⟩

/-- C19, witness: 8 features with ids 0 to 7 tracked in place and the mask 1, 0, 1, 1, 0, 1, 1,
1: the features with ids 1 and 4 are removed. -/
theorem outliers_removed_by_id_witness :
    (reject_outliers_with_fundamental_matrix
        (scenario_oracles [] (fun pts => pts) [] [1, 0, 1, 1, 0, 1, 1, 1]) FeatureTracker.new
        (frame_with_features image_640x480 8) (frame_with_features image_640x480 8)).ids =
          [0, 2, 3, 5, 6, 7] ∧
      (reject_outliers_with_fundamental_matrix
        (scenario_oracles [] (fun pts => pts) [] [1, 0, 1, 1, 0, 1, 1, 1]) FeatureTracker.new
        (frame_with_features image_640x480 8) (frame_with_features image_640x480 8)).m_features =
        (frame_with_features image_640x480 8).m_features.filter
          (fun f => decide (f.m_feature_id ∉ outlier_ids [1, 0, 1, 1, 0, 1, 1, 1]
            ((collect_correspondences (frame_with_features image_640x480 8)
              (frame_with_features image_640x480 8)).map (fun c => c.2.2)))) :=
  ⟨by decide!,
    (outliers_removed_by_id (scenario_oracles [] (fun pts => pts) [] [1, 0, 1, 1, 0, 1, 1, 1])
      FeatureTracker.new (frame_with_features image_640x480 8)
      (frame_with_features image_640x480 8) [1, 0, 1, 1, 0, 1, 1, 1]
      (frame_with_features_synced image_640x480 8).2.1
      (frame_with_features_synced image_640x480 8).2.2 (by decide!) (by rfl)).2.1⟩

theorem below_max_features_iff (count : ℕ) (max_features : ℤ) (h0 : 0 ≤ max_features)
    (h1 : max_features < 2 ^ 31) :
    below_max_features count max_features = true ↔ (count : ℤ) < max_features := by
  unfold below_max_features
  rw [decide_eq_true_eq, Int.emod_eq_of_lt h0 (by omega)]

theorem max_corners_arg_eq (count : ℕ) (max_features : ℤ) (h0 : (count : ℤ) < max_features)
    (h1 : max_features < 2 ^ 31) :
    max_corners_arg max_features count = max_features - (count : ℤ) := by
  unfold max_corners_arg
  have hc : (0 : ℤ) ≤ (count : ℤ) := Int.natCast_nonneg _
  rw [Int.emod_eq_of_lt (by omega) (by omega), Int.emod_eq_of_lt (by omega) (by omega)]
  omega

/-- C20, counterexample: a current frame without image, no previous frame and
`max_features = 2`. The surviving count 0 is strictly below 2, yet the detector, which would
return the corner (10, 10), is not consulted: the produced frame holds no feature and the
counter stays at 0 (`extract_new_features` returns at once on an empty image). On a frame with
an image the same call mints the corner. -/
theorem no_request_on_empty_image :
    ((Frame.new 0 0).get_feature_count : ℤ) < 2 ∧
      (Frame.new 0 0).get_image.empty = true ∧
      (track_features (scenario_oracles [⟨10, 10⟩] (fun pts => pts) [] [])
          (FeatureTracker.new.set_max_features 2) (some (Frame.new 0 0)) Option.none).2.map
        Frame.ids = some [] ∧
      (track_features (scenario_oracles [⟨10, 10⟩] (fun pts => pts) [] [])
          (FeatureTracker.new.set_max_features 2) (some (Frame.new 0 0))
          Option.none).1.m_global_feature_id = 0 ∧
      (track_features (scenario_oracles [⟨10, 10⟩] (fun pts => pts) [] [])
          (FeatureTracker.new.set_max_features 2) (some (fresh_frame 0 image_640x480))
          Option.none).2.map Frame.ids = some [0] := by
  refine ⟨by decide, by decide, by decide!, by decide!, by decide!⟩

/-- C20, amended: for every `max_features` with `0 ≤ max_features` (an `int`), `mid` being the
current frame after the tracking branch and `count` its feature count: when
`count < max_features` and the image of the frame is non-empty, the detector is asked for
exactly `max_features - count` corners and the produced frame and counter are those of minting
the returned corners; otherwise (count at or above `max_features`, or empty image) the frame
after the tracking branch is returned as it is, with the tracker and its counter unchanged.
Whenever the detector returns at most the requested number of corners, the produced frame
holds at most `max(max_features, count)` features. -/
theorem replenish_below_maximum (O : Oracles) (tr : FeatureTracker) (current : Frame)
    (previous : Option Frame) (mid : Frame)
    (h0 : 0 ≤ tr.m_max_features) (h1 : tr.m_max_features < 2 ^ 31)
    (hmid : tracking_branch O tr current previous = mid) :
    (((mid.get_feature_count : ℤ) < tr.m_max_features ∧ mid.get_image.empty = false) →
        track_features O tr (some current) previous =
          ((mint_features
              (detect_corners O tr mid (tr.m_max_features - (mid.get_feature_count : ℤ)))
              tr mid).1,
            some (mint_features
              (detect_corners O tr mid (tr.m_max_features - (mid.get_feature_count : ℤ)))
              tr mid).2)) ∧
      (¬ ((mid.get_feature_count : ℤ) < tr.m_max_features ∧ mid.get_image.empty = false) →
        track_features O tr (some current) previous = (tr, some mid)) ∧
      (∀ produced : Frame, (track_features O tr (some current) previous).2 = some produced →
        ((detect_corners O tr mid
            (tr.m_max_features - (mid.get_feature_count : ℤ))).length : ℤ) ≤
          tr.m_max_features - (mid.get_feature_count : ℤ) →
        (produced.get_feature_count : ℤ) ≤
          max tr.m_max_features (mid.get_feature_count : ℤ)) := by
  subst hmid
  have hbelow := below_max_features_iff (tracking_branch O tr current previous).get_feature_count
    tr.m_max_features h0 h1
  have hyes : (((tracking_branch O tr current previous).get_feature_count : ℤ) <
        tr.m_max_features ∧
      (tracking_branch O tr current previous).get_image.empty = false) →
      track_features O tr (some current) previous =
        ((mint_features
            (detect_corners O tr (tracking_branch O tr current previous)
              (tr.m_max_features -
                ((tracking_branch O tr current previous).get_feature_count : ℤ)))
            tr (tracking_branch O tr current previous)).1,
          some (mint_features
            (detect_corners O tr (tracking_branch O tr current previous)
              (tr.m_max_features -
                ((tracking_branch O tr current previous).get_feature_count : ℤ)))
            tr (tracking_branch O tr current previous)).2) := by
    rintro ⟨hlt, himg⟩
    rw [track_features_eq, if_pos (hbelow.2 hlt)]
    unfold extract_new_features
    rw [if_neg (by simp [himg]), max_corners_arg_eq _ _ hlt h1]
    rfl
  have hno : ¬ (((tracking_branch O tr current previous).get_feature_count : ℤ) <
        tr.m_max_features ∧
      (tracking_branch O tr current previous).get_image.empty = false) →
      track_features O tr (some current) previous =
        (tr, some (tracking_branch O tr current previous)) := by
    intro hn
    rw [track_features_eq]
    split_ifs with hb
    · have himg : (tracking_branch O tr current previous).get_image.empty = true := by
        by_contra hc
        exact hn ⟨hbelow.1 hb, by simpa using hc⟩
      unfold extract_new_features
      rw [if_pos himg]
    · rfl
  refine ⟨hyes, hno, ?_⟩
  intro produced hout hlen
  by_cases hc : (((tracking_branch O tr current previous).get_feature_count : ℤ) <
        tr.m_max_features ∧
      (tracking_branch O tr current previous).get_image.empty = false)
  · rw [hyes hc] at hout
    simp only [Option.some.injEq] at hout
    have hm := (mint_features_eq
      (detect_corners O tr (tracking_branch O tr current previous)
        (tr.m_max_features - ((tracking_branch O tr current previous).get_feature_count : ℤ)))
      tr (tracking_branch O tr current previous)).2
    rw [hout] at hm
    have hcount : (produced.get_feature_count : ℤ) =
        ((tracking_branch O tr current previous).get_feature_count : ℤ) +
          ((detect_corners O tr (tracking_branch O tr current previous)
            (tr.m_max_features -
              ((tracking_branch O tr current previous).get_feature_count : ℤ))).length : ℤ) := by
      unfold Frame.get_feature_count
      rw [hm, List.length_append, minted_length]
      push_cast
      rfl
    rw [hcount]
    exact le_max_of_le_left (by omega)
  · rw [hno hc] at hout
    simp only [Option.some.injEq] at hout
    rw [← hout]
    exact le_max_right _ _

/-- C20, witness: no previous frame, a fresh 640×480 frame (count 0) and `max_features = 2`:
the detector is asked for 2 - 0 corners and its two corners are minted. -/
theorem replenish_below_maximum_witness :
    (track_features (scenario_oracles [⟨10, 10⟩, ⟨20, 20⟩] (fun pts => pts) [] [])
        (FeatureTracker.new.set_max_features 2) (some (fresh_frame 0 image_640x480))
        Option.none).2.map Frame.ids = some [0, 1] ∧
      track_features (scenario_oracles [⟨10, 10⟩, ⟨20, 20⟩] (fun pts => pts) [] [])
        (FeatureTracker.new.set_max_features 2) (some (fresh_frame 0 image_640x480))
        Option.none =
        ((mint_features
            (detect_corners (scenario_oracles [⟨10, 10⟩, ⟨20, 20⟩] (fun pts => pts) [] [])
              (FeatureTracker.new.set_max_features 2) (fresh_frame 0 image_640x480)
              ((FeatureTracker.new.set_max_features 2).m_max_features -
                ((fresh_frame 0 image_640x480).get_feature_count : ℤ)))
            (FeatureTracker.new.set_max_features 2) (fresh_frame 0 image_640x480)).1,
          some (mint_features
            (detect_corners (scenario_oracles [⟨10, 10⟩, ⟨20, 20⟩] (fun pts => pts) [] [])
              (FeatureTracker.new.set_max_features 2) (fresh_frame 0 image_640x480)
              ((FeatureTracker.new.set_max_features 2).m_max_features -
                ((fresh_frame 0 image_640x480).get_feature_count : ℤ)))
            (FeatureTracker.new.set_max_features 2) (fresh_frame 0 image_640x480)).2) :=
  ⟨by decide!,
    (replenish_below_maximum (scenario_oracles [⟨10, 10⟩, ⟨20, 20⟩] (fun pts => pts) [] [])
      (FeatureTracker.new.set_max_features 2) (fresh_frame 0 image_640x480) Option.none
      (fresh_frame 0 image_640x480) (by decide) (by decide) (by rfl)).1
        ⟨by decide, by decide⟩⟩

end FeatureTracker

/-! ## Effect of `track_features` on the frame objects (claim C16) -/

namespace Memory

theorem within_footprint_start (m0 : Memory) (current : ℕ) (shared : List ℕ)
    (h : ∀ fr, m0.frames[current]? = some fr → ∀ a ∈ fr.m_features, a ∈ shared) :
    within_footprint m0 current shared m0 :=
  ⟨rfl, fun _ _ => rfl, le_refl _, fun _ _ _ => rfl, fun fr hfr a ha => Or.inl (h fr hfr a ha)⟩

theorem within_footprint_write_frame (m0 : Memory) (current : ℕ) (shared : List ℕ) (m : Memory)
    (value : FrameRecord) (h : within_footprint m0 current shared m)
    (hvalue : ∀ a ∈ value.m_features, a ∈ shared ∨ m0.features.length ≤ a) :
    within_footprint m0 current shared (m.write_frame current value) := by
  obtain ⟨h1, h2, h3, h4, _⟩ := h
  refine ⟨?_, ?_, h3, h4, ?_⟩
  · simp [write_frame, h1]
  · intro frame hne
    show (m.frames.set current value)[frame]? = _
    rw [List.getElem?_set_ne (Ne.symm hne)]
    exact h2 frame hne
  · intro fr hfr a ha
    have hfr2 : (m.frames.set current value)[current]? = some fr := hfr
    rw [List.getElem?_set] at hfr2
    simp only [if_true] at hfr2
    split_ifs at hfr2
    cases hfr2
    exact hvalue a ha

theorem within_footprint_write_feature (m0 : Memory) (current : ℕ) (shared : List ℕ)
    (m : Memory) (a : ℕ) (value : Feature) (h : within_footprint m0 current shared m)
    (ha : a ∈ shared ∨ m0.features.length ≤ a) :
    within_footprint m0 current shared (m.write_feature a value) := by
  obtain ⟨h1, h2, h3, h4, h5⟩ := h
  refine ⟨h1, h2, ?_, ?_, h5⟩
  · simp [write_feature, h3]
  · intro b hb hns
    show (m.features.set a value)[b]? = _
    have hne : a ≠ b := by
      rintro rfl
      rcases ha with ha | ha
      · exact hns ha
      · omega
    rw [List.getElem?_set_ne hne]
    exact h4 b hb hns

theorem within_footprint_make_shared (m0 : Memory) (current : ℕ) (shared : List ℕ) (m : Memory)
    (feature : Feature) (h : within_footprint m0 current shared m) :
    within_footprint m0 current shared (m.make_shared_feature feature).1 ∧
      m0.features.length ≤ (m.make_shared_feature feature).2 := by
  obtain ⟨h1, h2, h3, h4, h5⟩ := h
  refine ⟨⟨h1, h2, ?_, ?_, h5⟩, h3⟩
  · simp only [make_shared_feature, List.length_append, List.length_singleton]
    omega
  · intro b hb hns
    show (m.features ++ [feature])[b]? = _
    rw [List.getElem?_append_left (by omega)]
    exact h4 b hb hns

theorem within_footprint_add_feature (m0 : Memory) (current : ℕ) (shared : List ℕ) (m : Memory)
    (a : ℕ) (h : within_footprint m0 current shared m)
    (ha : a ∈ shared ∨ m0.features.length ≤ a) :
    within_footprint m0 current shared (m.add_feature current a) := by
  unfold add_feature
  cases hfr : m.frames[current]? with
  | none => exact h
  | some fr =>
    cases hf : m.features[a]? with
    | none => exact h
    | some f =>
      apply within_footprint_write_frame _ _ _ _ _ h
      intro b hb
      rw [List.mem_append, List.mem_singleton] at hb
      rcases hb with hb | rfl
      · exact h.2.2.2.2 fr hfr b hb
      · exact ha

theorem within_footprint_remove_feature (m0 : Memory) (current : ℕ) (shared : List ℕ)
    (m : Memory) (feature_id : ℤ) (h : within_footprint m0 current shared m) :
    within_footprint m0 current shared (m.remove_feature current feature_id) := by
  unfold remove_feature
  split
  next fr hfr =>
    split
    next index hidx =>
      apply within_footprint_write_frame _ _ _ _ _ h
      intro b hb
      exact h.2.2.2.2 fr hfr b (List.mem_of_mem_eraseIdx hb)
    next => exact h
  next => exact h

theorem within_footprint_optical_flow_step (m0 : Memory) (current previous : ℕ)
    (shared : List ℕ) (img_size : Size) (res : LKResult) (m : Memory) (i : ℕ)
    (h : within_footprint m0 current shared m) :
    within_footprint m0 current shared (optical_flow_step current previous img_size res m i) := by
  unfold optical_flow_step
  split_ifs
  · split
    next prev_pointer _ =>
      split
      next prev_feature _ =>
        obtain ⟨k1, k2⟩ := within_footprint_make_shared m0 current shared m
          ((Feature.new prev_feature.get_feature_id (res.next_pts.getD i ⟨0, 0⟩)).set_track_count
            (prev_feature.get_track_count + 1)) h
        exact within_footprint_add_feature _ _ _ _ _ k1 (Or.inr k2)
      next => exact h
    next => exact h
  · exact h

theorem within_footprint_foldl {α : Type} (m0 : Memory) (current : ℕ) (shared : List ℕ)
    (step : Memory → α → Memory)
    (hstep : ∀ m x, within_footprint m0 current shared m →
      within_footprint m0 current shared (step m x))
    (xs : List α) (m : Memory) (h : within_footprint m0 current shared m) :
    within_footprint m0 current shared (xs.foldl step m) := by
  induction xs generalizing m with
  | nil => exact h
  | cons x rest ih => exact ih _ (hstep m x h)

theorem within_footprint_optical_flow_tracking (O : Oracles) (tr : FeatureTracker)
    (m0 : Memory) (current previous : ℕ) (shared : List ℕ) (m : Memory)
    (h : within_footprint m0 current shared m) :
    within_footprint m0 current shared (optical_flow_tracking O tr m current previous) := by
  unfold optical_flow_tracking
  split
  next cur prev _ _ =>
    split_ifs
    · exact h
    · exact within_footprint_foldl m0 current shared _
        (fun mem i hm => within_footprint_optical_flow_step m0 current previous shared _ _
          mem i hm) _ m h
  next => exact h

theorem within_footprint_reject_outliers (O : Oracles) (tr : FeatureTracker)
    (m0 : Memory) (current previous : ℕ) (shared : List ℕ) (m : Memory)
    (h : within_footprint m0 current shared m) :
    within_footprint m0 current shared
      (reject_outliers_with_fundamental_matrix O tr m current previous) := by
  unfold reject_outliers_with_fundamental_matrix
  split
  next cur _ =>
    split_ifs
    · exact h
    · dsimp only
      split_ifs
      · exact h
      · unfold remove_outliers
        apply within_footprint_foldl m0 current shared _ _ _ m h
        intro mem i hm
        split_ifs
        · split
          next id _ => exact within_footprint_remove_feature _ _ _ _ _ hm
          next => exact hm
        · exact hm
  next => exact h

theorem within_footprint_update_step (m0 : Memory) (current : ℕ) (shared : List ℕ)
    (m : Memory) (a : ℕ) (h : within_footprint m0 current shared m)
    (ha : a ∈ shared ∨ m0.features.length ≤ a) :
    within_footprint m0 current shared (update_track_count_step m a) := by
  unfold update_track_count_step
  split
  next f _ =>
    split_ifs
    · exact within_footprint_write_feature _ _ _ _ _ _ h ha
    · exact h
  next => exact h

theorem within_footprint_update (m0 : Memory) (current : ℕ) (shared : List ℕ) (m : Memory)
    (h : within_footprint m0 current shared m) :
    within_footprint m0 current shared (update_feature_track_count m current) := by
  unfold update_feature_track_count
  split
  next fr hfr =>
    have hptr := h.2.2.2.2 fr hfr
    clear hfr
    generalize fr.m_features = pointers at hptr
    induction pointers generalizing m with
    | nil => exact h
    | cons a rest ih =>
      rw [List.foldl_cons]
      exact ih _ (within_footprint_update_step _ _ _ _ _ h (hptr a (List.mem_cons_self _ _)))
        (fun b hb => hptr b (List.mem_cons_of_mem _ hb))
  next => exact h

theorem within_footprint_mint (m0 : Memory) (current : ℕ) (shared : List ℕ)
    (corners : List Point2f) (tr : FeatureTracker) (m : Memory)
    (h : within_footprint m0 current shared m) :
    within_footprint m0 current shared (mint_features corners tr m current).2 := by
  unfold mint_features
  induction corners generalizing tr m with
  | nil => exact h
  | cons corner rest ih =>
    rw [List.foldl_cons]
    obtain ⟨k1, k2⟩ := within_footprint_make_shared m0 current shared m
      (Feature.new tr.m_global_feature_id corner) h
    exact ih _ _ (within_footprint_add_feature _ _ _ _ _ k1 (Or.inr k2))

theorem within_footprint_extract (O : Oracles) (tr : FeatureTracker)
    (m0 : Memory) (current : ℕ) (shared : List ℕ) (m : Memory)
    (h : within_footprint m0 current shared m) :
    within_footprint m0 current shared (extract_new_features O tr m current).2 := by
  unfold extract_new_features
  split
  next fr _ =>
    split_ifs
    · exact h
    · exact within_footprint_mint _ _ _ _ _ _ h
  next => exact h

/-- Every call of `track_features` stays within its footprint. -/
theorem within_footprint_track_features (O : Oracles) (tr : FeatureTracker)
    (m0 : Memory) (current : ℕ) (previous : Option ℕ) (shared : List ℕ)
    (h : ∀ fr, m0.frames[current]? = some fr → ∀ a ∈ fr.m_features, a ∈ shared) :
    within_footprint m0 current shared (track_features O tr m0 (some current) previous).2 := by
  have hstart := within_footprint_start m0 current shared h
  unfold track_features
  cases previous with
  | none =>
    simp only []
    split_ifs
    · exact within_footprint_extract _ _ _ _ _ _ hstart
    · exact hstart
  | some prev =>
    have hmid := within_footprint_update m0 current shared _
      (within_footprint_reject_outliers O tr m0 current prev shared _
        (within_footprint_optical_flow_tracking O tr m0 current prev shared m0 hstart))
    simp only []
    split_ifs
    · exact within_footprint_extract _ _ _ _ _ _ hmid
    · exact hmid

end Memory

namespace Memory

/-- C16, counterexample: a call that changes its previous frame. With the same frame object
passed as current and as previous (it holds ids 0 and 1 with track count 1; every point is
followed in place, no corner is detected), the object holds four features afterwards, the two
it had with track count 2. With two frame objects, the current one already holding the pointer
of the previous frame's first record, the previous frame's first feature has track count 2
afterwards. -/
theorem previous_frame_changed_when_shared :
    memory_two_frames.frame_summary 0 = some [(0, ⟨10, 10⟩, 1), (1, ⟨20, 20⟩, 1)] ∧
      (track_features (scenario_oracles [] (fun pts => pts) [1, 1] []) FeatureTracker.new
          memory_two_frames (some 0) (some 0)).2.frame_summary 0 =
        some [(0, ⟨10, 10⟩, 2), (1, ⟨20, 20⟩, 2), (0, ⟨10, 10⟩, 3), (1, ⟨20, 20⟩, 3)] ∧
      memory_shared_record.frame_summary 0 = some [(0, ⟨10, 10⟩, 1), (1, ⟨20, 20⟩, 1)] ∧
      (track_features (scenario_oracles [] (fun pts => pts) [1, 1] []) FeatureTracker.new
          memory_shared_record (some 1) (some 0)).2.frame_summary 0 =
        some [(0, ⟨10, 10⟩, 2), (1, ⟨20, 20⟩, 1)] := by
  decide!

/-- C16, amended: for every call `track_features(current, previous)` with a non-null previous
frame that is another object than the current frame and shares no feature record with it at the
start of the call, the previous frame is unchanged afterwards: the frame object has the members
it had, each of its feature records has the value it had (so the frame holds the same features
in the same order, every field with its prior value), and no feature of the current frame
afterwards is one of the previous frame's records. -/
theorem previous_frame_unchanged (O : Oracles) (tr : FeatureTracker) (m0 : Memory)
    (current previous : ℕ) (pf : FrameRecord)
    (hne : current ≠ previous)
    (hprev : m0.frames[previous]? = some pf)
    (halloc : ∀ a ∈ pf.m_features, a < m0.features.length)
    (hfresh : ∀ cf, m0.frames[current]? = some cf → ∀ a ∈ cf.m_features, a ∉ pf.m_features) :
    (track_features O tr m0 (some current) (some previous)).2.frames[previous]? = some pf ∧
      (∀ a ∈ pf.m_features,
        (track_features O tr m0 (some current) (some previous)).2.features[a]? =
          m0.features[a]?) ∧
      (track_features O tr m0 (some current) (some previous)).2.frame_value previous =
        m0.frame_value previous ∧
      (∀ cf, (track_features O tr m0 (some current) (some previous)).2.frames[current]? =
          some cf → ∀ a ∈ cf.m_features, a ∉ pf.m_features) := by
  have hfoot := within_footprint_track_features O tr m0 current (some previous)
    (((m0.frames[current]?).map (fun cf => cf.m_features)).getD [])
    (by
      intro fr hfr a ha
      rw [hfr]
      exact ha)
  have hshared : ∀ a ∈ ((m0.frames[current]?).map (fun cf => cf.m_features)).getD [],
      a ∉ pf.m_features := by
    intro a ha
    cases hcur : m0.frames[current]? with
    | none =>
      rw [hcur] at ha
      simp at ha
    | some cf =>
      rw [hcur] at ha
      exact hfresh cf hcur a ha
  obtain ⟨_, h2, _, h4, h5⟩ := hfoot
  have hframe : (track_features O tr m0 (some current) (some previous)).2.frames[previous]? =
      some pf := by
    rw [h2 previous (Ne.symm hne)]
    exact hprev
  have hrec : ∀ a ∈ pf.m_features,
      (track_features O tr m0 (some current) (some previous)).2.features[a]? =
        m0.features[a]? :=
    fun a ha => h4 a (halloc a ha) (fun hs => hshared a hs ha)
  refine ⟨hframe, hrec, ?_, ?_⟩
  · unfold frame_value
    rw [hframe, hprev]
    simp only [Option.map_some']
    have hderef : (track_features O tr m0 (some current) (some previous)).2.deref pf.m_features =
        m0.deref pf.m_features := by
      unfold deref
      apply List.filterMap_congr
      intro a ha
      exact hrec a ha
    rw [hderef]
  · intro cf hcf a ha hmem
    rcases h5 cf hcf a ha with hs | hge
    · exact hshared a hs hmem
    · have := halloc a hmem
      omega

/-- C16, amended, witness: the current frame object of `memory_two_frames` is another object
than the previous one and holds no feature; after the call the previous frame reads as before,
and the current frame holds the two propagated features and the minted one. -/
theorem previous_frame_unchanged_witness :
    (track_features (scenario_oracles [⟨30, 30⟩] (fun pts => pts) [1, 1] []) FeatureTracker.new
          memory_two_frames (some 1) (some 0)).2.frame_summary 1 =
        some [(0, ⟨10, 10⟩, 3), (1, ⟨20, 20⟩, 3), (0, ⟨30, 30⟩, 1)] ∧
      (track_features (scenario_oracles [⟨30, 30⟩] (fun pts => pts) [1, 1] []) FeatureTracker.new
          memory_two_frames (some 1) (some 0)).2.frame_value 0 =
        memory_two_frames.frame_value 0 :=
  ⟨by decide!,
    (previous_frame_unchanged (scenario_oracles [⟨30, 30⟩] (fun pts => pts) [1, 1] [])
      FeatureTracker.new memory_two_frames 1 0 _ (by decide) rfl
      (by
        intro a ha
        have ha2 : a ∈ [0, 1] := ha
        simp only [List.mem_cons, List.mem_singleton, List.not_mem_nil, or_false] at ha2
        rcases ha2 with rfl | rfl <;> decide)
      (by
        intro cf hcf a ha
        cases hcf
        exact (List.not_mem_nil a ha).elim)).2.2.1⟩

end Memory

/-! ## Repeated ids in the feature store (claim C21) -/

namespace Frame

theorem exists_last_position (l : List ℤ) (k : ℤ) (hk : k ∈ l) :
    ∃ p : ℕ, l[p]? = some k ∧ ∀ j : ℕ, p < j → l[j]? ≠ some k := by
  obtain ⟨i, hi⟩ := List.mem_iff_getElem?.1 hk
  have hil : i < l.length := (List.getElem?_eq_some.1 hi).1
  refine ⟨Nat.findGreatest (fun j : ℕ => l[j]? = some k) l.length, ?_, ?_⟩
  · exact Nat.findGreatest_spec (P := fun j => l[j]? = some k) (le_of_lt hil) hi
  · intro j hj hc
    have hjl : j < l.length := (List.getElem?_eq_some.1 hc).1
    exact Nat.findGreatest_is_greatest (P := fun j => l[j]? = some k) hj (le_of_lt hjl) hc

theorem add_feature_index (fr : Frame) (feature : Feature) :
    (fr.add_feature feature).m_feature_id_to_index feature.m_feature_id =
      some fr.m_features.length := by
  simp [add_feature, Feature.get_feature_id]

theorem add_feature_get_feature (fr : Frame) (feature : Feature) :
    (fr.add_feature feature).get_feature feature.m_feature_id = some feature := by
  unfold get_feature
  rw [add_feature_index]
  simp [add_feature]

theorem remove_added_feature (fr : Frame) (feature : Feature) :
    (fr.add_feature feature).remove_feature feature.m_feature_id =
      { fr with m_feature_id_to_index := rebuilt_index fr.m_features } := by
  unfold remove_feature
  rw [add_feature_index]
  have herase : (fr.m_features ++ [feature]).eraseIdx fr.m_features.length = fr.m_features := by
    rw [List.eraseIdx_append_of_length_le (le_refl _)]
    simp
  simp only [update_feature_index, add_feature, herase]

theorem get_feature_rebuilt (fr : Frame) (k : ℤ) (p : ℕ) (feature : Feature)
    (hp : fr.m_features[p]? = some feature) (hk : feature.m_feature_id = k)
    (hlast : ∀ j : ℕ, p < j → fr.ids[j]? ≠ some k) :
    get_feature { fr with m_feature_id_to_index := rebuilt_index fr.m_features } k =
      some feature := by
  have hidx : rebuilt_index fr.m_features k = some p := by
    rw [rebuilt_index_iff]
    refine ⟨?_, hlast⟩
    rw [List.getElem?_map, hp]
    simp [Feature.get_feature_id, hk]
  unfold get_feature
  simp only [hidx, List.get?_eq_getElem?]
  exact hp

/-- C21: `add_feature` does not enforce id uniqueness. On every frame that stores a feature
with id `k`, adding the feature `later` with id `k` appends it as a further record (the others
stay, the count grows by 1, the id `k` is stored twice) and `get_feature(k)` then returns
`later`. A following `remove_feature(k)` removes that record only (the stored features are
again those of before), and `get_feature(k)` then returns a feature stored before, not null:
the last stored feature with id `k`, which is the one with that id when the ids stored before
were distinct. -/
theorem add_feature_keeps_repeated_id (fr : Frame) (k : ℤ) (later : Feature)
    (hstored : k ∈ fr.ids) (hlater : later.m_feature_id = k) :
    (fr.add_feature later).m_features = fr.m_features ++ [later] ∧
      (fr.add_feature later).get_feature_count = fr.get_feature_count + 1 ∧
      ¬ (fr.add_feature later).ids.Nodup ∧
      (fr.add_feature later).get_feature k = some later ∧
      ((fr.add_feature later).remove_feature k).m_features = fr.m_features ∧
      (∃ earlier ∈ fr.m_features, earlier.m_feature_id = k ∧
        ((fr.add_feature later).remove_feature k).get_feature k = some earlier) ∧
      (∀ (p : ℕ) (earlier : Feature), fr.m_features[p]? = some earlier →
        earlier.m_feature_id = k → (∀ j : ℕ, p < j → fr.ids[j]? ≠ some k) →
        ((fr.add_feature later).remove_feature k).get_feature k = some earlier) ∧
      (fr.ids.Nodup → ∀ earlier ∈ fr.m_features, earlier.m_feature_id = k →
        ((fr.add_feature later).remove_feature k).get_feature k = some earlier) := by
  subst hlater
  have hlastget : ∀ (p : ℕ) (earlier : Feature), fr.m_features[p]? = some earlier →
      earlier.m_feature_id = later.m_feature_id →
      (∀ j : ℕ, p < j → fr.ids[j]? ≠ some later.m_feature_id) →
      ((fr.add_feature later).remove_feature later.m_feature_id).get_feature
        later.m_feature_id = some earlier := by
    intro p earlier hp hk hlast
    rw [remove_added_feature]
    exact get_feature_rebuilt fr _ p earlier hp hk hlast
  refine ⟨rfl, ?_, ?_, add_feature_get_feature fr later, ?_, ?_, hlastget, ?_⟩
  · simp [get_feature_count, add_feature]
  · rw [add_feature_ids]
    intro hnodup
    rw [List.nodup_append] at hnodup
    exact hnodup.2.2 hstored (List.mem_singleton_self _)
  · rw [remove_added_feature]
  · obtain ⟨p, hp, hlast⟩ := exists_last_position fr.ids _ hstored
    have hp2 := hp
    rw [ids, List.getElem?_map] at hp2
    cases hf : fr.m_features[p]? with
    | none => rw [hf] at hp2; cases hp2
    | some earlier =>
      rw [hf] at hp2
      have hk : earlier.m_feature_id = later.m_feature_id := Option.some.inj hp2
      exact ⟨earlier, List.getElem?_mem hf, hk, hlastget p earlier hf hk hlast⟩
  · intro hnodup earlier hmem hk
    obtain ⟨p, hp⟩ := List.mem_iff_getElem?.1 hmem
    refine hlastget p earlier hp hk ?_
    intro j hj hc
    have hpk : fr.ids[p]? = some later.m_feature_id := by
      rw [ids, List.getElem?_map, hp]
      simp [Feature.get_feature_id, hk]
    have := nodup_getElem?_unique hnodup hpk hc
    omega

/-- C21, witness: a frame storing the feature with id 5 at (1, 1) is given a second feature
with id 5 at (2, 2): both are stored and `get_feature(5)` is the second; after
`remove_feature(5)` the first is stored alone and `get_feature(5)` returns it. -/
theorem add_feature_keeps_repeated_id_witness :
    (((Frame.new 0 0).add_feature (Feature.new 5 ⟨1, 1⟩)).add_feature
        (Feature.new 5 ⟨2, 2⟩)).m_features = [Feature.new 5 ⟨1, 1⟩, Feature.new 5 ⟨2, 2⟩] ∧
      (((Frame.new 0 0).add_feature (Feature.new 5 ⟨1, 1⟩)).add_feature
        (Feature.new 5 ⟨2, 2⟩)).get_feature 5 = some (Feature.new 5 ⟨2, 2⟩) ∧
      ((((Frame.new 0 0).add_feature (Feature.new 5 ⟨1, 1⟩)).add_feature
        (Feature.new 5 ⟨2, 2⟩)).remove_feature 5).m_features = [Feature.new 5 ⟨1, 1⟩] ∧
      ((((Frame.new 0 0).add_feature (Feature.new 5 ⟨1, 1⟩)).add_feature
        (Feature.new 5 ⟨2, 2⟩)).remove_feature 5).get_feature 5 =
          some (Feature.new 5 ⟨1, 1⟩) :=
  have h := add_feature_keeps_repeated_id ((Frame.new 0 0).add_feature (Feature.new 5 ⟨1, 1⟩))
    5 (Feature.new 5 ⟨2, 2⟩) (by decide!) (by rfl)
  ⟨h.1, h.2.2.2.1, h.2.2.2.2.1,
    h.2.2.2.2.2.2.2 (by decide!) (Feature.new 5 ⟨1, 1⟩) (by decide!) (by rfl)⟩

end Frame

end lightweight_vio
